import Mathlib

/-!
Shallow embedding of the `messageformat` core:

* the resolution/formatting engine of
  `packages/messageformat/src/format-message.ts`, and
* the MF2 placeholder parser of
  `packages/mf2-messageformat/src/parser/placeholder.ts`.

JavaScript runtime values are modelled by `JSVal`.  JavaScript numbers are
modelled as integers plus NaN: none of the verified claims depends on
non-integral numeric values, and integral arithmetic below 2^53 is exact in
JS.  Locale-sensitive `Number.prototype.toLocaleString` is modelled as the
ECMA-262 default (identical to `toString`), i.e. a host without ECMA-402
locale data; the verified claims do not depend on locale-specific number
rendering.  Strings are Lean `String`s; the TS code indexes sources by code
unit, modelled as `List Char` with `Nat` offsets in the parser section.
-/

set_option linter.unusedVariables false

/-- JavaScript numbers, restricted to integral values and NaN. -/
inductive JSNum where
  | int : Int → JSNum
  | nan : JSNum
deriving DecidableEq, Repr

/-- JavaScript runtime values: the scope values, function arguments and
function results handled by the resolution engine. -/
inductive JSVal where
  | vstr : String → JSVal
  | vnum : JSNum → JSVal
  | vbool : Bool → JSVal
  | vnull : JSVal
  | vundefined : JSVal
  | vobj : List (String × JSVal) → JSVal
  | varr : List JSVal → JSVal

/-- `typeof v` for the modelled values. -/
def jsTypeof : JSVal → String
  | .vstr _ => "string"
  | .vnum _ => "number"
  | .vbool _ => "boolean"
  | .vnull => "object"
  | .vundefined => "undefined"
  | .vobj _ => "object"
  | .varr _ => "object"

/-- Rendering of a JS number by `toString` (and by `toLocaleString` on the
modelled ECMA-262 host). -/
def jsNumToString : JSNum → String
  | .int i => toString i
  | .nan => "NaN"

mutual
/-- `String(v)`: JS string coercion. -/
def jsString : JSVal → String
  | .vstr s => s
  | .vnum n => jsNumToString n
  | .vbool b => if b then "true" else "false"
  | .vnull => "null"
  | .vundefined => "undefined"
  | .vobj _ => "[object Object]"
  | .varr xs => String.intercalate "," (jsStringElems xs)

/-- `Array.prototype.toString` renders elements with `String`, except that
`null` and `undefined` elements render as the empty string. -/
def jsStringElems : List JSVal → List String
  | [] => []
  | .vnull :: xs => "" :: jsStringElems xs
  | .vundefined :: xs => "" :: jsStringElems xs
  | x :: xs => jsString x :: jsStringElems xs
end

/-- JS truthiness for the modelled values. -/
def jsTruthy : JSVal → Bool
  | .vstr s => !s.isEmpty
  | .vnum (.int i) => i != 0
  | .vnum .nan => false
  | .vbool b => b
  | .vnull => false
  | .vundefined => false
  | .vobj _ => true
  | .varr _ => true

/-- Property lookup `o[k]` on an object or array value; absent keys give
`undefined`.  Array lookup models only index access by decimal key. -/
def jsIndex : JSVal → String → JSVal
  | .vobj fields, k => ((fields.find? (fun f => f.1 = k)).map Prod.snd).getD .vundefined
  | .varr xs, k =>
      match k.toNat? with
      | some i => (xs.get? i).getD .vundefined
      | none => .vundefined
  | _, _ => .vundefined

/-- Digit run to number, most significant first. -/
def digitsToNat (ds : List Char) : Nat :=
  ds.foldl (fun n c => n * 10 + (c.toNat - 48)) 0

/-- `Number(s)` numeric parse of a string, modelled for integer literals:
an optionally signed run of digits (with surrounding whitespace) parses to
that integer, the empty/blank string parses to `0`, everything else to
NaN. -/
def jsParseNumber (s : String) : JSNum :=
  let isWs : Char → Bool := fun c => c = ' ' || c = '\t' || c = '\n' || c = '\r'
  let cs := ((s.toList.dropWhile isWs).reverse.dropWhile isWs).reverse
  match cs with
  | [] => .int 0
  | '-' :: ds =>
      if !ds.isEmpty && ds.all Char.isDigit then .int (-(digitsToNat ds : Int)) else .nan
  | '+' :: ds =>
      if !ds.isEmpty && ds.all Char.isDigit then .int (digitsToNat ds) else .nan
  | ds =>
      if ds.all Char.isDigit then .int (digitsToNat ds) else .nan

/-- Scalar values retained in a resolved metadata bag
(`FormattedMeta = Record<string, string | number | boolean | null>`). -/
inductive ScalarVal where
  | b : Bool → ScalarVal
  | n : JSNum → ScalarVal
  | s : String → ScalarVal
  | null : ScalarVal
deriving DecidableEq, Repr

/-- Values of an incoming metadata bag (`Meta`): scalars, `null`,
`undefined`, or objects.  An object either exposes a `valueOf` scalar
projection returning the given value (`objVal`, e.g. `Boolean`/`Number`/
`String` instances), returns itself like a plain object (`objSelf`), or has
no callable `valueOf` (`objNoValueOf`, e.g. `Object.create(null)`). -/
inductive MetaVal where
  | mbool : Bool → MetaVal
  | mnum : JSNum → MetaVal
  | mstr : String → MetaVal
  | mnull : MetaVal
  | mundefined : MetaVal
  | objSelf : MetaVal
  | objVal : MetaVal → MetaVal
  | objNoValueOf : MetaVal
deriving DecidableEq, Repr

/-- An incoming metadata bag, in key insertion order. -/
abbrev MMeta := List (String × MetaVal)

/-- A resolved metadata bag (`FormattedMeta`), in key insertion order. -/
abbrev FmtMeta := List (String × ScalarVal)

/-- Lookup in a resolved metadata bag. -/
def metaLookup (bag : FmtMeta) (key : String) : Option ScalarVal :=
  (bag.find? (fun e => e.1 = key)).map Prod.snd

/-- One iteration of the `addMeta` loop of format-message.ts (lines
99-119): first write wins; `null` is written as `null`; an object is
replaced by its `valueOf` projection when callable; after that only
boolean/number/string values are written. -/
def addMetaEntry (bag : FmtMeta) (key : String) (value : MetaVal) : FmtMeta :=
  if (bag.find? (fun e => e.1 = key)).isSome then bag
  else
    match value with
    | .mnull => bag ++ [(key, .null)]
    | _ =>
      let v := match value with
        | .objVal w => w
        | v => v
      match v with
      | .mbool b => bag ++ [(key, .b b)]
      | .mnum n => bag ++ [(key, .n n)]
      | .mstr s => bag ++ [(key, .s s)]
      | _ => bag

/-- `addMeta(fmt, meta)`: merge an incoming bag into a formatted part's
bag, creating the bag when absent. -/
def addMeta (bag : Option FmtMeta) (meta : MMeta) : Option FmtMeta :=
  some (meta.foldl (fun b e => addMetaEntry b e.1 e.2) (bag.getD []))

/-- Injection of already-resolved scalar metadata back into `MetaVal`, used
when a `Formatted` value's own bag is re-merged by the `Formatted`
constructor. -/
def scalarToMeta : ScalarVal → MetaVal
  | .b b => .mbool b
  | .n n => .mnum n
  | .s s => .mstr s
  | .null => .mnull

/-- The `Formatted` constructor's handling of the `meta` argument:
`undefined` leaves the bag absent, anything else is merged into a fresh
bag. -/
def mkMeta (meta : Option MMeta) : Option FmtMeta :=
  match meta with
  | none => none
  | some m => addMeta none m

/-!
## Data model (`packages/messageformat/src/data-model.ts`)

The data-model module itself is not among the provided sources; the shapes
below follow its use by format-message.ts and the spec.  Modelled from the
spec: a Literal part's value is raw text (spec section 3, "value is raw
text"), so `LiteralValue` is a `String` here.  Option values are
`string | Variable` as used by `resolveOptions`.
-/

mutual
/-- Message pattern parts: Literal, Variable, Function and Term. -/
inductive MsgPart where
  | lit (value : String) (meta : Option MMeta)
  | var (var_path : List MsgPart) (meta : Option MMeta)
  | func (args : List MsgPart) (fname : String)
      (options : Option (List (String × OptVal))) (meta : Option MMeta)
  | term (msg_path : List MsgPart) (res_id : Option String)
      (scope : Option (List (String × OptVal))) (meta : Option MMeta)

/-- An option value: a plain string or a Variable part. -/
inductive OptVal where
  | str (value : String)
  | varO (var_path : List MsgPart) (meta : Option MMeta)
end

/-- The `meta` field shared by all part shapes. -/
def MsgPart.meta : MsgPart → Option MMeta
  | .lit _ m => m
  | .var _ m => m
  | .func _ _ _ m => m
  | .term _ _ _ m => m

/-- One selector of a Select: a part plus its optional default key. -/
structure Selector where
  value : MsgPart
  default : Option String

/-- One variant row: a key tuple plus its pattern. -/
structure SelCase where
  key : List String
  value : List MsgPart

/-- A Select: ordered selectors plus ordered variant cases. -/
structure Select where
  select : List Selector
  cases : List SelCase

/-- A message body: a plain pattern or a select. -/
inductive MsgValue where
  | pattern (p : List MsgPart)
  | select (s : Select)

/-- A message: optional metadata plus a body. -/
structure Message where
  meta : Option MMeta := none
  value : MsgValue

/-!
## Formatted values (`Formatted` class hierarchy, format-message.ts 24-97)
-/

/-- A formatted part: FormattedDynamic, FormattedFallback, FormattedLiteral
or FormattedMessage.  Each instance captures the locales it was constructed
with (the private `#locales` field). -/
inductive FmtPart where
  | dynamic (locales : List String) (value : JSVal) (meta : Option FmtMeta)
  | fallback (locales : List String) (value : String) (meta : Option FmtMeta)
  | literal (locales : List String) (value : String) (meta : Option FmtMeta)
  | message (locales : List String) (value : List FmtPart) (meta : Option FmtMeta)

/-- The `meta` field of a formatted part. -/
def FmtPart.meta : FmtPart → Option FmtMeta
  | .dynamic _ _ m => m
  | .fallback _ _ m => m
  | .literal _ _ m => m
  | .message _ _ m => m

/-- `addMeta` applied to a formatted part. -/
def fmtAddMeta (p : FmtPart) (m : MMeta) : FmtPart :=
  match p with
  | .dynamic l v mb => .dynamic l v (addMeta mb m)
  | .fallback l v mb => .fallback l v (addMeta mb m)
  | .literal l v mb => .literal l v (addMeta mb m)
  | .message l v mb => .message l v (addMeta mb m)

mutual
/-- `v.toLocaleString(locales)` where available, else `String(v)`
(Formatted.toString, lines 45-52).  On the modelled ECMA-262 host,
`toLocaleString` agrees with `toString` for every value, so the locales
argument does not influence the result. -/
def jsToLocaleString (locales : List String) : JSVal → String
  | .vstr s => s
  | .vnum n => jsNumToString n
  | .vbool b => if b then "true" else "false"
  | .vnull => "null"
  | .vundefined => "undefined"
  | .vobj _ => "[object Object]"
  | .varr xs => String.intercalate "," (jsToLocaleStringElems locales xs)

def jsToLocaleStringElems (locales : List String) : List JSVal → List String
  | [] => []
  | .vnull :: xs => "" :: jsToLocaleStringElems locales xs
  | .vundefined :: xs => "" :: jsToLocaleStringElems locales xs
  | x :: xs => jsToLocaleString locales x :: jsToLocaleStringElems locales xs
end

mutual
/-- `fp.toString()`: per-variant string coercion (lines 45-52, 63-65,
82-86). -/
def fmtToString : FmtPart → String
  | .dynamic locales v _ => jsToLocaleString locales v
  | .fallback _ v _ => "\x7b" ++ v ++ "\x7d"
  | .literal locales v _ => jsToLocaleString locales (.vstr v)
  | .message _ ps _ => fmtConcat ps

def fmtConcat : List FmtPart → String
  | [] => ""
  | p :: ps => fmtToString p ++ fmtConcat ps
end

/-- `fp.valueOf()`: dynamic and literal values unwrap, fallback and message
values coerce through `toString`. -/
def fmtValueOf : FmtPart → JSVal
  | .dynamic _ v _ => v
  | .fallback _ v _ => .vstr ("\x7b" ++ v ++ "\x7d")
  | .literal _ v _ => .vstr v
  | .message _ ps _ => .vstr (fmtConcat ps)

/-- Element rendering used by `Array.prototype.join`: `String(v)` except
that `null` and `undefined` render empty. -/
def jsJoinElem : JSVal → String
  | .vnull => ""
  | .vundefined => ""
  | v => jsString v

/-!
## Runtime registry and context (`format-context.ts`, `runtime`)
-/

/-- A thrown JS failure, as observed through `.name`/`.message`/`.stack`. -/
structure JSError where
  name : String
  message : String
  stack : String
deriving DecidableEq, Repr

/-- A runtime type in a function's option schema: a type name or an
enumerated list of allowed strings. -/
inductive RuntimeType where
  | name (t : String)
  | enum (ts : List String)
deriving DecidableEq, Repr

/-- The `options` schema of a runtime function: one runtime type for all
options, or a per-option record. -/
inductive ExpectedSpec where
  | single (t : RuntimeType)
  | record (m : List (String × RuntimeType))

/-- A runtime function's return value: a raw value or an already-formatted
part (`value instanceof Formatted`). -/
inductive FnRes where
  | raw (v : JSVal)
  | fmtd (p : FmtPart)

/-- A registered runtime function: an optional option schema plus a `call`
implementation that may throw.  The options argument is `none` when the
engine passes `undefined` (numeric-selector plural re-run). -/
structure RuntimeFn where
  options : Option ExpectedSpec := none
  call : List String → Option (List (String × JSVal)) → List JSVal → Except JSError FnRes

/-- A resolved selector (format-message.ts 259-262).  The TS type declares
`value: LiteralValue | LiteralValue[]`, but runtime values flow in
unchecked from select functions, so the model keeps the full value
domain. -/
structure ResolvedSelector where
  value : JSVal
  default : String

/-- The resolution context: locales, variable scope, message lookup and
the two runtime registries.  `selectMeta` stands for
`getFormattedSelectMeta` (detect-grammar.ts, not among the sources) -
modelled from the spec: it produces optional diagnostic metadata for a
successful variant match and never affects which parts render. -/
structure Context where
  locales : List String
  scope : List (String × JSVal)
  getMessage : Option String → List String → Option Message
  format : String → Option RuntimeFn
  select : String → Option RuntimeFn
  selectMeta : Select → List ResolvedSelector → List String → Option MMeta

/-- Modelled from the spec: `extendContext` (format-context.ts, not among
the sources) layers a new scope over the context for a term's nested
resolution; the resource id only redirects message lookup, which the
model's `getMessage` receives explicitly. -/
def extendContext (ctx : Context) (res_id : Option String)
    (scope : List (String × JSVal)) : Context :=
  { ctx with scope := scope }

/-- `target[k] = v` on a JS object modelled as an insertion-ordered
association list: an existing key is overwritten in place, a new key is
appended. -/
def jsObjAssign (base : List (String × JSVal)) (k : String) (v : JSVal) :
    List (String × JSVal) :=
  if (base.find? (fun e => e.1 = k)).isSome
  then base.map (fun e => if e.1 = k then (k, v) else e)
  else base ++ [(k, v)]

/-- `Object.assign({}, base, over)`. -/
def jsAssignAll (base : List (String × JSVal)) (over : List (String × JSVal)) :
    List (String × JSVal) :=
  over.foldl (fun b e => jsObjAssign b e.1 e.2) base

/-- Schema lookup for one option name (resolveOptions lines 179-182). -/
def getExpected (exp : ExpectedSpec) (key : String) : Option RuntimeType :=
  match exp with
  | .single t => some t
  | .record m => (m.find? (fun e => e.1 = key)).map Prod.snd

/-- `!exp || exp === 'never'` for a present schema entry: the empty type
name is falsy, `"never"` is skipped explicitly. -/
def expSkip : RuntimeType → Bool
  | .name t => t = "" || t = "never"
  | .enum _ => false

/-- The keep test of resolveOptions (lines 199-203). -/
def optKeep (t : RuntimeType) (res : JSVal) : Bool :=
  t = .name "any" || t = .name (jsTypeof res) ||
    (match t, res with
     | .enum ts, .vstr s => ts.contains s
     | _, _ => false)

/-- `isLiteral` of the data-model module applied to a runtime value
(resolveSelectFunction line 320).  Modelled from the spec: the data-model
type guards are duck-typed checks of a `type` tag. -/
def isLiteralVal : JSVal → Bool
  | .vobj fields =>
      match (fields.find? (fun f => f.1 = "type")).map Prod.snd with
      | some (.vstr t) => t = "literal"
      | _ => false
  | _ => false

/-- A selector-function result before `valueOf` dispatch: a raw value or a
`Formatted` instance. -/
inductive ResVal where
  | rawv (v : JSVal)
  | fmtv (p : FmtPart)

/-- `r instanceof Formatted ? r.valueOf() : r`. -/
def resValValueOf : ResVal → JSVal
  | .rawv v => v
  | .fmtv p => fmtValueOf p

/-- `s.default || 'other'` (line 286): an absent or empty default key
falls back to `"other"`. -/
def selDefaultKey (sel : Selector) : String :=
  match sel.default with
  | some d => if d.isEmpty then "other" else d
  | none => "other"

/-- The per-index key test of the variant scan (lines 291-298):
`k === r.default || k === r.value || (Array.isArray(r.value) &&
r.value.includes(k))`. -/
def isVstrEq (v : JSVal) (k : String) : Bool :=
  match v with
  | .vstr s => s = k
  | _ => false

def matchesSel (r : ResolvedSelector) (k : String) : Bool :=
  k = r.default || isVstrEq r.value k ||
    (match r.value with
     | .varr xs => xs.any (fun x => isVstrEq x k)
     | _ => false)

/-- `key.every((k, i) => ...)` with short-circuiting: reading `res[i]` past
the end of `res` throws in JS, but only when reached. -/
def caseKeyMatches (res : List ResolvedSelector) : List String → Nat →
    Except JSError Bool
  | [], _ => .ok true
  | k :: ks, i =>
      match res.get? i with
      | none => .error ⟨"TypeError",
          "Cannot read properties of undefined (reading 'default')", ""⟩
      | some r => if matchesSel r k then caseKeyMatches res ks (i + 1) else .ok false

/-- The variant scan of resolveSelect (lines 289-306): first fully
matching case in declaration order, if any. -/
def scanCases (res : List ResolvedSelector) : List SelCase →
    Except JSError (Option SelCase)
  | [] => .ok none
  | c :: cs => do
      if ← caseKeyMatches res c.key 0 then .ok (some c) else scanCases res cs

/-- The failure produced by calling `.call` on an absent registry entry. -/
def undefinedCallError : JSError :=
  ⟨"TypeError", "Cannot read properties of undefined (reading 'call')", ""⟩

/-- The model's fuel-exhaustion marker.  The source recursion across term
references is unbounded (spec section 5: an unguarded cyclic term reference
does not terminate); the totalized model consumes one unit of fuel per
resolver step, and every verified statement holds for all sufficient fuel
values. -/
def fuelError : JSError :=
  ⟨"ModelFuel", "resolution depth budget exhausted (model artifact)", ""⟩

/-!
## Resolution engine (format-message.ts 121-380)

Each resolver consumes one unit of fuel per step; `fuelError` can only
appear when the fuel budget is insufficient for the nesting depth of the
input (the source recursion is unbounded across term references).
-/

mutual
/-- `resolvePart` (lines 147-162). -/
def resolvePart (fuel : Nat) (ctx : Context) (part : MsgPart) :
    Except JSError FmtPart :=
  match fuel with
  | 0 => .error fuelError
  | f + 1 =>
    match part with
    | .lit v meta => .ok (.literal ctx.locales v (mkMeta meta))
    | .var path meta => resolveVariable f ctx path meta
    | .func args fname options meta => resolveFormatFunction f ctx args fname options meta
    | .term mp rid sc meta => resolveTerm f ctx mp rid sc meta

/-- `resolveArgument` (lines 164-171): literal and variable parts only;
anything else throws to the caller. -/
def resolveArgument (fuel : Nat) (ctx : Context) (part : MsgPart) :
    Except JSError JSVal :=
  match fuel with
  | 0 => .error fuelError
  | f + 1 =>
    match part with
    | .lit v _ => .ok (.vstr v)
    | .var path meta => (resolveVariable f ctx path meta).map fmtValueOf
    | _ => .error ⟨"Error", "Unsupported function argument", ""⟩

/-- `resolveVariable` (lines 324-341): walk the path against the scope;
`undefined` anywhere gives the `$path` fallback. -/
def resolveVariable (fuel : Nat) (ctx : Context) (var_path : List MsgPart)
    (meta : Option MMeta) : Except JSError FmtPart :=
  match fuel with
  | 0 => .error fuelError
  | f + 1 => do
    let val0 : JSVal := if var_path.length > 0 then .vobj ctx.scope else .vundefined
    let val ← var_path.foldlM (fun val p =>
      if !jsTruthy val || !(jsTypeof val = "object" : Bool) then
        pure JSVal.vundefined
      else do
        let k ← resolveArgument f ctx p
        pure (jsIndex val (jsString k))) val0
    match val with
    | .vundefined => resolveFallback f ctx (.var var_path meta)
    | _ => .ok (.dynamic ctx.locales val (mkMeta meta))

/-- `resolveFallback` (lines 343-349). -/
def resolveFallback (fuel : Nat) (ctx : Context) (part : MsgPart) :
    Except JSError FmtPart :=
  match fuel with
  | 0 => .error fuelError
  | f + 1 => do
    let text ← fallbackValue f ctx part
    .ok (.fallback ctx.locales text (mkMeta part.meta))

/-- `fallbackValue` (lines 351-380): the diagnostic text of an unresolved
part. -/
def fallbackValue (fuel : Nat) (ctx : Context) (part : MsgPart) :
    Except JSError String :=
  match fuel with
  | 0 => .error fuelError
  | f + 1 =>
    match part with
    | .lit v _ => .ok v
    | .var path _ => do
        let vals ← path.mapM (fun p => (resolvePart f ctx p).map fmtValueOf)
        .ok ("$" ++ String.intercalate "." (vals.map jsJoinElem))
    | .func args fname options _ => do
        let avs ← args.mapM (fun p => (resolvePart f ctx p).map fmtValueOf)
        let optStrs := match options with
          | none => []
          | some opts => opts.map (fun e => e.1 ++ ": " ++
              (match e.2 with
               | .str s => s
               | .varO _ _ => "[object Object]"))
        .ok (fname ++ "(" ++
          String.intercalate ", " (avs.map jsJoinElem ++ optStrs) ++ ")")
    | .term mp rid scope _ => do
        let vals ← mp.mapM (fun p => (resolvePart f ctx p).map fmtValueOf)
        let name0 := String.intercalate "." (vals.map jsJoinElem)
        let name := match rid with
          | some r => r ++ "::" ++ name0
          | none => name0
        match scope with
        | none => .ok ("-" ++ name)
        | some sc => do
            let entries ← sc.mapM (fun e => do
              let vs ← match e.2 with
                | .str s => pure s
                | .varO path meta =>
                    (resolvePart f ctx (.var path meta)).map
                      (fun p => jsString (fmtValueOf p))
              pure (e.1 ++ ": " ++ vs))
            .ok ("-" ++ name ++ "(" ++ String.intercalate ", " entries ++ ")")

/-- `resolveOptions` (lines 173-208). -/
def resolveOptions (fuel : Nat) (ctx : Context)
    (options : Option (List (String × OptVal))) (expected : Option ExpectedSpec) :
    Except JSError (List (String × JSVal)) :=
  match fuel with
  | 0 => .error fuelError
  | f + 1 =>
    match options, expected with
    | some opts, some exp =>
        opts.foldlM (fun acc e => do
          match getExpected exp e.1 with
          | none => pure acc
          | some t =>
            if expSkip t then pure acc
            else do
              let res ← match e.2 with
                | .varO path meta => (resolveVariable f ctx path meta).map fmtValueOf
                | .str s =>
                    pure (if t = .name "boolean" then
                            (if s = "true" then JSVal.vbool true
                             else if s = "false" then JSVal.vbool false
                             else .vstr s)
                          else if t = .name "number" then .vnum (jsParseNumber s)
                          else .vstr s)
              if optKeep t res then pure (jsObjAssign acc e.1 res) else pure acc) []
    | _, _ => pure []

/-- `resolveFormatFunction` (lines 210-240): lookup in the format
registry, invoke, wrap the result; any thrown failure becomes a fallback
carrying `error_name`/`error_message`/`error_stack` metadata. -/
def resolveFormatFunction (fuel : Nat) (ctx : Context) (args : List MsgPart)
    (fname : String) (options : Option (List (String × OptVal)))
    (meta : Option MMeta) : Except JSError FmtPart :=
  match fuel with
  | 0 => .error fuelError
  | f + 1 => do
    let rf := ctx.format fname
    let as ← args.mapM (fun a => resolveArgument f ctx a)
    let os ← resolveOptions f ctx options (rf.bind RuntimeFn.options)
    let caught : JSError → Except JSError FmtPart := fun e => do
      let fb ← resolveFallback f ctx (.func args fname options meta)
      .ok (fmtAddMeta fb
        [("error_name", .mstr e.name), ("error_message", .mstr e.message),
         ("error_stack", .mstr e.stack)])
    match rf with
    | none => caught undefinedCallError
    | some g =>
        match g.call ctx.locales (some os) as with
        | .error e => caught e
        | .ok (.raw v) => .ok (.dynamic ctx.locales v (mkMeta meta))
        | .ok (.fmtd p) =>
            match p with
            | .literal _ v vm =>
                .ok (.dynamic ctx.locales (.vstr v)
                  (let b0 := match vm with
                    | none => none
                    | some m => addMeta none (m.map (fun e => (e.1, scalarToMeta e.2)))
                   match meta with
                   | none => b0
                   | some m => addMeta b0 m))
            | _ =>
                .ok (match meta with
                  | some m => fmtAddMeta p m
                  | none => p)

/-- `resolveTerm` (lines 242-257). -/
def resolveTerm (fuel : Nat) (ctx : Context) (msg_path : List MsgPart)
    (res_id : Option String) (scope : Option (List (String × OptVal)))
    (meta : Option MMeta) : Except JSError FmtPart :=
  match fuel with
  | 0 => .error fuelError
  | f + 1 => do
    let strPath ← msg_path.mapM (fun p => (resolvePart f ctx p).map fmtToString)
    match ctx.getMessage res_id strPath with
    | none => resolveFallback f ctx (.term msg_path res_id scope meta)
    | some msg => do
        let ctx2 ←
          if res_id.isSome || scope.isSome then do
            let opt ← match scope with
              | some sc => resolveOptions f ctx (some sc) (some (.single (.name "any")))
              | none => pure []
            pure (extendContext ctx res_id (jsAssignAll ctx.scope opt))
          else pure ctx
        let parts ← formatToParts f ctx2 msg
        .ok (.message ctx2.locales parts (mkMeta meta))

/-- `resolveSelect` (lines 264-308): resolve the selectors, then return
the first matching variant's pattern, together with the optional selection
diagnostics produced for the matched key. -/
def resolveSelect (fuel : Nat) (ctx : Context) (s : Select) :
    Except JSError (List MsgPart × Option MMeta) :=
  match fuel with
  | 0 => .error fuelError
  | f + 1 => do
    let res ← s.select.mapM (fun sel => resolveOneSelector f ctx sel)
    match ← scanCases res s.cases with
    | some c => .ok (c.value, ctx.selectMeta s res c.key)
    | none => .ok (([] : List MsgPart), none)

/-- One selector resolution (lines 269-287): function selectors go through
the select registry; numeric values re-run through a registered `plural`;
non-string, non-array values coerce to their string form. -/
def resolveOneSelector (fuel : Nat) (ctx : Context) (sel : Selector) :
    Except JSError ResolvedSelector :=
  match fuel with
  | 0 => .error fuelError
  | f + 1 => do
    let r : ResVal ←
      match sel.value with
      | .func args fname options _ => resolveSelectFunction f ctx args fname options
      | p => (resolvePart f ctx p).map ResVal.fmtv
    let v := resValValueOf r
    let value ←
      if jsTypeof v = "number" then
        match ctx.select "plural" with
        | some plural =>
            match plural.call ctx.locales none [v] with
            | .ok r2 => pure (resValValueOf (match r2 with
                | .raw w => .rawv w
                | .fmtd p => .fmtv p))
            | .error _ => pure v
        | none => pure v
      else
        pure (match v with
          | .vstr _ => v
          | .varr _ => v
          | _ => .vstr (jsString v))
    .ok { value := value, default := selDefaultKey sel }

/-- `resolveSelectFunction` (lines 310-322): a thrown failure falls back
to the first resolved argument, coerced to a string unless it is a literal
value. -/
def resolveSelectFunction (fuel : Nat) (ctx : Context) (args : List MsgPart)
    (fname : String) (options : Option (List (String × OptVal))) :
    Except JSError ResVal :=
  match fuel with
  | 0 => .error fuelError
  | f + 1 => do
    let fn := ctx.select fname
    let as ← args.mapM (fun a => resolveArgument f ctx a)
    let os ← resolveOptions f ctx options (fn.bind RuntimeFn.options)
    let caughtVal : ResVal := .rawv (match as.get? 0 with
      | some a => if isLiteralVal a then a else .vstr (jsString a)
      | none => .vstr (jsString JSVal.vundefined))
    match fn with
    | none => .ok caughtVal
    | some g =>
        match g.call ctx.locales (some os) as with
        | .ok (.raw w) => .ok (.rawv w)
        | .ok (.fmtd p) => .ok (.fmtv p)
        | .error _ => .ok caughtVal

/-- `formatToParts` (lines 127-145). -/
def formatToParts (fuel : Nat) (ctx : Context) (msg : Message) :
    Except JSError (List FmtPart) :=
  match fuel with
  | 0 => .error fuelError
  | f + 1 => do
    let (pattern, fsm) ←
      match msg.value with
      | .select s => resolveSelect f ctx s
      | .pattern p => pure (p, (none : Option MMeta))
    let res ← pattern.mapM (fun part => resolvePart f ctx part)
    if msg.meta.isSome || fsm.isSome then
      let fm0 := FmtPart.message ctx.locales res (mkMeta msg.meta)
      .ok [match fsm with
        | some m => fmtAddMeta fm0 m
        | none => fm0]
    else .ok res
end

/-- `formatToString` (lines 121-125): concatenate the `toString` of every
returned part. -/
def formatToString (fuel : Nat) (ctx : Context) (msg : Message) :
    Except JSError String :=
  (formatToParts fuel ctx msg).map fmtConcat

/-!
## Placeholder parser (mf2-messageformat/src/parser/placeholder.ts)

The source string is modelled as a `List Char` indexed by `Nat` offsets,
matching the TS code-unit indexing.  `names.ts`, `util.ts` and `values.ts`
are not among the provided sources; their functions are modelled from the
spec's description of the lexical helpers ("whitespace-skipping, name-token
recognition, literal/variable-reference recognition") with explicit
character classes.
-/

/-- Modelled from the spec: the whitespace characters skipped by
`whitespaces` (util.ts): space, tab, line feed, carriage return. -/
def isSpaceChar (c : Char) : Bool :=
  c.toNat = 32 || c.toNat = 9 || c.toNat = 10 || c.toNat = 13

/-- Modelled from the spec: the characters of a name token / nmtoken
(names.ts): ASCII letters, digits and underscore.  Disjoint from
whitespace and from every syntax sigil. -/
def isNameChar (c : Char) : Bool :=
  (97 ≤ c.toNat && c.toNat ≤ 122) || (65 ≤ c.toNat && c.toNat ≤ 90) ||
    (48 ≤ c.toNat && c.toNat ≤ 57) || c.toNat = 95

/-- `src[pos]`: code-unit access; `none` past the end. -/
def charAt (src : List Char) (pos : Nat) : Option Char :=
  (src.drop pos).head?

/-- `whitespaces(src, pos)`: the length of the whitespace run at `pos`. -/
def whitespaces (src : List Char) (pos : Nat) : Nat :=
  ((src.drop pos).takeWhile isSpaceChar).length

/-- `parseNameValue(src, pos)`: the (possibly empty) name token at `pos`. -/
def parseNameValue (src : List Char) (pos : Nat) : List Char :=
  (src.drop pos).takeWhile isNameChar

/-- A parse error: `{ type, start, end?, char? }`. -/
structure PErr where
  type : String
  start : Nat
  stop : Option Nat := none
  char : Option Char := none
deriving DecidableEq, Repr

/-- A parsed operand or option value token: literal, variable reference,
or nmtoken. -/
inductive ValTok where
  | lit (start stop : Nat) (value : List Char)
  | variable (start stop : Nat) (name : List Char)
  | nmtoken (start stop : Nat) (value : List Char)
deriving DecidableEq, Repr

/-- The `end` offset of a value token. -/
def ValTok.stop : ValTok → Nat
  | .lit _ e _ => e
  | .variable _ e _ => e
  | .nmtoken _ e _ => e

/-- The `start` offset of a value token. -/
def ValTok.start : ValTok → Nat
  | .lit s _ _ => s
  | .variable s _ _ => s
  | .nmtoken s _ _ => s

/-- A parsed option: `{ start, end, name, value }`. -/
structure OptionTok where
  start : Nat
  stop : Nat
  name : List Char
  value : ValTok
deriving DecidableEq, Repr

/-- The parsed placeholder body: literal/variable operand, expression,
markup-start, markup-end, or junk.  The markup shapes carry no operand
field, mirroring `MarkupStartParsed`/`MarkupEndParsed`. -/
inductive PBody where
  | operand (op : ValTok)
  | expression (operand : Option ValTok) (start stop : Nat)
      (name : List Char) (options : List OptionTok)
  | markupStart (start stop : Nat) (name : List Char) (options : List OptionTok)
  | markupEnd (start stop : Nat) (name : List Char)
  | junk (start stop : Nat) (source : List Char)
deriving DecidableEq, Repr

/-- The `end` offset of a parsed body. -/
def PBody.stop : PBody → Nat
  | .operand op => op.stop
  | .expression _ _ e _ _ => e
  | .markupStart _ e _ _ => e
  | .markupEnd _ e _ => e
  | .junk _ e _ => e

/-- A parsed placeholder node: `{ type: 'placeholder', start, end, body }`. -/
structure Placeholder where
  start : Nat
  stop : Nat
  body : PBody
deriving DecidableEq, Repr

/-- `src.substring(a, b)`. -/
def sliceSrc (src : List Char) (a b : Nat) : List Char :=
  (src.drop a).take (b - a)

/-- Modelled from the spec: `parseLiteral` (values.ts) recognizes a
`(`-delimited literal, scanning to the closing `)`; an unterminated
literal reports a missing-char error at end-of-input.  Must be called with
`(` at `pos`. -/
def parseLiteral (src : List Char) (pos : Nat) (errs : List PErr) :
    ValTok × List PErr :=
  let inner := (src.drop (pos + 1)).takeWhile (fun c => !(c = ')'))
  let core := pos + 1 + inner.length
  if core < src.length then
    (.lit pos (core + 1) inner, errs)
  else
    (.lit pos core inner, errs ++ [⟨"missing-char", core, none, some ')'⟩])

/-- Modelled from the spec: `parseVariable` (values.ts) recognizes `$`
followed by a name; an empty name reports an empty-token error.  Must be
called with `$` at `pos`. -/
def parseVariable (src : List Char) (pos : Nat) (errs : List PErr) :
    ValTok × List PErr :=
  let name := parseNameValue src (pos + 1)
  let errs := if name.isEmpty then errs ++ [⟨"empty-token", pos + 1, none, none⟩] else errs
  (.variable pos (pos + 1 + name.length) name, errs)

/-- Modelled from the spec: `parseNmtoken` (names.ts) recognizes a bare
nmtoken; an empty token reports an empty-token error. -/
def parseNmtoken (src : List Char) (pos : Nat) (errs : List PErr) :
    ValTok × List PErr :=
  let tok := parseNameValue src pos
  let errs := if tok.isEmpty then errs ++ [⟨"empty-token", pos, none, none⟩] else errs
  (.nmtoken pos (pos + tok.length) tok, errs)

/-- `parseOption` (placeholder.ts 140-163). -/
def parseOption (src : List Char) (start : Nat) (errs : List PErr) :
    OptionTok × List PErr :=
  let name := parseNameValue src start
  let p1 := start + name.length
  let p2 := p1 + whitespaces src p1
  let (p3, errs) :=
    if charAt src p2 = some '=' then (p2 + 1, errs)
    else (p2, errs ++ [⟨"missing-char", p2, none, some '='⟩])
  let p4 := p3 + whitespaces src p3
  let (value, errs) :=
    match charAt src p4 with
    | some '(' => parseLiteral src p4 errs
    | some '$' => parseVariable src p4 errs
    | _ => parseNmtoken src p4 errs
  (⟨start, value.stop, name, value⟩, errs)

/-- The option loop of `parseExpressionOrMarkup` (placeholder.ts
105-114): whitespace-separated options until `}` or a stuck option. -/
def optionLoop (src : List Char) (pos : Nat) (acc : List OptionTok)
    (errs : List PErr) : List OptionTok × Nat × List PErr :=
  if h : pos < src.length then
    let ws := whitespaces src pos
    if charAt src (pos + ws) = some '}' then (acc, pos, errs)
    else
      let errs1 := if ws = 0 then errs ++ [⟨"missing-char", pos, none, some ' '⟩] else errs
      let opt := (parseOption src (pos + ws) errs1).1
      let errs2 := (parseOption src (pos + ws) errs1).2
      if hstop : opt.stop = pos + ws then (acc, pos + ws, errs2)
      else optionLoop src opt.stop (acc ++ [opt]) errs2
  else (acc, pos, errs)
termination_by src.length - pos
decreasing_by
  simp only [opt, errs1, ws] at hstop ⊢
  generalize (if _h : whitespaces src pos = 0
      then errs ++ [⟨"missing-char", pos, none, some ' '⟩] else errs) = E at hstop ⊢
  have hge : pos + whitespaces src pos ≤
      (parseOption src (pos + whitespaces src pos) E).1.stop := by
    have hval : ∀ q e, q ≤ ((parseLiteral src q e).1).stop ∧
        q ≤ ((parseVariable src q e).1).stop ∧
        q ≤ ((parseNmtoken src q e).1).stop := by
      intro q e
      refine ⟨?_, ?_, ?_⟩ <;>
        simp only [parseLiteral, parseVariable, parseNmtoken] <;>
        first
          | (split <;> simp [ValTok.stop] <;> omega)
          | (simp [ValTok.stop]; omega)
          | simp [ValTok.stop]
    unfold parseOption
    dsimp only
    split
    next heq => exact le_trans (by split <;> dsimp only <;> omega) (hval _ _).1
    next heq => exact le_trans (by split <;> dsimp only <;> omega) (hval _ _).2.1
    next h1 h2 => exact le_trans (by split <;> dsimp only <;> omega) (hval _ _).2.2
  omega

/-- `parseExpressionOrMarkup` (placeholder.ts 93-137). -/
def parseExpressionOrMarkup (src : List Char) (start : Nat)
    (operand : Option ValTok) (errs : List PErr) : PBody × List PErr :=
  let sigil := charAt src start
  let p1 := start + 1
  let name := parseNameValue src p1
  let errs := if name.isEmpty then errs ++ [⟨"empty-token", p1, none, none⟩] else errs
  let p2 := p1 + name.length
  let (options, pos, errs) := optionLoop src p2 [] errs
  if sigil = some ':' then
    (.expression operand start pos name options, errs)
  else
    let errs := match operand with
      | some op => ⟨"extra-content", op.start, some op.stop, none⟩ :: errs
      | none => errs
    if sigil = some '+' then
      (.markupStart start pos name options, errs)
    else
      let errs := match options with
        | [] => errs
        | o :: rest => errs ++
            [⟨"extra-content", o.start, some ((rest.getLastD o).stop), none⟩]
      (.markupEnd start pos name, errs)

/-- The body phase of `parsePlaceholder` (placeholder.ts 23-64): leading
whitespace, optional operand, body dispatch.  Returns the body, the scan
position, the pending junk-error start (if the body is junk) and the
errors recorded so far; the junk error itself is appended by the close
phase, which mirrors the in-place widening of the already-pushed error
object. -/
def parsePlaceholderBody (src : List Char) (start : Nat) (errs : List PErr) :
    PBody × Nat × Option Nat × List PErr :=
  let p0 := start + 1 + whitespaces src (start + 1)
  let (arg, errsA) : Option ValTok × List PErr :=
    match charAt src p0 with
    | some '(' =>
        let r := parseLiteral src p0 errs
        (some r.1, r.2)
    | some '$' =>
        let r := parseVariable src p0 errs
        (some r.1, r.2)
    | _ => (none, errs)
  let p1 := match arg with
    | some a => a.stop
    | none => p0
  let p2 := p1 + whitespaces src p1
  match charAt src p2 with
  | some ':' =>
      let (body, errsB) := parseExpressionOrMarkup src p2 arg errsA
      (body, body.stop, none, errsB)
  | some '+' =>
      let (body, errsB) := parseExpressionOrMarkup src p2 arg errsA
      (body, body.stop, none, errsB)
  | some '-' =>
      let (body, errsB) := parseExpressionOrMarkup src p2 arg errsA
      (body, body.stop, none, errsB)
  | _ =>
      match arg with
      | some a => (.operand a, p2, none, errsA)
      | none => (.junk p2 p2 (sliceSrc src p2 (p2 + 1)), p2, some p2, errsA)

/-- The close phase of `parsePlaceholder` (placeholder.ts 65-83): skip
whitespace and require `}`; at end-of-input record `missing-char`; at a
wrong character scan to the next `}` and either widen a junk body and its
error or record `extra-content`. -/
def closePlaceholder (src : List Char) (start pos0 : Nat) (body : PBody)
    (errs : List PErr) (junkStart : Option Nat) : Placeholder × List PErr :=
  let pos := pos0 + whitespaces src pos0
  let junkErrs := match junkStart with
    | some j => errs ++ [⟨"parse-error", j, some j, none⟩]
    | none => errs
  if pos ≥ src.length then
    (⟨start, pos, body⟩, junkErrs ++ [⟨"missing-char", pos, none, some '}'⟩])
  else if charAt src pos = some '}' then
    (⟨start, pos + 1, body⟩, junkErrs)
  else
    let scanStop := pos + ((src.drop pos).takeWhile (fun c => !(c = '}'))).length
    match junkStart with
    | some j =>
        (⟨start, scanStop, .junk j scanStop (sliceSrc src j scanStop)⟩,
          errs ++ [⟨"parse-error", j, some scanStop, none⟩])
    | none =>
        (⟨start, scanStop, body⟩,
          errs ++ [⟨"extra-content", pos, some scanStop, none⟩])

/-- `parsePlaceholder` (placeholder.ts 18-84). -/
def parsePlaceholder (src : List Char) (start : Nat) (errs : List PErr) :
    Placeholder × List PErr :=
  let r := parsePlaceholderBody src start errs
  closePlaceholder src start r.2.1 r.1 r.2.2.2 r.2.2.1

/-!
## Claim-side definitions

Definitions in this section transcribe the *spec's* wording, to be
compared with the source-side definitions above.
-/

/-- Claim C1's variant-match condition, read directly from the claim: the
key tuple is index-aligned with the selectors and, at every selector index,
the key equals the resolved default, equals the resolved value exactly, or
is a member of an array-valued resolved value. -/
def claimVariantMatches (res : List ResolvedSelector) (key : List String) : Bool :=
  key.length == res.length && (key.zip res).all (fun e => matchesSel e.2 e.1)

/-- Claim C3's per-option policy, read directly from the claim: an option
absent from the schema or typed `never` is dropped without error; a
literal value coerces by the expected type; the value is kept iff its
runtime type equals the expected type exactly, the expected type is `any`,
or the expected type is an enumerated list containing the string value. -/
def claimOptionEntry (fuel : Nat) (ctx : Context) (expected : ExpectedSpec)
    (kv : String × OptVal) : Except JSError (Option (String × JSVal)) :=
  match getExpected expected kv.1 with
  | none => pure none
  | some t =>
    if expSkip t then pure none
    else do
      let res ← match kv.2 with
        | .varO path meta => (resolveVariable fuel ctx path meta).map fmtValueOf
        | .str s =>
            pure (if t = .name "boolean" then
                    (if s = "true" then JSVal.vbool true
                     else if s = "false" then JSVal.vbool false
                     else .vstr s)
                  else if t = .name "number" then .vnum (jsParseNumber s)
                  else .vstr s)
      pure (if optKeep t res then some (kv.1, res) else none)

/-- The amended claim C6 value policy: the scalar written for a fresh key,
if any - scalars and `null` are written as themselves, an object is
written via its `valueOf` projection when that projection is a scalar, and
everything else is dropped. -/
def metaProject : MetaVal → Option ScalarVal
  | .mbool b => some (.b b)
  | .mnum n => some (.n n)
  | .mstr s => some (.s s)
  | .mnull => some .null
  | .mundefined => none
  | .objSelf => none
  | .objNoValueOf => none
  | .objVal w =>
      match w with
      | .mbool b => some (.b b)
      | .mnum n => some (.n n)
      | .mstr s => some (.s s)
      | _ => none

/-- Is a retained metadata value of type boolean, number or string (the
only types claim C6 allows)? -/
def isBoolNumStr : ScalarVal → Bool
  | .null => false
  | _ => true

/-- A pattern consisting of literal parts only (claim C8). -/
def patternLiteralsOnly : List MsgPart → Bool
  | [] => true
  | .lit _ _ :: ps => patternLiteralsOnly ps
  | _ => false

/-- The verbatim concatenation of a literal-only pattern's values
(claim C8). -/
def literalConcat : List MsgPart → String
  | [] => ""
  | .lit v _ :: ps => v ++ literalConcat ps
  | _ :: ps => literalConcat ps

/-- Claim C7's description of the scope walk for a string path: step into
the current value while it is truthy and object-typed, otherwise the
result is absent. -/
def specPathLookup : JSVal → List String → JSVal
  | v, [] => v
  | v, k :: ks =>
      if jsTruthy v && jsTypeof v = "object" then specPathLookup (jsIndex v k) ks
      else JSVal.vundefined

/-- Metadata lookup on a resolver result, for stating metadata claims. -/
def resMetaLookup (r : Except JSError FmtPart) (k : String) : Option ScalarVal :=
  match r with
  | .ok p => metaLookup ((FmtPart.meta p).getD []) k
  | .error _ => none

/-- Does a part metadata bag avoid the given keys entirely? -/
def metaAvoids (meta : Option MMeta) (keys : List String) : Bool :=
  match meta with
  | none => true
  | some m => m.all (fun e => !(keys.contains e.1))

/-- Is a parse error the missing-char report for the closing brace? -/
def isMissingRBrace (e : PErr) : Bool :=
  e.type = "missing-char" && e.char = some '}'

/-- Is a parse error any missing-char report, regardless of the
expected character? -/
def isMissingCharErr (e : PErr) : Bool := e.type = "missing-char"

/-!
## Grammar descriptions for the placeholder claims

`GPlaceholder` describes a derivation of the grammar quoted by claim C5,
`Placeholder ::= LBRACE Operand? (Annotation | MarkupTail)? RBRACE`, and
`renderPlaceholder` prints it (with explicit whitespace choices: `n1`
leading, `n2` between operand and tail sigil, `n3` trailing, and one
space before each option as the option loop requires). -/

/-- A run of spaces. -/
def spacesL (n : Nat) : List Char := List.replicate n ' '

/-- A grammar operand: a parenthesized literal or a `$`-variable. -/
inductive WfOperandD where
  | lit (content : List Char)
  | varD (name : List Char)
deriving DecidableEq, Repr

/-- A grammar option value: literal, variable, or bare nmtoken. -/
inductive WfOptValD where
  | lit (content : List Char)
  | varD (name : List Char)
  | nm (token : List Char)
deriving DecidableEq, Repr

/-- A grammar option `name = value`. -/
structure WfOptionD where
  name : List Char
  value : WfOptValD
deriving DecidableEq, Repr

/-- The optional tail: nothing, an annotation, or a markup tail. -/
inductive GTail where
  | noneT
  | ann (name : List Char) (opts : List WfOptionD)
  | markS (name : List Char) (opts : List WfOptionD)
  | markE (name : List Char) (opts : List WfOptionD)
deriving DecidableEq, Repr

/-- A grammar derivation of the claimed placeholder production. -/
structure GPlaceholder where
  operand : Option WfOperandD
  tail : GTail
deriving DecidableEq, Repr

def renderOperand : WfOperandD → List Char
  | .lit c => '(' :: (c ++ [')'])
  | .varD n => '$' :: n

def renderOptVal : WfOptValD → List Char
  | .lit c => '(' :: (c ++ [')'])
  | .varD n => '$' :: n
  | .nm t => t

def renderOption (o : WfOptionD) : List Char :=
  o.name ++ '=' :: renderOptVal o.value

def renderOpts : List WfOptionD → List Char
  | [] => []
  | o :: os => ' ' :: (renderOption o ++ renderOpts os)

def renderTail (n2 : Nat) : GTail → List Char
  | .noneT => []
  | .ann name opts => spacesL n2 ++ ':' :: (name ++ renderOpts opts)
  | .markS name opts => spacesL n2 ++ '+' :: (name ++ renderOpts opts)
  | .markE name opts => spacesL n2 ++ '-' :: (name ++ renderOpts opts)

def renderPlaceholder (n1 : Nat) (g : GPlaceholder) (n2 n3 : Nat) : List Char :=
  '{' :: (spacesL n1 ++
    (match g.operand with
     | some op => renderOperand op
     | none => []) ++
    renderTail n2 g.tail ++ spacesL n3 ++ ['}'])

/-- A nonempty token of name characters. -/
def validNameTok (n : List Char) : Bool := !n.isEmpty && n.all isNameChar

/-- Literal content must not contain the closing parenthesis. -/
def validLitContent (c : List Char) : Bool := c.all (fun x => !(x = ')'))

def validOperand : WfOperandD → Bool
  | .lit c => validLitContent c
  | .varD n => validNameTok n

def validOptVal : WfOptValD → Bool
  | .lit c => validLitContent c
  | .varD n => validNameTok n
  | .nm t => validNameTok t

def validOption (o : WfOptionD) : Bool :=
  validNameTok o.name && validOptVal o.value

def validTail : GTail → Bool
  | .noneT => true
  | .ann n opts => validNameTok n && opts.all validOption
  | .markS n opts => validNameTok n && opts.all validOption
  | .markE n opts => validNameTok n && opts.all validOption

/-- Token-level validity of a grammar derivation. -/
def validG (g : GPlaceholder) : Bool :=
  (match g.operand with
   | some op => validOperand op
   | none => true) && validTail g.tail

/-- The restriction that the amended claim C5 adds to the quoted grammar:
the body is nonempty, an operand may precede only an annotation, and a
markup-end tail takes no options. -/
def amendedOkG (g : GPlaceholder) : Bool :=
  (g.operand.isSome || (match g.tail with
    | .noneT => false
    | _ => true)) &&
  (match g.operand, g.tail with
   | some _, .markS _ _ => false
   | some _, .markE _ _ => false
   | _, _ => true) &&
  (match g.tail with
   | .markE _ opts => opts.isEmpty
   | _ => true)

/-- Is an option value a plain string literal? -/
def optValIsStr : OptVal → Bool
  | .str _ => true
  | .varO _ _ => false

/-- The value token the parser produces for a rendered option value
placed at offset `q`. -/
def renderedValTok (q : Nat) : WfOptValD → ValTok
  | .lit c => .lit q (q + c.length + 2) c
  | .varD n => .variable q (q + 1 + n.length) n
  | .nm t => .nmtoken q (q + t.length) t

/-- The value token the parser produces for a rendered operand placed at
offset `q`. -/
def renderedOpTok (q : Nat) : WfOperandD → ValTok
  | .lit c => .lit q (q + 1 + c.length + 1) c
  | .varD n => .variable q (q + 1 + n.length) n

/-- The option tokens the parser produces for rendered options whose
leading separator space sits at offset `p`. -/
def renderedOptToks (p : Nat) : List WfOptionD → List OptionTok
  | [] => []
  | o :: os =>
      ⟨p + 1, p + 1 + (renderOption o).length, o.name,
        renderedValTok (p + 1 + o.name.length + 1) o.value⟩ ::
      renderedOptToks (p + 1 + (renderOption o).length) os

/-!
## Theorems
-/

theorem metaLookup_append (bag l : FmtMeta) (key : String) (v : ScalarVal)
    (h : metaLookup bag key = some v) : metaLookup (bag ++ l) key = some v := by
  simp only [metaLookup, List.find?_append] at h ⊢
  cases hf : bag.find? (fun e => e.1 = key) with
  | none => simp [hf] at h
  | some p => simpa [hf] using h

theorem addMetaEntry_append_form (bag : FmtMeta) (key : String) (value : MetaVal) :
    ∃ l, addMetaEntry bag key value = bag ++ l ∧ ∀ e ∈ l, e.1 = key := by
  unfold addMetaEntry
  split
  · exact ⟨[], by simp, by simp⟩
  · cases value
    case objVal w =>
      cases w <;> first | exact ⟨_, rfl, by simp⟩ | exact ⟨[], by simp, by simp⟩
    all_goals first | exact ⟨_, rfl, by simp⟩ | exact ⟨[], by simp, by simp⟩

theorem addMetaEntry_preserves (bag : FmtMeta) (k2 : String) (w : MetaVal)
    (key : String) (v : ScalarVal) (h : metaLookup bag key = some v) :
    metaLookup (addMetaEntry bag k2 w) key = some v := by
  obtain ⟨l, hl, _⟩ := addMetaEntry_append_form bag k2 w
  rw [hl]
  exact metaLookup_append bag l key v h

theorem addMeta_preserves (bag : FmtMeta) (m : MMeta) (key : String)
    (v : ScalarVal) (h : metaLookup bag key = some v) :
    metaLookup ((addMeta (some bag) m).getD []) key = some v := by
  simp only [addMeta, Option.getD_some]
  induction m generalizing bag with
  | nil => simpa using h
  | cons e rest ih =>
      simp only [List.foldl_cons]
      exact ih _ (addMetaEntry_preserves bag e.1 e.2 key v h)

/-- Claim C6 (amended): a key already present in the bag is never
overwritten by a later merge, neither by a single entry nor across a whole
merged bag; and the value written for a fresh key is exactly the claim's
scalar projection, except that `null`, too, is retained (as `null`) - the
original claim's "only boolean/number/string" admits this one further
value. -/
theorem claim_C6 :
    (∀ (bag : FmtMeta) (key : String) (value : MetaVal),
      (bag.find? (fun e => e.1 = key)).isSome →
      addMetaEntry bag key value = bag) ∧
    (∀ (bag : FmtMeta) (key : String) (value : MetaVal),
      (bag.find? (fun e => e.1 = key)).isSome = false →
      addMetaEntry bag key value =
        bag ++ (match metaProject value with
                | some sc => [(key, sc)]
                | none => [])) ∧
    (∀ (bag : FmtMeta) (m : MMeta) (key : String) (v : ScalarVal),
      metaLookup bag key = some v →
      metaLookup ((addMeta (some bag) m).getD []) key = some v) := by
  refine ⟨?_, ?_, ?_⟩
  · intro bag key value h
    simp [addMetaEntry, h]
  · intro bag key value h
    unfold addMetaEntry
    rw [if_neg (by simp [h])]
    cases value
    case objVal w => cases w <;> simp [metaProject]
    all_goals simp [metaProject]
  · exact addMeta_preserves

/-- Witness for claim C6: concrete first-write-wins, object projection and
merge-stability facts obtained from the theorem. -/
theorem claim_C6_witness :
    addMetaEntry [("k", .s "a")] "k" (.mstr "b") = [("k", .s "a")] ∧
    addMetaEntry [] "j" (.objVal (.mnum (.int 3))) = [("j", .n (.int 3))] ∧
    metaLookup ((addMeta (some [("k", .s "a")]) [("k", .mstr "b")]).getD []) "k"
      = some (.s "a") := by
  refine ⟨claim_C6.1 _ _ _ (by decide), ?_, claim_C6.2.2 _ _ _ _ (by decide)⟩
  have h := claim_C6.2.1 [] "j" (.objVal (.mnum (.int 3))) (by decide)
  simpa [metaProject] using h

/-- Counterexample to claim C6 as stated: a `null`-valued metadata entry
is an object-valued entry with no scalar `valueOf` projection, yet it is
retained in the bag (as `null`), which is not a boolean, number or string. -/
theorem claim_C6_cx :
    (addMeta none [("k", MetaVal.mnull)]).getD [] = [("k", ScalarVal.null)] ∧
    isBoolNumStr ScalarVal.null = false := ⟨rfl, rfl⟩

theorem specPathLookup_undefined (ks : List String) :
    specPathLookup .vundefined ks = .vundefined := by
  cases ks <;> simp [specPathLookup, jsTruthy]

theorem foldlM_walk (f : Nat) (ctx : Context) :
    ∀ (path : List String) (v : JSVal),
    List.foldlM (fun (val : JSVal) (p : MsgPart) =>
      if !jsTruthy val || !(jsTypeof val = "object" : Bool) then
        pure JSVal.vundefined
      else do
        let k ← resolveArgument (f+3) ctx p
        pure (jsIndex val (jsString k)))
      v (path.map (fun k => MsgPart.lit k none)) =
      Except.ok (specPathLookup v path) := by
  intro path
  induction path with
  | nil => intro v; rfl
  | cons k ks ih =>
      intro v
      by_cases hcond : jsTruthy v && (jsTypeof v = "object" : Bool)
      · have h1 : jsTruthy v = true := by
          revert hcond; cases jsTruthy v <;> simp
        have h2 : (jsTypeof v = "object" : Bool) = true := by
          revert hcond; cases (jsTypeof v = "object" : Bool) <;> simp
        simp only [List.map_cons, List.foldlM_cons, h1, h2, Bool.not_true,
          Bool.or_self, Bool.false_eq_true, if_false]
        have harg : resolveArgument (f+3) ctx (MsgPart.lit k none) =
            .ok (.vstr k) := rfl
        rw [harg]
        have : specPathLookup v (k :: ks) = specPathLookup (jsIndex v k) ks := by
          simp [specPathLookup, h1, h2]
        rw [this]
        exact ih (jsIndex v k)
      · have hbad : (!jsTruthy v || !(jsTypeof v = "object" : Bool)) = true := by
          revert hcond
          cases jsTruthy v <;> cases (jsTypeof v = "object" : Bool) <;> simp
        simp only [List.map_cons, List.foldlM_cons, hbad, if_true]
        have : specPathLookup v (k :: ks) = .vundefined := by
          simp only [specPathLookup]
          rw [if_neg]
          simpa using hcond
        rw [this]
        have h2 := ih JSVal.vundefined
        rw [specPathLookup_undefined] at h2
        exact h2

theorem lit_mapM_vals (g : Nat) (ctx : Context) (path : List String) :
    (path.map (fun k => MsgPart.lit k none)).mapM
      (fun p => (resolvePart (g+1) ctx p).map fmtValueOf) =
      Except.ok (path.map JSVal.vstr) := by
  induction path with
  | nil => rfl
  | cons k ks ih =>
      simp only [List.map_cons, List.mapM_cons]
      have h1 : (resolvePart (g+1) ctx (MsgPart.lit k none)).map fmtValueOf =
          .ok (.vstr k) := rfl
      rw [h1, ih]
      rfl

theorem jsJoinElem_vstr (k : String) : jsJoinElem (.vstr k) = k := rfl

/-- Claim C7: variable resolution walks the path against the scope; an
absent or non-indexable step, or an absent final value, produces a
Fallback whose diagnostic text is `$` followed by the dot-joined path,
and otherwise a Dynamic wrapping the final value.  In particular the path
`["a","b"]` against scope `{a: {}}` gives a Fallback with text `$a.b`. -/
theorem claim_C7 :
    (∀ (f : Nat) (ctx : Context) (meta : Option MMeta) (path : List String),
      resolveVariable (f+4) ctx (path.map (fun k => MsgPart.lit k none)) meta =
        (match (if path.isEmpty then JSVal.vundefined
                else specPathLookup (.vobj ctx.scope) path) with
         | .vundefined => .ok (.fallback ctx.locales
             ("$" ++ String.intercalate "." path) (mkMeta meta))
         | v => .ok (.dynamic ctx.locales v (mkMeta meta)))) ∧
    (resolveVariable 4
        ⟨["en"], [("a", .vobj [])], fun _ _ => none, fun _ => none,
          fun _ => none, fun _ _ _ => none⟩
        [.lit "a" none, .lit "b" none] none =
      .ok (.fallback ["en"] "$a.b" none)) := by
  refine ⟨?_, rfl⟩
  intro f ctx meta path
  cases path with
  | nil => rfl
  | cons k ks =>
      simp only [resolveVariable, List.map_cons, List.length_cons,
        List.length_map, List.isEmpty_cons]
      rw [if_pos (by omega)]
      have hf := foldlM_walk f ctx (k :: ks) (.vobj ctx.scope)
      simp only [List.map_cons] at hf
      rw [hf]
      simp only [Bind.bind, Except.bind]
      cases hv : specPathLookup (.vobj ctx.scope) (k :: ks) with
      | vundefined =>
          simp only [resolveFallback, fallbackValue]
          have hm := lit_mapM_vals f ctx (k :: ks)
          simp only [List.map_cons] at hm
          rw [hm]
          simp only [Bind.bind, Except.bind, MsgPart.meta]
          have hk : ∀ l : List String,
              l.map (fun x => jsJoinElem (JSVal.vstr x)) = l := by
            intro l
            induction l with
            | nil => rfl
            | cons a t ih => simp [jsJoinElem_vstr, ih]
          have hcomp : List.map (jsJoinElem ∘ JSVal.vstr) ks = ks := hk ks
          simp [Function.comp, jsJoinElem_vstr, hcomp]
      | vstr s => rfl
      | vnum n => rfl
      | vbool b => rfl
      | vnull => rfl
      | vobj fs => rfl
      | varr xs => rfl

theorem metaLookup_append_none (bag l : FmtMeta) (key : String)
    (h1 : metaLookup bag key = none) (h2 : metaLookup l key = none) :
    metaLookup (bag ++ l) key = none := by
  simp only [metaLookup, Option.map_eq_none'] at h1 h2 ⊢
  rw [List.find?_append, h1, h2]
  rfl

theorem metaLookup_append_found (bag : FmtMeta) (key : String) (x : ScalarVal)
    (rest : FmtMeta) (h : metaLookup bag key = none) :
    metaLookup (bag ++ (key, x) :: rest) key = some x := by
  simp only [metaLookup, Option.map_eq_none'] at h
  have h2 : List.find? (fun e => decide (e.1 = key)) ((key, x) :: rest)
      = some (key, x) := by
    rw [List.find?_cons_of_pos]
    simp
  simp [metaLookup, List.find?_append, h, h2]

theorem addMetaEntry_fresh_none (bag : FmtMeta) (k2 : String) (w : MetaVal)
    (key : String) (hne : k2 ≠ key) (h : metaLookup bag key = none) :
    metaLookup (addMetaEntry bag k2 w) key = none := by
  obtain ⟨l, hl, hk⟩ := addMetaEntry_append_form bag k2 w
  rw [hl]
  refine metaLookup_append_none bag l key h ?_
  simp only [metaLookup, Option.map_eq_none']
  rw [List.find?_eq_none]
  intro e he
  have := hk e he
  simp [this, hne]

theorem addMeta_fresh_none (m : MMeta) (key : String) :
    ∀ (bag : FmtMeta), metaLookup bag key = none →
    (∀ e ∈ m, e.1 ≠ key) →
    metaLookup ((addMeta (some bag) m).getD []) key = none := by
  induction m with
  | nil => intro bag h _; simpa [addMeta] using h
  | cons e rest ih =>
      intro bag h hm
      simp only [addMeta, Option.getD_some, List.foldl_cons]
      have h1 : metaLookup (addMetaEntry bag e.1 e.2) key = none :=
        addMetaEntry_fresh_none bag e.1 e.2 key (hm e (by simp)) h
      have h2 := ih (addMetaEntry bag e.1 e.2) h1 (fun x hx => hm x (by simp [hx]))
      simpa [addMeta] using h2

theorem mkMeta_avoids_none (meta : Option MMeta) (keys : List String)
    (h : metaAvoids meta keys = true) (key : String) (hk : key ∈ keys) :
    metaLookup ((mkMeta meta).getD []) key = none := by
  cases meta with
  | none => rfl
  | some m =>
      simp only [mkMeta]
      refine addMeta_fresh_none m key [] rfl ?_
      intro e he heq
      simp only [metaAvoids, List.all_eq_true] at h
      have := h e he
      rw [heq] at this
      simp [hk] at this

theorem addMetaEntry_mstr (bag : FmtMeta) (key s : String)
    (h : metaLookup bag key = none) :
    addMetaEntry bag key (.mstr s) = bag ++ [(key, .s s)] := by
  simp only [metaLookup, Option.map_eq_none'] at h
  simp [addMetaEntry, h]

theorem errorMeta_lookups (B : FmtMeta) (nm ms st : String)
    (h1 : metaLookup B "error_name" = none)
    (h2 : metaLookup B "error_message" = none)
    (h3 : metaLookup B "error_stack" = none) :
    metaLookup ((addMeta (some B) [("error_name", .mstr nm),
        ("error_message", .mstr ms), ("error_stack", .mstr st)]).getD [])
      "error_name" = some (.s nm) ∧
    metaLookup ((addMeta (some B) [("error_name", .mstr nm),
        ("error_message", .mstr ms), ("error_stack", .mstr st)]).getD [])
      "error_message" = some (.s ms) ∧
    metaLookup ((addMeta (some B) [("error_name", .mstr nm),
        ("error_message", .mstr ms), ("error_stack", .mstr st)]).getD [])
      "error_stack" = some (.s st) := by
  have hone : metaLookup [("error_name", ScalarVal.s nm)] "error_message" = none := by
    simp [metaLookup]
  have htwo : metaLookup [("error_name", ScalarVal.s nm),
      ("error_message", ScalarVal.s ms)] "error_stack" = none := by
    simp [metaLookup]
  have hB1 : metaLookup (B ++ [("error_name", ScalarVal.s nm)]) "error_message"
      = none := metaLookup_append_none _ _ _ h2 hone
  have hB2 : metaLookup ((B ++ [("error_name", ScalarVal.s nm)]) ++
      [("error_message", ScalarVal.s ms)]) "error_stack" = none := by
    have := metaLookup_append_none _ _ _ h3 htwo
    simpa [List.append_assoc] using this
  simp only [addMeta, Option.getD_some, List.foldl_cons, List.foldl_nil]
  rw [addMetaEntry_mstr _ _ _ h1, addMetaEntry_mstr _ _ _ hB1,
    addMetaEntry_mstr _ _ _ hB2]
  refine ⟨?_, ?_, ?_⟩
  · have := metaLookup_append_found B "error_name" (.s nm)
      ([("error_message", ScalarVal.s ms)] ++ [("error_stack", ScalarVal.s st)]) h1
    simpa [List.append_assoc] using this
  · have := metaLookup_append_found (B ++ [("error_name", ScalarVal.s nm)])
      "error_message" (.s ms) [("error_stack", ScalarVal.s st)] hB1
    simpa [List.append_assoc] using this
  · exact metaLookup_append_found _ "error_stack" (.s st) [] hB2

theorem addMeta_optBag (bag : Option FmtMeta) (m : MMeta) :
    addMeta bag m = addMeta (some (bag.getD [])) m := by
  cases bag <;> rfl

theorem resolveOptions_noSchema (f : Nat) (ctx : Context)
    (options : Option (List (String × OptVal))) :
    resolveOptions (f+1) ctx options none = .ok [] := by
  cases options <;> rfl

/-- Claim C2 (amended): a registered format function that throws yields,
without propagating the failure, a Fallback whose diagnostic text is the
canonical `func(arg, ..., opt: value, ...)` rendering (the value of
`fallbackValue` on the function part) and whose metadata gains the caught
failure's name/message/stack under `error_name`/`error_message`/
`error_stack` - provided the part's own metadata does not already bind
those keys, since the part's metadata is merged first and a first write
wins.  The rest of the surrounding pattern resolves unaffected. -/
theorem claim_C2 :
    (∀ (f : Nat) (ctx : Context) (args : List MsgPart) (fname : String)
        (options : Option (List (String × OptVal))) (meta : Option MMeta)
        (g : RuntimeFn) (as : List JSVal) (os : List (String × JSVal))
        (e : JSError) (text : String),
      ctx.format fname = some g →
      args.mapM (fun a => resolveArgument (f+1) ctx a) = .ok as →
      resolveOptions (f+1) ctx options g.options = .ok os →
      g.call ctx.locales (some os) as = .error e →
      fallbackValue f ctx (.func args fname options meta) = .ok text →
      (resolveFormatFunction (f+2) ctx args fname options meta =
        .ok (fmtAddMeta (.fallback ctx.locales text (mkMeta meta))
          [("error_name", .mstr e.name), ("error_message", .mstr e.message),
           ("error_stack", .mstr e.stack)]) ∧
       (metaAvoids meta ["error_name", "error_message", "error_stack"] = true →
        resMetaLookup (resolveFormatFunction (f+2) ctx args fname options meta)
            "error_name" = some (.s e.name) ∧
        resMetaLookup (resolveFormatFunction (f+2) ctx args fname options meta)
            "error_message" = some (.s e.message) ∧
        resMetaLookup (resolveFormatFunction (f+2) ctx args fname options meta)
            "error_stack" = some (.s e.stack)))) ∧
    (∀ (f : Nat) (ctx : Context) (parts : List MsgPart) (rs : List FmtPart),
      parts.mapM (fun p => resolvePart f ctx p) = .ok rs →
      formatToParts (f+1) ctx ⟨none, .pattern parts⟩ = .ok rs) := by
  constructor
  · intro f ctx args fname options meta g as os e text
    intro hfmt hargs hopts hcall htext
    have heq : resolveFormatFunction (f+2) ctx args fname options meta =
        .ok (fmtAddMeta (.fallback ctx.locales text (mkMeta meta))
          [("error_name", .mstr e.name), ("error_message", .mstr e.message),
           ("error_stack", .mstr e.stack)]) := by
      simp only [resolveFormatFunction, hfmt, hargs, Option.some_bind,
        Bind.bind, Except.bind, hopts, hcall, resolveFallback, htext,
        MsgPart.meta]
    refine ⟨heq, fun havoid => ?_⟩
    rw [heq]
    simp only [resMetaLookup, fmtAddMeta, FmtPart.meta]
    rw [addMeta_optBag]
    have h1 := mkMeta_avoids_none meta _ havoid "error_name" (by simp)
    have h2 := mkMeta_avoids_none meta _ havoid "error_message" (by simp)
    have h3 := mkMeta_avoids_none meta _ havoid "error_stack" (by simp)
    exact errorMeta_lookups _ _ _ _ h1 h2 h3
  · intro f ctx parts rs hres
    simp only [formatToParts, Bind.bind, Except.bind, pure, Except.pure]
    rw [hres]
    simp

/-- Witness for claim C2 at a concrete throwing function. -/
theorem claim_C2_witness :
    resolveFormatFunction 5
        ⟨["en"], [], fun _ _ => none,
          (fun n => if n = "f" then
              some ⟨some (.single (.name "any")), fun _ _ _ => .error ⟨"Error", "boom", "st"⟩⟩ else none),
          fun _ => none, fun _ _ _ => none⟩
        [.lit "A" none] "f" (some [("o", .str "v")]) none =
      .ok (.fallback ["en"] "f(A, o: v)"
        (some [("error_name", .s "Error"), ("error_message", .s "boom"),
               ("error_stack", .s "st")])) ∧
    formatToParts 5
        ⟨["en"], [], fun _ _ => none,
          (fun n => if n = "f" then
              some ⟨some (.single (.name "any")), fun _ _ _ => .error ⟨"Error", "boom", "st"⟩⟩ else none),
          fun _ => none, fun _ _ _ => none⟩
        ⟨none, .pattern [.lit "L" none]⟩ =
      .ok [.literal ["en"] "L" none] := by
  constructor
  · have h := claim_C2.1 3
      ⟨["en"], [], fun _ _ => none,
        (fun n => if n = "f" then
            some ⟨some (.single (.name "any")), fun _ _ _ => .error ⟨"Error", "boom", "st"⟩⟩ else none),
        fun _ => none, fun _ _ _ => none⟩
      [.lit "A" none] "f" (some [("o", .str "v")]) none
      ⟨some (.single (.name "any")), fun _ _ _ => .error ⟨"Error", "boom", "st"⟩⟩
      [.vstr "A"] [("o", .vstr "v")] ⟨"Error", "boom", "st"⟩ "f(A, o: v)"
      rfl rfl rfl rfl rfl
    exact h.1.trans (by rfl)
  · exact claim_C2.2 4
      ⟨["en"], [], fun _ _ => none,
        (fun n => if n = "f" then
            some ⟨some (.single (.name "any")), fun _ _ _ => .error ⟨"Error", "boom", "st"⟩⟩ else none),
        fun _ => none, fun _ _ _ => none⟩
      [.lit "L" none] [.literal ["en"] "L" none] rfl

/-- Counterexample to claim C2 as stated: when the function part's own
metadata already binds `error_name`, the caught failure's name (`Error`)
is not recorded - the part's value wins. -/
theorem claim_C2_cx :
    resolveFormatFunction 5
        ⟨["en"], [], fun _ _ => none,
          (fun n => if n = "f" then
              some ⟨none, fun _ _ _ => .error ⟨"Error", "boom", "st"⟩⟩ else none),
          fun _ => none, fun _ _ _ => none⟩
        [] "f" none (some [("error_name", .mstr "custom")]) =
      .ok (.fallback ["en"] "f()"
        (some [("error_name", .s "custom"), ("error_message", .s "boom"),
               ("error_stack", .s "st")])) ∧
    "custom" ≠ "Error" := ⟨rfl, by decide⟩

/-- Claim C10 (amended): a function name absent from the format registry
is caught like any other failure - the TypeError thrown by calling into
the missing entry is contained, the result is the canonical fallback, and
its metadata records the TypeError's name/message/stack - again provided
the part's own metadata does not already bind those keys. -/
theorem claim_C10 :
    ∀ (f : Nat) (ctx : Context) (args : List MsgPart) (fname : String)
      (options : Option (List (String × OptVal))) (meta : Option MMeta)
      (as : List JSVal) (text : String),
      ctx.format fname = none →
      args.mapM (fun a => resolveArgument (f+1) ctx a) = .ok as →
      fallbackValue f ctx (.func args fname options meta) = .ok text →
      (resolveFormatFunction (f+2) ctx args fname options meta =
        .ok (fmtAddMeta (.fallback ctx.locales text (mkMeta meta))
          [("error_name", .mstr undefinedCallError.name),
           ("error_message", .mstr undefinedCallError.message),
           ("error_stack", .mstr undefinedCallError.stack)]) ∧
       (metaAvoids meta ["error_name", "error_message", "error_stack"] = true →
        resMetaLookup (resolveFormatFunction (f+2) ctx args fname options meta)
            "error_name" = some (.s undefinedCallError.name) ∧
        resMetaLookup (resolveFormatFunction (f+2) ctx args fname options meta)
            "error_message" = some (.s undefinedCallError.message))) := by
  intro f ctx args fname options meta as text hfmt hargs htext
  have heq : resolveFormatFunction (f+2) ctx args fname options meta =
      .ok (fmtAddMeta (.fallback ctx.locales text (mkMeta meta))
        [("error_name", .mstr undefinedCallError.name),
         ("error_message", .mstr undefinedCallError.message),
         ("error_stack", .mstr undefinedCallError.stack)]) := by
    simp only [resolveFormatFunction, hfmt, hargs, Option.none_bind,
      Bind.bind, Except.bind, resolveOptions_noSchema, resolveFallback,
      htext, MsgPart.meta]
  refine ⟨heq, fun havoid => ?_⟩
  rw [heq]
  simp only [resMetaLookup, fmtAddMeta, FmtPart.meta]
  rw [addMeta_optBag]
  have h1 := mkMeta_avoids_none meta _ havoid "error_name" (by simp)
  have h2 := mkMeta_avoids_none meta _ havoid "error_message" (by simp)
  have h3 := mkMeta_avoids_none meta _ havoid "error_stack" (by simp)
  have h := errorMeta_lookups _ undefinedCallError.name
    undefinedCallError.message undefinedCallError.stack h1 h2 h3
  exact ⟨h.1, h.2.1⟩

/-- Witness for claim C10 at a concrete empty registry. -/
theorem claim_C10_witness :
    resolveFormatFunction 5
        ⟨["en"], [], fun _ _ => none, fun _ => none, fun _ => none,
          fun _ _ _ => none⟩
        [.lit "A" none] "nope" none none =
      .ok (.fallback ["en"] "nope(A)"
        (some [("error_name", .s "TypeError"),
          ("error_message", .s "Cannot read properties of undefined (reading 'call')"),
          ("error_stack", .s "")])) := by
  have h := claim_C10 3
    ⟨["en"], [], fun _ _ => none, fun _ => none, fun _ => none,
      fun _ _ _ => none⟩
    [.lit "A" none] "nope" none none [.vstr "A"] "nope(A)" rfl rfl rfl
  exact h.1.trans (by rfl)

/-- Counterexample to claim C10 as stated: a part's own `error_message`
metadata survives, so the recorded metadata does not describe the lookup
failure. -/
theorem claim_C10_cx :
    resMetaLookup (resolveFormatFunction 5
        ⟨["en"], [], fun _ _ => none, fun _ => none, fun _ => none,
          fun _ _ _ => none⟩
        [] "nope" none (some [("error_message", .mstr "expected")]))
      "error_message" = some (.s "expected") ∧
    "expected" ≠ undefinedCallError.message := ⟨rfl, by decide⟩


theorem jsObjAssign_fresh (acc : List (String × JSVal)) (k : String) (v : JSVal)
    (h : acc.find? (fun e => e.1 = k) = none) :
    jsObjAssign acc k v = acc ++ [(k, v)] := by
  simp [jsObjAssign, h]

theorem find?_append_none_pair (acc : List (String × JSVal)) (k1 k : String)
    (v : JSVal) (h : acc.find? (fun e => e.1 = k) = none) (hne : k1 ≠ k) :
    (acc ++ [(k1, v)]).find? (fun e => e.1 = k) = none := by
  rw [List.find?_append, h]
  simp [hne]

theorem resolveOptions_unfold (f : Nat) (ctx : Context)
    (opts : List (String × OptVal)) (exp : ExpectedSpec) :
    resolveOptions (f+1) ctx (some opts) (some exp) =
    List.foldlM (fun acc (e : String × OptVal) =>
      match getExpected exp e.1 with
      | none => pure acc
      | some t =>
        if expSkip t then pure acc
        else do
          let res ← match e.2 with
            | .varO path meta => (resolveVariable f ctx path meta).map fmtValueOf
            | .str s =>
                pure (if t = .name "boolean" then
                        (if s = "true" then JSVal.vbool true
                         else if s = "false" then JSVal.vbool false
                         else .vstr s)
                      else if t = .name "number" then .vnum (jsParseNumber s)
                      else .vstr s)
          if optKeep t res then pure (jsObjAssign acc e.1 res) else pure acc)
      [] opts := rfl



theorem claimOptionEntry_str_ok (f : Nat) (ctx : Context) (exp : ExpectedSpec)
    (kv : String × OptVal) (h : optValIsStr kv.2 = true) :
    ∃ o, claimOptionEntry f ctx exp kv = .ok o := by
  obtain ⟨k, v⟩ := kv
  cases v with
  | varO p m => simp [optValIsStr] at h
  | str s =>
      cases hE : claimOptionEntry f ctx exp (k, OptVal.str s) with
      | ok o => exact ⟨o, rfl⟩
      | error e =>
          exfalso
          simp only [claimOptionEntry] at hE
          split at hE
          · simp [pure, Except.pure] at hE
          · split at hE
            · simp [pure, Except.pure] at hE
            · simp [Bind.bind, Except.bind, pure, Except.pure] at hE

theorem resolveOptions_go (f : Nat) (ctx : Context) (exp : ExpectedSpec) :
    ∀ (opts : List (String × OptVal)) (acc : List (String × JSVal)),
    (opts.map Prod.fst).Nodup →
    (∀ k ∈ opts.map Prod.fst, acc.find? (fun e => e.1 = k) = none) →
    List.foldlM (fun acc (e : String × OptVal) =>
      match getExpected exp e.1 with
      | none => pure acc
      | some t =>
        if expSkip t then pure acc
        else do
          let res ← match e.2 with
            | .varO path meta => (resolveVariable f ctx path meta).map fmtValueOf
            | .str s =>
                pure (if t = .name "boolean" then
                        (if s = "true" then JSVal.vbool true
                         else if s = "false" then JSVal.vbool false
                         else .vstr s)
                      else if t = .name "number" then .vnum (jsParseNumber s)
                      else .vstr s)
          if optKeep t res then pure (jsObjAssign acc e.1 res) else pure acc)
      acc opts =
      (opts.mapM (claimOptionEntry f ctx exp)).map
        (fun l => acc ++ l.reduceOption) := by
  intro opts
  induction opts with
  | nil =>
      intro acc _ _
      show pure acc = (pure [] : Except JSError _).map _
      simp [Except.map, pure, Except.pure]
  | cons kv rest ih =>
      intro acc hnodup hfresh
      obtain ⟨k1, v1⟩ := kv
      have hnodup' : (rest.map Prod.fst).Nodup := by
        simp only [List.map_cons, List.nodup_cons] at hnodup
        exact hnodup.2
      have hhead : k1 ∉ rest.map Prod.fst := by
        simp only [List.map_cons, List.nodup_cons] at hnodup
        exact hnodup.1
      have hfresh' : ∀ k ∈ rest.map Prod.fst,
          acc.find? (fun e => e.1 = k) = none :=
        fun k hk => hfresh k (by simp [hk])
      have hfreshSnoc : ∀ (r : JSVal) (k : String), k ∈ rest.map Prod.fst →
          (acc ++ [(k1, r)]).find? (fun e => e.1 = k) = none := by
        intro r k hk
        refine find?_append_none_pair acc k1 k r (hfresh' k hk) ?_
        intro heq
        rw [heq] at hhead
        exact hhead hk
      have hfk : acc.find? (fun e => e.1 = k1) = none := hfresh k1 (by simp)
      have hendsome : ∀ (r : JSVal),
          (rest.mapM (claimOptionEntry f ctx exp)).map
              (fun l => (acc ++ [(k1, r)]) ++ l.reduceOption) =
            ((pure (some (k1, r)) : Except JSError _) >>= fun o =>
              (rest.mapM (claimOptionEntry f ctx exp)) >>= fun l =>
                pure (o :: l)).map (fun l => acc ++ l.reduceOption) := by
        intro r
        cases rest.mapM (claimOptionEntry f ctx exp) <;>
          simp [Except.map, Bind.bind, Except.bind, pure, Except.pure,
            List.reduceOption, List.filterMap_cons, List.append_assoc]
      have hendnone :
          (rest.mapM (claimOptionEntry f ctx exp)).map
              (fun l => acc ++ l.reduceOption) =
            ((pure none : Except JSError (Option (String × JSVal))) >>= fun o =>
              (rest.mapM (claimOptionEntry f ctx exp)) >>= fun l =>
                pure (o :: l)).map (fun l => acc ++ l.reduceOption) := by
        cases rest.mapM (claimOptionEntry f ctx exp) <;>
          simp [Except.map, Bind.bind, Except.bind, pure, Except.pure,
            List.reduceOption, List.filterMap_cons]
      simp only [List.foldlM_cons, List.mapM_cons]
      simp only [claimOptionEntry]
      cases hexp : getExpected exp k1 with
      | none =>
          have h := ih acc hnodup' hfresh'
          simp only [Bind.bind, Except.bind, pure, Except.pure] at h hendnone ⊢
          rw [h, hendnone]
      | some t =>
          by_cases hskip : expSkip t = true
          · simp only [hskip, if_true]
            have h := ih acc hnodup' hfresh'
            simp only [Bind.bind, Except.bind, pure, Except.pure] at h hendnone ⊢
            rw [h, hendnone]
          · simp only [hskip, if_false, Bool.false_eq_true]
            cases v1 with
            | str s =>
                set r := (if t = RuntimeType.name "boolean" then
                        (if s = "true" then JSVal.vbool true
                         else if s = "false" then JSVal.vbool false
                         else JSVal.vstr s)
                      else if t = RuntimeType.name "number" then
                        JSVal.vnum (jsParseNumber s)
                      else JSVal.vstr s) with hrdf
                by_cases hkeep : optKeep t r = true
                · have h := ih (acc ++ [(k1, r)]) hnodup' (hfreshSnoc r)
                  have hend := hendsome r
                  simp only [Bind.bind, Except.bind, pure, Except.pure, hkeep,
                    if_true, jsObjAssign_fresh acc k1 r hfk] at h hend ⊢
                  rw [h, hend]
                · have h := ih acc hnodup' hfresh'
                  simp only [Bind.bind, Except.bind, pure, Except.pure, hkeep,
                    if_false, Bool.false_eq_true] at h hendnone ⊢
                  rw [h, hendnone]
            | varO path m =>
                cases hrv : (resolveVariable f ctx path m).map fmtValueOf with
                | error e =>
                    simp only [Bind.bind, Except.bind, pure, Except.pure, hrv]
                    rfl
                | ok r =>
                    by_cases hkeep : optKeep t r = true
                    · have h := ih (acc ++ [(k1, r)]) hnodup' (hfreshSnoc r)
                      have hend := hendsome r
                      simp only [Bind.bind, Except.bind, pure, Except.pure, hrv,
                        hkeep, if_true, jsObjAssign_fresh acc k1 r hfk]
                        at h hend ⊢
                      rw [h, hend]
                    · have h := ih acc hnodup' hfresh'
                      simp only [Bind.bind, Except.bind, pure, Except.pure, hrv,
                        hkeep, if_false, Bool.false_eq_true] at h hendnone ⊢
                      rw [h, hendnone]

theorem mapM_claimOption_str_ok (f : Nat) (ctx : Context) (exp : ExpectedSpec) :
    ∀ (opts : List (String × OptVal)),
    (∀ kv ∈ opts, optValIsStr kv.2 = true) →
    ∃ l0, opts.mapM (claimOptionEntry f ctx exp) = .ok l0 := by
  intro opts
  induction opts with
  | nil => exact fun _ => ⟨[], rfl⟩
  | cons kv rest ih =>
      intro hstr
      obtain ⟨o, ho⟩ := claimOptionEntry_str_ok f ctx exp kv (hstr kv (by simp))
      obtain ⟨l0, hl⟩ := ih (fun x hx => hstr x (by simp [hx]))
      refine ⟨o :: l0, ?_⟩
      rw [List.mapM_cons, ho, hl]
      rfl

/-- Claim C3: option resolution implements exactly the claimed per-option
policy - schema-absent or `never` options are dropped with no error,
literal values coerce by the expected type (`true`/`false` to booleans,
numeric parse for numbers), and a value is kept iff its runtime type
equals the expected type, the expected type is `any`, or an enumerated
expected type contains the string value; and a mismatch never raises
(literal-valued options always resolve successfully). -/
theorem claim_C3 :
    (∀ (f : Nat) (ctx : Context) (opts : List (String × OptVal))
        (exp : ExpectedSpec),
      (opts.map Prod.fst).Nodup →
      resolveOptions (f+1) ctx (some opts) (some exp) =
        (opts.mapM (claimOptionEntry f ctx exp)).map List.reduceOption) ∧
    (∀ (f : Nat) (ctx : Context) (opts : List (String × OptVal))
        (exp : ExpectedSpec),
      (opts.map Prod.fst).Nodup →
      (∀ kv ∈ opts, optValIsStr kv.2 = true) →
      ∃ l, resolveOptions (f+1) ctx (some opts) (some exp) = .ok l) := by
  have hmain : ∀ (f : Nat) (ctx : Context) (opts : List (String × OptVal))
      (exp : ExpectedSpec),
      (opts.map Prod.fst).Nodup →
      resolveOptions (f+1) ctx (some opts) (some exp) =
        (opts.mapM (claimOptionEntry f ctx exp)).map List.reduceOption := by
    intro f ctx opts exp hnodup
    rw [resolveOptions_unfold]
    rw [resolveOptions_go f ctx exp opts [] hnodup (fun k _ => rfl)]
    cases opts.mapM (claimOptionEntry f ctx exp) <;> simp [Except.map]
  refine ⟨hmain, ?_⟩
  intro f ctx opts exp hnodup hstr
  rw [hmain f ctx opts exp hnodup]
  obtain ⟨l0, hl⟩ := mapM_claimOption_str_ok f ctx exp opts hstr
  exact ⟨l0.reduceOption, by rw [hl]; rfl⟩

/-- Witness for claim C3 at a concrete schema exercising every policy
branch: boolean coercion, numeric parse, schema-absent drop, enum
membership, `never` drop, and a variable-valued option. -/
theorem claim_C3_witness :
    resolveOptions 5
        ⟨["en"], [("name", .vstr "Ada")], fun _ _ => none, fun _ => none,
          fun _ => none, fun _ _ _ => none⟩
        (some [("b", .str "true"), ("n", .str "7"), ("x", .str "q"),
          ("e", .str "zz"), ("nv", .str "1"),
          ("v", .varO [.lit "name" none] none)])
        (some (.record [("b", .name "boolean"), ("n", .name "number"),
          ("e", .enum ["aa", "zz"]), ("nv", .name "never"),
          ("v", .name "string")])) =
      .ok [("b", .vbool true), ("n", .vnum (.int 7)), ("e", .vstr "zz"),
           ("v", .vstr "Ada")] ∧
    (∃ l, resolveOptions 5
        ⟨["en"], [], fun _ _ => none, fun _ => none,
          fun _ => none, fun _ _ _ => none⟩
        (some [("b", .str "nope"), ("q", .str "3")])
        (some (.record [("b", .name "boolean")])) = .ok l) := by
  constructor
  · have h := claim_C3.1 4
      ⟨["en"], [("name", .vstr "Ada")], fun _ _ => none, fun _ => none,
        fun _ => none, fun _ _ _ => none⟩
      [("b", .str "true"), ("n", .str "7"), ("x", .str "q"),
        ("e", .str "zz"), ("nv", .str "1"),
        ("v", .varO [.lit "name" none] none)]
      (.record [("b", .name "boolean"), ("n", .name "number"),
        ("e", .enum ["aa", "zz"]), ("nv", .name "never"),
        ("v", .name "string")])
      (by decide)
    exact h.trans (by rfl)
  · exact claim_C3.2 4
      ⟨["en"], [], fun _ _ => none, fun _ => none,
        fun _ => none, fun _ _ _ => none⟩
      [("b", .str "nope"), ("q", .str "3")]
      (.record [("b", .name "boolean")])
      (by decide) (by decide)

theorem litPattern_mapM (f : Nat) (ctx : Context) :
    ∀ (parts : List MsgPart), patternLiteralsOnly parts = true →
    ∃ rs, parts.mapM (fun part => resolvePart (f+1) ctx part) = .ok rs ∧
      fmtConcat rs = literalConcat parts := by
  intro parts
  induction parts with
  | nil => exact fun _ => ⟨[], rfl, rfl⟩
  | cons p ps ih =>
      intro h
      cases p with
      | lit v m =>
          obtain ⟨rs, hrs, hc⟩ := ih (by simpa [patternLiteralsOnly] using h)
          refine ⟨.literal ctx.locales v (mkMeta m) :: rs, ?_, ?_⟩
          · rw [List.mapM_cons]
            have h1 : resolvePart (f+1) ctx (MsgPart.lit v m) =
                .ok (.literal ctx.locales v (mkMeta m)) := rfl
            rw [h1, hrs]
            rfl
          · simp only [fmtConcat, literalConcat, hc]
            rfl
      | var p m => simp [patternLiteralsOnly] at h
      | func a n o m => simp [patternLiteralsOnly] at h
      | term a r sc m => simp [patternLiteralsOnly] at h

/-- Claim C8: a pattern of literal parts only renders to the verbatim
concatenation of the literal values, for any metadata and any context,
and in particular the rendered string is identical across contexts (hence
across locale lists). -/
theorem claim_C8 :
    (∀ (f : Nat) (ctx : Context) (meta : Option MMeta) (parts : List MsgPart),
      patternLiteralsOnly parts = true →
      formatToString (f+2) ctx ⟨meta, .pattern parts⟩ =
        .ok (literalConcat parts)) ∧
    (∀ (f : Nat) (ctx1 ctx2 : Context) (meta : Option MMeta)
        (parts : List MsgPart),
      patternLiteralsOnly parts = true →
      ctx1.scope = [] → ctx2.scope = [] →
      formatToString (f+2) ctx1 ⟨meta, .pattern parts⟩ =
        formatToString (f+2) ctx2 ⟨meta, .pattern parts⟩) := by
  have hmain : ∀ (f : Nat) (ctx : Context) (meta : Option MMeta)
      (parts : List MsgPart),
      patternLiteralsOnly parts = true →
      formatToString (f+2) ctx ⟨meta, .pattern parts⟩ =
        .ok (literalConcat parts) := by
    intro f ctx meta parts h
    obtain ⟨rs, hrs, hc⟩ := litPattern_mapM f ctx parts h
    simp only [formatToString, formatToParts, Bind.bind, Except.bind, pure,
      Except.pure]
    rw [hrs]
    cases meta with
    | none => simp [Except.map, hc]
    | some m =>
        simp only [Option.isSome_some, Bool.true_or, if_true, Except.map]
        simp only [fmtConcat, fmtToString]
        rw [hc]
        simp
  refine ⟨hmain, ?_⟩
  intro f ctx1 ctx2 meta parts h _ _
  rw [hmain f ctx1 meta parts h, hmain f ctx2 meta parts h]

/-- Witness for claim C8: a concrete literal pattern renders verbatim and
identically under two contexts that differ in their locale lists. -/
theorem claim_C8_witness :
    formatToString 5
        ⟨["en"], [], fun _ _ => none, fun _ => none, fun _ => none,
          fun _ _ _ => none⟩
        ⟨none, .pattern [.lit "Hello " none, .lit "world" none]⟩ =
      .ok "Hello world" ∧
    formatToString 5
        ⟨["fi", "sv"], [], fun _ _ => none, fun _ => none, fun _ => none,
          fun _ _ _ => none⟩
        ⟨none, .pattern [.lit "Hello " none, .lit "world" none]⟩ =
      formatToString 5
        ⟨["en"], [], fun _ _ => none, fun _ => none, fun _ => none,
          fun _ _ _ => none⟩
        ⟨none, .pattern [.lit "Hello " none, .lit "world" none]⟩ := by
  constructor
  · have h := claim_C8.1 3
      ⟨["en"], [], fun _ _ => none, fun _ => none, fun _ => none,
        fun _ _ _ => none⟩
      none [.lit "Hello " none, .lit "world" none] (by decide)
    exact h.trans (by rfl)
  · exact claim_C8.2 3
      ⟨["fi", "sv"], [], fun _ _ => none, fun _ => none, fun _ => none,
        fun _ _ _ => none⟩
      ⟨["en"], [], fun _ _ => none, fun _ => none, fun _ => none,
        fun _ _ _ => none⟩
      none [.lit "Hello " none, .lit "world" none] (by decide) rfl rfl

theorem caseKeyMatches_spec (res : List ResolvedSelector) :
    ∀ (key : List String) (i : Nat), i + key.length = res.length →
    caseKeyMatches res key i =
      .ok ((key.zip (res.drop i)).all (fun e => matchesSel e.2 e.1)) := by
  intro key
  induction key with
  | nil => intro i h; simp [caseKeyMatches]
  | cons k ks ih =>
      intro i h
      have hi : i < res.length := by
        simp only [List.length_cons] at h
        omega
      have hget : res.get? i = some (res.get ⟨i, hi⟩) := List.get?_eq_get hi
      have hdrop : res.drop i = res.get ⟨i, hi⟩ :: res.drop (i+1) := by
        rw [List.drop_eq_getElem_cons hi]
        rfl
      simp only [caseKeyMatches, hget]
      by_cases hm : matchesSel (res.get ⟨i, hi⟩) k = true
      · rw [if_pos hm, ih (i+1) (by simp only [List.length_cons] at h; omega)]
        rw [hdrop]
        simp only [List.zip_cons_cons, List.all_cons, hm, Bool.true_and]
      · rw [if_neg hm]
        have hm' : matchesSel (res.get ⟨i, hi⟩) k = false := by
          revert hm
          cases matchesSel (res.get ⟨i, hi⟩) k <;> simp
        rw [hdrop]
        simp only [List.zip_cons_cons, List.all_cons, hm', Bool.false_and]

theorem claimVariantMatches_of_len (res : List ResolvedSelector)
    (key : List String) (hlen : key.length = res.length) :
    claimVariantMatches res key =
      (key.zip res).all (fun e => matchesSel e.2 e.1) := by
  simp [claimVariantMatches, hlen]

theorem scanCases_first (res : List ResolvedSelector) :
    ∀ (cases : List SelCase) (j : Nat) (hj : j < cases.length),
    (∀ c ∈ cases, c.key.length = res.length) →
    claimVariantMatches res ((cases.get ⟨j, hj⟩).key) = true →
    (∀ i (hi : i < j), claimVariantMatches res
        ((cases.get ⟨i, Nat.lt_trans hi hj⟩).key) = false) →
    scanCases res cases = .ok (some (cases.get ⟨j, hj⟩)) := by
  intro cases
  induction cases with
  | nil => intro j hj; simp at hj
  | cons c cs ih =>
      intro j hj hlen hmatch hfirst
      have hlc : c.key.length = res.length := hlen c (by simp)
      have hc0 : caseKeyMatches res c.key 0 =
          .ok (claimVariantMatches res c.key) := by
        rw [caseKeyMatches_spec res c.key 0 (by omega),
          claimVariantMatches_of_len res c.key hlc]
        simp
      cases j with
      | zero =>
          have hm : claimVariantMatches res c.key = true := hmatch
          simp only [scanCases, Bind.bind, Except.bind, hc0, hm, if_true]
          rfl
      | succ j' =>
          have h0 : claimVariantMatches res c.key = false := hfirst 0 (by omega)
          simp only [scanCases, Bind.bind, Except.bind, hc0, h0,
            Bool.false_eq_true, if_false]
          have hj' : j' < cs.length := by
            simp only [List.length_cons] at hj
            omega
          have := ih j' hj' (fun x hx => hlen x (by simp [hx]))
            hmatch (fun i hi => hfirst (i+1) (by omega))
          exact this

/-- Claim C1: the variant scan returns the first variant, in declaration
order, whose key tuple fully matches - at every selector index the key
equals the resolved default, equals the resolved value, or is a member of
an array-valued resolved value; and `resolveSelect` is exactly this scan
over the resolved selectors. -/
theorem claim_C1 :
    (∀ (res : List ResolvedSelector) (key : List String),
      claimVariantMatches res key = true ↔
        (key.length = res.length ∧
          ∀ (i : Nat) (h1 : i < key.length) (h2 : i < res.length),
            matchesSel (res.get ⟨i, h2⟩) (key.get ⟨i, h1⟩) = true)) ∧
    (∀ (res : List ResolvedSelector) (cases : List SelCase) (j : Nat)
        (hj : j < cases.length),
      (∀ c ∈ cases, c.key.length = res.length) →
      claimVariantMatches res ((cases.get ⟨j, hj⟩).key) = true →
      (∀ (i : Nat) (hi : i < j), claimVariantMatches res
          ((cases.get ⟨i, Nat.lt_trans hi hj⟩).key) = false) →
      scanCases res cases = .ok (some (cases.get ⟨j, hj⟩))) ∧
    (∀ (f : Nat) (ctx : Context) (s : Select) (res : List ResolvedSelector),
      s.select.mapM (fun sel => resolveOneSelector f ctx sel) = .ok res →
      resolveSelect (f+1) ctx s =
        (scanCases res s.cases).map (fun m =>
          match m with
          | some c => (c.value, ctx.selectMeta s res c.key)
          | none => (([] : List MsgPart), (none : Option MMeta)))) := by
  refine ⟨?_, scanCases_first, ?_⟩
  · intro res key
    constructor
    · intro h
      simp only [claimVariantMatches, Bool.and_eq_true, beq_iff_eq] at h
      obtain ⟨hlen, hall⟩ := h
      refine ⟨hlen, ?_⟩
      intro i h1 h2
      rw [List.all_eq_true] at hall
      have hz : i < (key.zip res).length := by
        simp [List.length_zip]
        omega
      have hm : (key.zip res).get ⟨i, hz⟩ ∈ key.zip res := List.get_mem _ _ hz
      have hval : (key.zip res).get ⟨i, hz⟩ =
          (key.get ⟨i, h1⟩, res.get ⟨i, h2⟩) := by
        simp [List.get_eq_getElem, List.getElem_zip]
      have := hall _ hm
      rw [hval] at this
      simpa using this
    · rintro ⟨hlen, hall⟩
      simp only [claimVariantMatches, Bool.and_eq_true, beq_iff_eq]
      refine ⟨hlen, ?_⟩
      rw [List.all_eq_true]
      intro x hx
      obtain ⟨i, hi, hgx⟩ := List.mem_iff_getElem.mp hx
      have hi1 : i < key.length := by
        simp [List.length_zip] at hi
        omega
      have hi2 : i < res.length := by
        simp [List.length_zip] at hi
        omega
      have hval : (key.zip res)[i] = (key[i], res[i]) := List.getElem_zip
      rw [hval] at hgx
      subst hgx
      simpa using hall i hi1 hi2
  · intro f ctx s res hres
    simp only [resolveSelect, Bind.bind, Except.bind, hres]
    cases hscan : scanCases res s.cases with
    | error e => rfl
    | ok m => cases m <;> rfl

/-- Witness for claim C1: the spec's plural tie-break example.  With
selector value `1` resolving through `plural` to category `"one"` and
default key `"other"`, the variant order `[(one,X),(other,Y)]` selects
`X`, while the reordering `[(other,Y),(one,X)]` selects `Y` - the first
fully matching variant in declaration order always wins. -/
theorem claim_C1_witness :
    resolveSelect 5
        ⟨["en"], [("n", .vnum (.int 1))], fun _ _ => none, fun _ => none,
          (fun n => if n = "plural" then
              some ⟨none, fun _ _ args =>
                match args with
                | [.vnum (.int 1)] => .ok (.raw (.vstr "one"))
                | _ => .ok (.raw (.vstr "other"))⟩
            else none),
          fun _ _ _ => none⟩
        ⟨[⟨.var [.lit "n" none] none, none⟩],
          [⟨["one"], [.lit "X" none]⟩, ⟨["other"], [.lit "Y" none]⟩]⟩ =
      .ok ([.lit "X" none], none) ∧
    resolveSelect 5
        ⟨["en"], [("n", .vnum (.int 1))], fun _ _ => none, fun _ => none,
          (fun n => if n = "plural" then
              some ⟨none, fun _ _ args =>
                match args with
                | [.vnum (.int 1)] => .ok (.raw (.vstr "one"))
                | _ => .ok (.raw (.vstr "other"))⟩
            else none),
          fun _ _ _ => none⟩
        ⟨[⟨.var [.lit "n" none] none, none⟩],
          [⟨["other"], [.lit "Y" none]⟩, ⟨["one"], [.lit "X" none]⟩]⟩ =
      .ok ([.lit "Y" none], none) ∧
    scanCases [⟨.vstr "one", "other"⟩]
        [⟨["one"], [.lit "X" none]⟩, ⟨["other"], [.lit "Y" none]⟩] =
      .ok (some ⟨["one"], [.lit "X" none]⟩) := by
  refine ⟨?_, ?_, ?_⟩
  · have h := claim_C1.2.2 4
      ⟨["en"], [("n", .vnum (.int 1))], fun _ _ => none, fun _ => none,
        (fun n => if n = "plural" then
            some ⟨none, fun _ _ args =>
              match args with
              | [.vnum (.int 1)] => .ok (.raw (.vstr "one"))
              | _ => .ok (.raw (.vstr "other"))⟩
          else none),
        fun _ _ _ => none⟩
      ⟨[⟨.var [.lit "n" none] none, none⟩],
        [⟨["one"], [.lit "X" none]⟩, ⟨["other"], [.lit "Y" none]⟩]⟩
      [⟨.vstr "one", "other"⟩] rfl
    exact h.trans (by rfl)
  · have h := claim_C1.2.2 4
      ⟨["en"], [("n", .vnum (.int 1))], fun _ _ => none, fun _ => none,
        (fun n => if n = "plural" then
            some ⟨none, fun _ _ args =>
              match args with
              | [.vnum (.int 1)] => .ok (.raw (.vstr "one"))
              | _ => .ok (.raw (.vstr "other"))⟩
          else none),
        fun _ _ _ => none⟩
      ⟨[⟨.var [.lit "n" none] none, none⟩],
        [⟨["other"], [.lit "Y" none]⟩, ⟨["one"], [.lit "X" none]⟩]⟩
      [⟨.vstr "one", "other"⟩] rfl
    exact h.trans (by rfl)
  · have h := claim_C1.2.1 [⟨.vstr "one", "other"⟩]
      [⟨["one"], [.lit "X" none]⟩, ⟨["other"], [.lit "Y" none]⟩]
      0 (by simp) (by decide) (by decide)
      (fun i hi => absurd hi (Nat.not_lt_zero i))
    exact h

theorem drop_append_len (pre rest : List Char) :
    (pre ++ rest).drop pre.length = rest := by
  simp

theorem drop_append_add (pre rest : List Char) (k : Nat) :
    (pre ++ rest).drop (pre.length + k) = rest.drop k := by
  induction pre with
  | nil => simp
  | cons a t ih => simp [Nat.succ_add, ih]

theorem charAt_append (pre rest : List Char) (k : Nat) :
    charAt (pre ++ rest) (pre.length + k) = charAt rest k := by
  unfold charAt
  rw [drop_append_add]

theorem charAt_append0 (pre rest : List Char) :
    charAt (pre ++ rest) pre.length = rest.head? := by
  unfold charAt
  rw [drop_append_len]

theorem takeWhile_all_stop {p : Char → Bool} (xs ys : List Char)
    (hall : ∀ c ∈ xs, p c = true)
    (hstop : ∀ y, ys.head? = some y → p y = false) :
    (xs ++ ys).takeWhile p = xs := by
  induction xs with
  | nil =>
      cases ys with
      | nil => rfl
      | cons y t =>
          simp only [List.nil_append, List.takeWhile_cons]
          rw [hstop y rfl]
          rfl
  | cons x t ih =>
      simp only [List.cons_append, List.takeWhile_cons, hall x (by simp)]
      rw [ih (fun c hc => hall c (by simp [hc]))]
      simp

theorem spacesL_all (n : Nat) : ∀ c ∈ spacesL n, isSpaceChar c = true := by
  intro c hc
  have := List.eq_of_mem_replicate hc
  subst this
  decide

theorem nameChar_not_space (c : Char) (h : isNameChar c = true) :
    isSpaceChar c = false := by
  simp only [isNameChar, Bool.or_eq_true, Bool.and_eq_true,
    decide_eq_true_eq] at h
  simp only [isSpaceChar, Bool.or_eq_false_iff, decide_eq_false_iff_not]
  omega

theorem nameChar_ne_of (c x : Char) (h : isNameChar c = true)
    (hx : isNameChar x = false) : c ≠ x := by
  intro heq
  rw [heq, hx] at h
  cases h

theorem whitespaces_at (pre : List Char) (n : Nat) (rest : List Char)
    (hstop : ∀ y, rest.head? = some y → isSpaceChar y = false) :
    whitespaces (pre ++ (spacesL n ++ rest)) pre.length = n := by
  unfold whitespaces
  rw [drop_append_len, takeWhile_all_stop (spacesL n) rest (spacesL_all n) hstop]
  simp [spacesL]

theorem nameValue_at (pre name rest : List Char)
    (hall : ∀ c ∈ name, isNameChar c = true)
    (hstop : ∀ y, rest.head? = some y → isNameChar y = false) :
    parseNameValue (pre ++ (name ++ rest)) pre.length = name := by
  unfold parseNameValue
  rw [drop_append_len, takeWhile_all_stop name rest hall hstop]

theorem whitespaces_head_not (src : List Char) (pos : Nat)
    (h : ∀ y, (src.drop pos).head? = some y → isSpaceChar y = false) :
    whitespaces src pos = 0 := by
  unfold whitespaces
  cases hd : src.drop pos with
  | nil => rfl
  | cons y t =>
      simp only [List.takeWhile_cons]
      rw [h y (by rw [hd]; rfl)]
      rfl

theorem parseLiteral_at (pre content rest : List Char) (errs : List PErr)
    (hc : validLitContent content = true) :
    parseLiteral (pre ++ ('(' :: (content ++ ')' :: rest))) pre.length errs =
      (.lit pre.length (pre.length + 1 + content.length + 1) content, errs) := by
  unfold parseLiteral
  have hdrop : (pre ++ ('(' :: (content ++ ')' :: rest))).drop (pre.length + 1)
      = content ++ ')' :: rest := by
    have h := drop_append_add pre ('(' :: (content ++ ')' :: rest)) 1
    simpa using h
  rw [hdrop]
  have htw : (content ++ ')' :: rest).takeWhile (fun c => !(c = ')'))
      = content := by
    refine takeWhile_all_stop content _ ?_ ?_
    · intro c hcm
      have := (List.all_eq_true.mp hc) c hcm
      simpa using this
    · intro y hy
      simp only [List.head?_cons, Option.some_inj] at hy
      subst hy
      decide
  rw [htw]
  have hlen : pre.length + 1 + content.length <
      (pre ++ ('(' :: (content ++ ')' :: rest))).length := by
    simp only [List.length_append, List.length_cons]
    omega
  rw [if_pos hlen]

theorem parseVariable_at (pre name rest : List Char) (errs : List PErr)
    (hname : validNameTok name = true)
    (hstop : ∀ y, rest.head? = some y → isNameChar y = false) :
    parseVariable (pre ++ ('$' :: (name ++ rest))) pre.length errs =
      (.variable pre.length (pre.length + 1 + name.length) name, errs) := by
  have hall : ∀ c ∈ name, isNameChar c = true := by
    intro c hc
    have h2 := (Bool.and_eq_true _ _).mp hname
    exact (List.all_eq_true.mp h2.2) c hc
  have hne : name.isEmpty = false := by
    have h2 := (Bool.and_eq_true _ _).mp hname
    revert h2
    cases name.isEmpty <;> simp
  unfold parseVariable
  have hnv : parseNameValue (pre ++ ('$' :: (name ++ rest)))
      (pre.length + 1) = name := by
    have h2 := nameValue_at (pre ++ ['$']) name rest hall hstop
    simp only [List.append_assoc, List.singleton_append,
      List.length_append, List.length_singleton] at h2
    exact h2
  rw [hnv]
  simp only [hne, Bool.false_eq_true, if_false]

theorem parseNmtoken_at (pre tok rest : List Char) (errs : List PErr)
    (htok : validNameTok tok = true)
    (hstop : ∀ y, rest.head? = some y → isNameChar y = false) :
    parseNmtoken (pre ++ (tok ++ rest)) pre.length errs =
      (.nmtoken pre.length (pre.length + tok.length) tok, errs) := by
  have hall : ∀ c ∈ tok, isNameChar c = true := by
    intro c hc
    have h2 := (Bool.and_eq_true _ _).mp htok
    exact (List.all_eq_true.mp h2.2) c hc
  have hne : tok.isEmpty = false := by
    have h2 := (Bool.and_eq_true _ _).mp htok
    revert h2
    cases tok.isEmpty <;> simp
  unfold parseNmtoken
  rw [nameValue_at pre tok rest hall hstop]
  simp only [hne, Bool.false_eq_true, if_false]

theorem parseOption_at (pre : List Char) (o : WfOptionD) (rest : List Char)
    (errs : List PErr) (hv : validOption o = true)
    (hstop : ∀ y, rest.head? = some y → isNameChar y = false) :
    parseOption (pre ++ (renderOption o ++ rest)) pre.length errs =
      (⟨pre.length, pre.length + (renderOption o).length, o.name,
        renderedValTok (pre.length + o.name.length + 1) o.value⟩, errs) := by
  obtain ⟨nm, v⟩ := o
  simp only [validOption, Bool.and_eq_true] at hv
  obtain ⟨hnm, hval⟩ := hv
  have hnmall : ∀ c ∈ nm, isNameChar c = true := by
    intro c hc
    have h2 := (Bool.and_eq_true _ _).mp hnm
    exact (List.all_eq_true.mp h2.2) c hc
  have hsrc0 : pre ++ (renderOption ⟨nm, v⟩ ++ rest)
      = pre ++ (nm ++ ('=' :: (renderOptVal v ++ rest))) := by
    simp [renderOption]
  rw [hsrc0]
  set src := pre ++ (nm ++ ('=' :: (renderOptVal v ++ rest))) with hsrcdf
  have hname : parseNameValue src pre.length = nm := by
    rw [hsrcdf]
    refine nameValue_at pre nm _ hnmall ?_
    intro y hy
    simp only [List.head?_cons, Option.some_inj] at hy
    subst hy
    decide
  have hdropEq : src.drop (pre.length + nm.length)
      = '=' :: (renderOptVal v ++ rest) := by
    rw [hsrcdf]
    rw [drop_append_add pre _ nm.length, drop_append_len nm _]
  have hws1 : whitespaces src (pre.length + nm.length) = 0 := by
    apply whitespaces_head_not
    intro y hy
    rw [hdropEq] at hy
    simp only [List.head?_cons, Option.some_inj] at hy
    subst hy
    decide
  have hchar2 : charAt src (pre.length + nm.length) = some '=' := by
    unfold charAt
    rw [hdropEq]
    rfl
  have hdropEq2 : src.drop (pre.length + nm.length + 1)
      = renderOptVal v ++ rest := by
    rw [hsrcdf]
    rw [Nat.add_assoc, drop_append_add pre _ (nm.length + 1),
      drop_append_add nm _ 1]
    rfl
  cases v with
  | lit c =>
      simp only [validOptVal] at hval
      have hws2 : whitespaces src (pre.length + nm.length + 1) = 0 := by
        apply whitespaces_head_not
        intro y hy
        rw [hdropEq2] at hy
        simp only [renderOptVal, List.cons_append, List.head?_cons,
          Option.some_inj] at hy
        subst hy
        decide
      have hchar3 : charAt src (pre.length + nm.length + 1) = some '(' := by
        unfold charAt
        rw [hdropEq2]
        rfl
      have hsrceq : src = (pre ++ nm ++ ['=']) ++ ('(' :: (c ++ ')' :: rest)) := by
        rw [hsrcdf]
        simp [renderOptVal]
      have hplen : (pre ++ nm ++ ['=']).length = pre.length + nm.length + 1 := by
        simp only [List.length_append, List.length_singleton]
      have hlit := parseLiteral_at (pre ++ nm ++ ['=']) c rest errs hval
      rw [hplen, ← hsrceq] at hlit
      simp only [parseOption]
      rw [hname, hws1, Nat.add_zero, if_pos hchar2]
      simp only []
      rw [hws2, Nat.add_zero, hchar3]
      simp only []
      rw [hlit]
      simp only [ValTok.stop, renderedValTok, renderOption, renderOptVal,
        List.length_append, List.length_cons, List.length_nil, Prod.mk.injEq,
        OptionTok.mk.injEq, ValTok.lit.injEq, true_and, and_true]
      omega
  | varD n =>
      simp only [validOptVal] at hval
      have hws2 : whitespaces src (pre.length + nm.length + 1) = 0 := by
        apply whitespaces_head_not
        intro y hy
        rw [hdropEq2] at hy
        simp only [renderOptVal, List.cons_append, List.head?_cons,
          Option.some_inj] at hy
        subst hy
        decide
      have hchar3 : charAt src (pre.length + nm.length + 1) = some '$' := by
        unfold charAt
        rw [hdropEq2]
        rfl
      have hsrceq : src = (pre ++ nm ++ ['=']) ++ ('$' :: (n ++ rest)) := by
        rw [hsrcdf]
        simp [renderOptVal]
      have hplen : (pre ++ nm ++ ['=']).length = pre.length + nm.length + 1 := by
        simp only [List.length_append, List.length_singleton]
      have hvar := parseVariable_at (pre ++ nm ++ ['=']) n rest errs hval hstop
      rw [hplen, ← hsrceq] at hvar
      simp only [parseOption]
      rw [hname, hws1, Nat.add_zero, if_pos hchar2]
      simp only []
      rw [hws2, Nat.add_zero, hchar3]
      simp only []
      rw [hvar]
      simp only [ValTok.stop, renderedValTok, renderOption, renderOptVal,
        List.length_append, List.length_cons, List.length_nil, Prod.mk.injEq,
        OptionTok.mk.injEq, ValTok.variable.injEq, true_and, and_true]
      omega
  | nm t =>
      simp only [validOptVal] at hval
      have htall : ∀ c ∈ t, isNameChar c = true := by
        intro c hc
        have h2 := (Bool.and_eq_true _ _).mp hval
        exact (List.all_eq_true.mp h2.2) c hc
      obtain ⟨th, tt, rfl⟩ : ∃ th tt, t = th :: tt := by
        cases t with
        | nil => simp [validNameTok] at hval
        | cons a b => exact ⟨a, b, rfl⟩
      have hth : isNameChar th = true := htall th (by simp)
      have hws2 : whitespaces src (pre.length + nm.length + 1) = 0 := by
        apply whitespaces_head_not
        intro y hy
        rw [hdropEq2] at hy
        simp only [renderOptVal, List.cons_append, List.head?_cons,
          Option.some_inj] at hy
        subst hy
        exact nameChar_not_space th hth
      have hchar3 : charAt src (pre.length + nm.length + 1) = some th := by
        unfold charAt
        rw [hdropEq2]
        rfl
      have hsrceq : src = (pre ++ nm ++ ['=']) ++ ((th :: tt) ++ rest) := by
        rw [hsrcdf]
        simp [renderOptVal]
      have hplen : (pre ++ nm ++ ['=']).length = pre.length + nm.length + 1 := by
        simp only [List.length_append, List.length_singleton]
      have hnmt := parseNmtoken_at (pre ++ nm ++ ['=']) (th :: tt) rest errs
        hval hstop
      rw [hplen, ← hsrceq] at hnmt
      simp only [parseOption]
      rw [hname, hws1, Nat.add_zero, if_pos hchar2]
      simp only []
      rw [hws2, Nat.add_zero, hchar3]
      split
      next heq =>
        exfalso
        exact nameChar_ne_of th '(' hth (by decide) (by
          simpa using heq)
      next heq =>
        exfalso
        exact nameChar_ne_of th '$' hth (by decide) (by
          simpa using heq)
      next h1 h2 =>
        rw [hnmt]
        simp only [ValTok.stop, renderedValTok, renderOption, renderOptVal,
          List.length_append, List.length_cons, List.length_nil, Prod.mk.injEq,
          OptionTok.mk.injEq, ValTok.nmtoken.injEq, true_and, and_true]
        omega


theorem renderOption_len_pos (o : WfOptionD) : 0 < (renderOption o).length := by
  simp only [renderOption, List.length_append, List.length_cons]
  omega

theorem optsTail_head_not_name (os : List WfOptionD) (n3 : Nat)
    (rest : List Char) :
    ∀ y, (renderOpts os ++ (spacesL n3 ++ '}' :: rest)).head? = some y →
      isNameChar y = false := by
  intro y hy
  cases os with
  | nil =>
      cases n3 with
      | zero =>
          simp only [renderOpts, spacesL, List.replicate, List.nil_append,
            List.head?_cons, Option.some_inj] at hy
          subst hy
          decide
      | succ m =>
          simp only [renderOpts, spacesL, List.replicate, List.nil_append,
            List.cons_append, List.head?_cons, Option.some_inj] at hy
          subst hy
          decide
  | cons o2 os2 =>
      simp only [renderOpts, List.cons_append, List.head?_cons,
        Option.some_inj] at hy
      subst hy
      decide

theorem optionLoop_at (opts : List WfOptionD) (pre : List Char) (n3 : Nat)
    (rest : List Char) (acc : List OptionTok) (errs : List PErr)
    (hv : ∀ o ∈ opts, validOption o = true) :
    optionLoop (pre ++ (renderOpts opts ++ (spacesL n3 ++ '}' :: rest)))
        pre.length acc errs =
      (acc ++ renderedOptToks pre.length opts,
        pre.length + (renderOpts opts).length, errs) := by
  induction opts generalizing pre acc errs with
  | nil =>
      simp only [renderOpts, List.nil_append, renderedOptToks, List.append_nil,
        List.length_nil, Nat.add_zero]
      have hlt : pre.length < (pre ++ (spacesL n3 ++ '}' :: rest)).length := by
        simp only [List.length_append, spacesL, List.length_replicate,
          List.length_cons]
        omega
      have hws : whitespaces (pre ++ (spacesL n3 ++ '}' :: rest))
          pre.length = n3 := by
        exact whitespaces_at pre n3 ('}' :: rest) (by
          intro y hy
          simp only [List.head?_cons, Option.some_inj] at hy
          subst hy
          decide)
      have hchar : charAt (pre ++ (spacesL n3 ++ '}' :: rest))
          (pre.length + n3) = some '}' := by
        have h := charAt_append0 (pre ++ spacesL n3) ('}' :: rest)
        simp only [List.length_append, spacesL, List.length_replicate,
          List.append_assoc] at h
        exact h
      rw [optionLoop, dif_pos hlt]
      rw [hws, if_pos hchar]
  | cons o os ih =>
      have hvo : validOption o = true := hv o (by simp)
      have hvos : ∀ x ∈ os, validOption x = true := fun x hx => hv x (by simp [hx])
      have honm : ∃ nh nt, o.name = nh :: nt ∧ isNameChar nh = true := by
        have h2 := (Bool.and_eq_true _ _).mp hvo
        have h3 := (Bool.and_eq_true _ _).mp h2.1
        cases hno : o.name with
        | nil => rw [hno] at h3; simp at h3
        | cons a b =>
            rw [hno] at h3
            exact ⟨a, b, rfl, (List.all_eq_true.mp h3.2) a (by simp)⟩
      obtain ⟨nh, nt, hno, hnh⟩ := honm
      set src := pre ++ (renderOpts (o :: os) ++ (spacesL n3 ++ '}' :: rest))
        with hsrcd
      have hlt : pre.length < src.length := by
        rw [hsrcd]
        simp only [renderOpts, List.length_append, List.length_cons]
        omega
      have hdrop1 : src.drop (pre.length + 1)
          = (renderOption o ++ renderOpts os) ++ (spacesL n3 ++ '}' :: rest) := by
        rw [hsrcd]
        rw [drop_append_add pre _ 1]
        simp [renderOpts, List.append_assoc]
      have hhead1 : ((renderOption o ++ renderOpts os)
          ++ (spacesL n3 ++ '}' :: rest)).head? = some nh := by
        simp [renderOption, hno]
      have hws : whitespaces src pre.length = 1 := by
        rw [hsrcd]
        have h := whitespaces_at pre 1
          ((renderOption o ++ renderOpts os) ++ (spacesL n3 ++ '}' :: rest)) (by
            intro y hy
            rw [hhead1] at hy
            simp only [Option.some_inj] at hy
            subst hy
            exact nameChar_not_space nh hnh)
        have hre : (spacesL 1 ++ ((renderOption o ++ renderOpts os)
            ++ (spacesL n3 ++ '}' :: rest)) : List Char)
            = renderOpts (o :: os) ++ (spacesL n3 ++ '}' :: rest) := by
          simp [spacesL, renderOpts, List.append_assoc]
        rw [hre] at h
        exact h
      have hchar1 : charAt src (pre.length + 1) = some nh := by
        unfold charAt
        rw [hdrop1, hhead1]
      have hne : ¬ (charAt src (pre.length + 1) = some '}') := by
        rw [hchar1]
        simp only [Option.some_inj]
        exact nameChar_ne_of nh '}' hnh (by decide)
      have hsrc2 : src = (pre ++ [' ']) ++
          (renderOption o ++ (renderOpts os ++ (spacesL n3 ++ '}' :: rest))) := by
        rw [hsrcd]
        simp [renderOpts, List.append_assoc]
      have hplen1 : (pre ++ [' ']).length = pre.length + 1 := by simp
      have hopt := parseOption_at (pre ++ [' ']) o
        (renderOpts os ++ (spacesL n3 ++ '}' :: rest)) errs hvo
        (optsTail_head_not_name os n3 rest)
      rw [hplen1, ← hsrc2] at hopt
      have hsrc3 : src = (pre ++ (' ' :: renderOption o)) ++
          (renderOpts os ++ (spacesL n3 ++ '}' :: rest)) := by
        rw [hsrcd]
        simp [renderOpts, List.append_assoc]
      have hplen2 : (pre ++ (' ' :: renderOption o)).length
          = pre.length + 1 + (renderOption o).length := by
        simp only [List.length_append, List.length_cons]
        omega
      have hih := ih (pre ++ (' ' :: renderOption o))
        (acc ++ [⟨pre.length + 1, pre.length + 1 + (renderOption o).length,
          o.name, renderedValTok (pre.length + 1 + o.name.length + 1) o.value⟩])
        errs hvos
      rw [hplen2, ← hsrc3] at hih
      rw [optionLoop, dif_pos hlt]
      rw [hws, if_neg hne, if_neg Nat.one_ne_zero]
      dsimp only
      rw [hopt]
      have hstopne : (((⟨pre.length + 1,
          pre.length + 1 + (renderOption o).length, o.name,
          renderedValTok (pre.length + 1 + o.name.length + 1) o.value⟩ :
            OptionTok),
          errs) : OptionTok × List PErr).1.stop ≠ pre.length + 1 := by
        show pre.length + 1 + (renderOption o).length ≠ pre.length + 1
        have hpos := renderOption_len_pos o
        omega
      rw [dif_neg hstopne]
      refine Eq.trans (Eq.trans ?_ hih) ?_
      · rfl
      · simp only [renderedOptToks, renderOpts, List.length_cons,
          List.length_append, Prod.mk.injEq, List.append_assoc,
          List.singleton_append, true_and, and_true]
        omega
theorem parseExprOrMarkup_colon (pre nm : List Char) (opts : List WfOptionD)
    (n3 : Nat) (post : List Char) (operand : Option ValTok) (errs : List PErr)
    (hnm : validNameTok nm = true)
    (hv : ∀ o ∈ opts, validOption o = true) :
    parseExpressionOrMarkup
        (pre ++ (':' :: (nm ++ (renderOpts opts ++ (spacesL n3 ++ '}' :: post)))))
        pre.length operand errs =
      (.expression operand pre.length
        (pre.length + 1 + nm.length + (renderOpts opts).length) nm
        (renderedOptToks (pre.length + 1 + nm.length) opts), errs) := by
  have hnmall : ∀ c ∈ nm, isNameChar c = true := by
    intro c hc
    have h2 := (Bool.and_eq_true _ _).mp hnm
    exact (List.all_eq_true.mp h2.2) c hc
  have hne : ¬ (nm.isEmpty = true) := by
    have h2 := (Bool.and_eq_true _ _).mp hnm
    revert h2
    cases nm.isEmpty <;> simp
  set src := pre ++ (':' :: (nm ++ (renderOpts opts ++ (spacesL n3 ++ '}' :: post))))
    with hsrcd
  have hsig : charAt src pre.length = some ':' := by
    rw [hsrcd, charAt_append0]
    rfl
  have hname : parseNameValue src (pre.length + 1) = nm := by
    rw [hsrcd]
    have h := nameValue_at (pre ++ [':']) nm
      (renderOpts opts ++ (spacesL n3 ++ '}' :: post)) hnmall
      (optsTail_head_not_name opts n3 post)
    simp only [List.append_assoc, List.singleton_append, List.length_append,
      List.length_singleton] at h
    exact h
  have hsrc2 : src = (pre ++ (':' :: nm)) ++
      (renderOpts opts ++ (spacesL n3 ++ '}' :: post)) := by
    rw [hsrcd]
    simp [List.append_assoc]
  have hplen : (pre ++ (':' :: nm)).length = pre.length + 1 + nm.length := by
    simp only [List.length_append, List.length_cons]
    omega
  have hloop := optionLoop_at opts (pre ++ (':' :: nm)) n3 post [] errs hv
  rw [hplen, ← hsrc2] at hloop
  simp only [List.nil_append] at hloop
  unfold parseExpressionOrMarkup
  dsimp only
  rw [hname, if_neg hne, hloop]
  dsimp only
  rw [if_pos hsig]

theorem parseExprOrMarkup_plus (pre nm : List Char) (opts : List WfOptionD)
    (n3 : Nat) (post : List Char) (operand : Option ValTok) (errs : List PErr)
    (hnm : validNameTok nm = true)
    (hv : ∀ o ∈ opts, validOption o = true) :
    parseExpressionOrMarkup
        (pre ++ ('+' :: (nm ++ (renderOpts opts ++ (spacesL n3 ++ '}' :: post)))))
        pre.length operand errs =
      (.markupStart pre.length
        (pre.length + 1 + nm.length + (renderOpts opts).length) nm
        (renderedOptToks (pre.length + 1 + nm.length) opts),
        match operand with
        | some op => ⟨"extra-content", op.start, some op.stop, none⟩ :: errs
        | none => errs) := by
  have hnmall : ∀ c ∈ nm, isNameChar c = true := by
    intro c hc
    have h2 := (Bool.and_eq_true _ _).mp hnm
    exact (List.all_eq_true.mp h2.2) c hc
  have hne : ¬ (nm.isEmpty = true) := by
    have h2 := (Bool.and_eq_true _ _).mp hnm
    revert h2
    cases nm.isEmpty <;> simp
  set src := pre ++ ('+' :: (nm ++ (renderOpts opts ++ (spacesL n3 ++ '}' :: post))))
    with hsrcd
  have hsig : charAt src pre.length = some '+' := by
    rw [hsrcd, charAt_append0]
    rfl
  have hname : parseNameValue src (pre.length + 1) = nm := by
    rw [hsrcd]
    have h := nameValue_at (pre ++ ['+']) nm
      (renderOpts opts ++ (spacesL n3 ++ '}' :: post)) hnmall
      (optsTail_head_not_name opts n3 post)
    simp only [List.append_assoc, List.singleton_append, List.length_append,
      List.length_singleton] at h
    exact h
  have hsrc2 : src = (pre ++ ('+' :: nm)) ++
      (renderOpts opts ++ (spacesL n3 ++ '}' :: post)) := by
    rw [hsrcd]
    simp [List.append_assoc]
  have hplen : (pre ++ ('+' :: nm)).length = pre.length + 1 + nm.length := by
    simp only [List.length_append, List.length_cons]
    omega
  have hloop := optionLoop_at opts (pre ++ ('+' :: nm)) n3 post [] errs hv
  rw [hplen, ← hsrc2] at hloop
  simp only [List.nil_append] at hloop
  have hnecolon : ¬ (charAt src pre.length = some ':') := by
    rw [hsig]
    simp
  have hplus : charAt src pre.length = some '+' := hsig
  unfold parseExpressionOrMarkup
  dsimp only
  rw [hname, if_neg hne, hloop]
  dsimp only
  rw [if_neg hnecolon, if_pos hplus]

theorem parseExprOrMarkup_minus (pre nm : List Char)
    (n3 : Nat) (post : List Char) (operand : Option ValTok) (errs : List PErr)
    (hnm : validNameTok nm = true) :
    parseExpressionOrMarkup
        (pre ++ ('-' :: (nm ++ (spacesL n3 ++ '}' :: post))))
        pre.length operand errs =
      (.markupEnd pre.length (pre.length + 1 + nm.length) nm,
        match operand with
        | some op => ⟨"extra-content", op.start, some op.stop, none⟩ :: errs
        | none => errs) := by
  have hnmall : ∀ c ∈ nm, isNameChar c = true := by
    intro c hc
    have h2 := (Bool.and_eq_true _ _).mp hnm
    exact (List.all_eq_true.mp h2.2) c hc
  have hne : ¬ (nm.isEmpty = true) := by
    have h2 := (Bool.and_eq_true _ _).mp hnm
    revert h2
    cases nm.isEmpty <;> simp
  set src := pre ++ ('-' :: (nm ++ (spacesL n3 ++ '}' :: post))) with hsrcd
  have hsig : charAt src pre.length = some '-' := by
    rw [hsrcd, charAt_append0]
    rfl
  have hname : parseNameValue src (pre.length + 1) = nm := by
    rw [hsrcd]
    have h := nameValue_at (pre ++ ['-']) nm (spacesL n3 ++ '}' :: post) hnmall
      (optsTail_head_not_name [] n3 post)
    simp only [List.append_assoc, List.singleton_append, List.length_append,
      List.length_singleton] at h
    exact h
  have hsrc2 : src = (pre ++ ('-' :: nm)) ++
      (renderOpts [] ++ (spacesL n3 ++ '}' :: post)) := by
    rw [hsrcd]
    simp [renderOpts, List.append_assoc]
  have hplen : (pre ++ ('-' :: nm)).length = pre.length + 1 + nm.length := by
    simp only [List.length_append, List.length_cons]
    omega
  have hloop := optionLoop_at [] (pre ++ ('-' :: nm)) n3 post [] errs
    (by intro o ho; simp at ho)
  rw [hplen, ← hsrc2] at hloop
  simp only [List.nil_append, renderedOptToks, List.append_nil, renderOpts,
    List.length_nil, Nat.add_zero] at hloop
  have hnecolon : ¬ (charAt src pre.length = some ':') := by
    rw [hsig]
    simp
  have hneplus : ¬ (charAt src pre.length = some '+') := by
    rw [hsig]
    simp
  unfold parseExpressionOrMarkup
  dsimp only
  rw [hname, if_neg hne, hloop]
  dsimp only
  rw [if_neg hnecolon, if_neg hneplus]
theorem closeTail_head_not_name (n3 : Nat) (post : List Char) :
    ∀ y, (spacesL n3 ++ '}' :: post).head? = some y → isNameChar y = false := by
  intro y hy
  exact optsTail_head_not_name [] n3 post y (by simpa [renderOpts] using hy)

theorem renderOperand_head_not_space (op : WfOperandD) (X : List Char) :
    ∀ y, (renderOperand op ++ X).head? = some y → isSpaceChar y = false := by
  intro y hy
  cases op <;>
    simp only [renderOperand, List.cons_append, List.head?_cons,
      Option.some_inj] at hy <;>
    subst hy <;> decide

theorem drop_at_of_eq (src pre2 rest2 : List Char) (k : Nat)
    (hsplit : src = pre2 ++ rest2) (hk : pre2.length = k) :
    src.drop k = rest2 := by
  subst hk
  rw [hsplit]
  exact drop_append_len _ _

theorem charAt_of_drop (src : List Char) (k : Nat) (c : Char) (t : List Char)
    (h : src.drop k = c :: t) : charAt src k = some c := by
  unfold charAt
  rw [h]
  rfl

theorem whitespaces_of_eq (src pre2 : List Char) (n : Nat) (rest2 : List Char)
    (k : Nat) (hsplit : src = pre2 ++ (spacesL n ++ rest2))
    (hk : pre2.length = k)
    (hstop : ∀ y, rest2.head? = some y → isSpaceChar y = false) :
    whitespaces src k = n := by
  subst hk
  rw [hsplit]
  exact whitespaces_at pre2 n rest2 hstop

theorem nameValue_of_eq (src pre2 name rest2 : List Char) (k : Nat)
    (hsplit : src = pre2 ++ (name ++ rest2)) (hk : pre2.length = k)
    (hall : ∀ c ∈ name, isNameChar c = true)
    (hstop : ∀ y, rest2.head? = some y → isNameChar y = false) :
    parseNameValue src k = name := by
  subst hk
  rw [hsplit]
  exact nameValue_at pre2 name rest2 hall hstop

theorem parseLiteral_of_eq (src pre2 content rest2 : List Char) (k : Nat)
    (errs : List PErr)
    (hsplit : src = pre2 ++ ('(' :: (content ++ ')' :: rest2)))
    (hk : pre2.length = k) (hc : validLitContent content = true) :
    parseLiteral src k errs
      = (.lit k (k + 1 + content.length + 1) content, errs) := by
  subst hk
  rw [hsplit]
  exact parseLiteral_at pre2 content rest2 errs hc

theorem parseVariable_of_eq (src pre2 name rest2 : List Char) (k : Nat)
    (errs : List PErr)
    (hsplit : src = pre2 ++ ('$' :: (name ++ rest2)))
    (hk : pre2.length = k) (hname : validNameTok name = true)
    (hstop : ∀ y, rest2.head? = some y → isNameChar y = false) :
    parseVariable src k errs
      = (.variable k (k + 1 + name.length) name, errs) := by
  subst hk
  rw [hsplit]
  exact parseVariable_at pre2 name rest2 errs hname hstop

theorem parseExprOrMarkup_colon_of_eq (src pre2 nm : List Char)
    (opts : List WfOptionD) (n3 : Nat) (post : List Char)
    (operand : Option ValTok) (errs : List PErr) (k : Nat)
    (hsplit : src = pre2 ++
      (':' :: (nm ++ (renderOpts opts ++ (spacesL n3 ++ '}' :: post)))))
    (hk : pre2.length = k) (hnm : validNameTok nm = true)
    (hv : ∀ o ∈ opts, validOption o = true) :
    parseExpressionOrMarkup src k operand errs =
      (.expression operand k (k + 1 + nm.length + (renderOpts opts).length) nm
        (renderedOptToks (k + 1 + nm.length) opts), errs) := by
  subst hk
  rw [hsplit]
  exact parseExprOrMarkup_colon pre2 nm opts n3 post operand errs hnm hv

theorem parseExprOrMarkup_plus_of_eq (src pre2 nm : List Char)
    (opts : List WfOptionD) (n3 : Nat) (post : List Char)
    (operand : Option ValTok) (errs : List PErr) (k : Nat)
    (hsplit : src = pre2 ++
      ('+' :: (nm ++ (renderOpts opts ++ (spacesL n3 ++ '}' :: post)))))
    (hk : pre2.length = k) (hnm : validNameTok nm = true)
    (hv : ∀ o ∈ opts, validOption o = true) :
    parseExpressionOrMarkup src k operand errs =
      (.markupStart k (k + 1 + nm.length + (renderOpts opts).length) nm
        (renderedOptToks (k + 1 + nm.length) opts),
        match operand with
        | some op => ⟨"extra-content", op.start, some op.stop, none⟩ :: errs
        | none => errs) := by
  subst hk
  rw [hsplit]
  exact parseExprOrMarkup_plus pre2 nm opts n3 post operand errs hnm hv

theorem parseExprOrMarkup_minus_of_eq (src pre2 nm : List Char)
    (n3 : Nat) (post : List Char)
    (operand : Option ValTok) (errs : List PErr) (k : Nat)
    (hsplit : src = pre2 ++ ('-' :: (nm ++ (spacesL n3 ++ '}' :: post))))
    (hk : pre2.length = k) (hnm : validNameTok nm = true) :
    parseExpressionOrMarkup src k operand errs =
      (.markupEnd k (k + 1 + nm.length) nm,
        match operand with
        | some op => ⟨"extra-content", op.start, some op.stop, none⟩ :: errs
        | none => errs) := by
  subst hk
  rw [hsplit]
  exact parseExprOrMarkup_minus pre2 nm n3 post operand errs hnm

theorem drop_spaces_shift (src : List Char) (pos0 n3 : Nat) (Y : List Char)
    (hdrop : src.drop pos0 = spacesL n3 ++ Y) :
    src.drop (pos0 + n3) = Y := by
  have h := congrArg (List.drop n3) hdrop
  rw [List.drop_drop] at h
  rw [h]
  have h2 := drop_append_len (spacesL n3) Y
  rw [(by simp [spacesL] : (spacesL n3).length = n3)] at h2
  exact h2

theorem closePlaceholder_ok (src : List Char) (start pos0 : Nat) (n3 : Nat)
    (body : PBody) (errs : List PErr) (post : List Char)
    (hdrop : src.drop pos0 = spacesL n3 ++ '}' :: post) :
    closePlaceholder src start pos0 body errs none
      = (⟨start, pos0 + n3 + 1, body⟩, errs) := by
  have hws : whitespaces src pos0 = n3 := by
    unfold whitespaces
    rw [hdrop, takeWhile_all_stop (spacesL n3) _ (spacesL_all n3) (by
      intro y hy
      simp only [List.head?_cons, Option.some_inj] at hy
      subst hy
      decide)]
    simp [spacesL]
  have hdrop2 : src.drop (pos0 + n3) = '}' :: post :=
    drop_spaces_shift src pos0 n3 ('}' :: post) hdrop
  have hlen : pos0 + n3 < src.length := by
    have h := congrArg List.length hdrop2
    simp only [List.length_drop, List.length_cons] at h
    omega
  have hchar : charAt src (pos0 + n3) = some '}' :=
    charAt_of_drop _ _ _ _ hdrop2
  unfold closePlaceholder
  dsimp only
  rw [hws, if_neg (by omega : ¬ (pos0 + n3 ≥ src.length)), if_pos hchar]

theorem parsePlaceholder_op_noneT (pre : List Char) (n1 : Nat)
    (op : WfOperandD) (n3 : Nat) (post : List Char) (errs : List PErr)
    (hop : validOperand op = true) :
    parsePlaceholder
        (pre ++ ('{' :: (spacesL n1 ++ (renderOperand op ++
          (spacesL n3 ++ '}' :: post))))) pre.length errs =
      (⟨pre.length,
        pre.length + 1 + n1 + (renderOperand op).length + n3 + 1,
        .operand (renderedOpTok (pre.length + 1 + n1) op)⟩, errs) := by
  set src := pre ++ ('{' :: (spacesL n1 ++ (renderOperand op ++
    (spacesL n3 ++ '}' :: post)))) with hsrcd
  have hws1 : whitespaces src (pre.length + 1) = n1 :=
    whitespaces_of_eq src (pre ++ ['{']) n1
      (renderOperand op ++ (spacesL n3 ++ '}' :: post)) (pre.length + 1)
      (by rw [hsrcd]; simp [List.append_assoc]) (by simp)
      (renderOperand_head_not_space op _)
  cases op with
  | lit c =>
      simp only [validOperand] at hop
      have harg := parseLiteral_of_eq src (pre ++ ('{' :: spacesL n1)) c
        (spacesL n3 ++ '}' :: post) (pre.length + 1 + n1) errs
        (by rw [hsrcd]; simp [renderOperand, List.append_assoc])
        (by simp only [List.length_append, List.length_cons, spacesL,
              List.length_replicate, List.length_nil]
            omega)
        hop
      have hchar0 : charAt src (pre.length + 1 + n1) = some '(' :=
        charAt_of_drop _ _ _ _ (drop_at_of_eq src (pre ++ ('{' :: spacesL n1))
          ('(' :: (c ++ ')' :: (spacesL n3 ++ '}' :: post)))
          (pre.length + 1 + n1)
          (by rw [hsrcd]; simp [renderOperand, List.append_assoc])
          (by simp only [List.length_append, List.length_cons, spacesL,
                List.length_replicate, List.length_nil]
              omega))
      have hws2 : whitespaces src (pre.length + 1 + n1 + 1 + c.length + 1)
          = n3 :=
        whitespaces_of_eq src
          (pre ++ ('{' :: (spacesL n1 ++ renderOperand (.lit c)))) n3
          ('}' :: post) (pre.length + 1 + n1 + 1 + c.length + 1)
          (by rw [hsrcd]; simp [renderOperand, List.append_assoc])
          (by simp only [List.length_append, List.length_cons, spacesL,
                List.length_replicate, List.length_nil, renderOperand]
              omega)
          (by intro y hy
              simp only [List.head?_cons, Option.some_inj] at hy
              subst hy
              decide)
      have hdropQ2 : src.drop (pre.length + 1 + n1 + 1 + c.length + 1 + n3)
          = '}' :: post :=
        drop_spaces_shift src (pre.length + 1 + n1 + 1 + c.length + 1) n3 _
          (drop_at_of_eq src
            (pre ++ ('{' :: (spacesL n1 ++ renderOperand (.lit c))))
            (spacesL n3 ++ '}' :: post) (pre.length + 1 + n1 + 1 + c.length + 1)
            (by rw [hsrcd]; simp [renderOperand, List.append_assoc])
            (by simp only [List.length_append, List.length_cons, spacesL,
                  List.length_replicate, List.length_nil, renderOperand]
                omega))
      have hcharP2 : charAt src (pre.length + 1 + n1 + 1 + c.length + 1 + n3)
          = some '}' :=
        charAt_of_drop _ _ _ _ hdropQ2
      have hbody : parsePlaceholderBody src pre.length errs
          = (.operand (.lit (pre.length + 1 + n1)
              (pre.length + 1 + n1 + 1 + c.length + 1) c),
            pre.length + 1 + n1 + 1 + c.length + 1 + n3, none, errs) := by
        unfold parsePlaceholderBody
        simp only [hws1, hchar0]
        rw [harg]
        simp only [ValTok.stop, hws2, hcharP2]
        split <;> first
          | rfl
          | (rename_i heq; exact absurd heq (by decide))
      have hclose := closePlaceholder_ok src pre.length
        (pre.length + 1 + n1 + 1 + c.length + 1 + n3) 0
        (.operand (.lit (pre.length + 1 + n1)
          (pre.length + 1 + n1 + 1 + c.length + 1) c)) errs post hdropQ2
      unfold parsePlaceholder
      dsimp only
      rw [hbody]
      dsimp only
      rw [hclose]
      simp only [renderedOpTok, renderOperand, Prod.mk.injEq,
        Placeholder.mk.injEq, List.length_cons, List.length_append,
        List.length_nil, true_and, and_true]
      omega
  | varD n =>
      simp only [validOperand] at hop
      have harg := parseVariable_of_eq src (pre ++ ('{' :: spacesL n1)) n
        (spacesL n3 ++ '}' :: post) (pre.length + 1 + n1) errs
        (by rw [hsrcd]; simp [renderOperand, List.append_assoc])
        (by simp only [List.length_append, List.length_cons, spacesL,
              List.length_replicate, List.length_nil]
            omega)
        hop (closeTail_head_not_name n3 post)
      have hchar0 : charAt src (pre.length + 1 + n1) = some '$' :=
        charAt_of_drop _ _ _ _ (drop_at_of_eq src (pre ++ ('{' :: spacesL n1))
          ('$' :: (n ++ (spacesL n3 ++ '}' :: post)))
          (pre.length + 1 + n1)
          (by rw [hsrcd]; simp [renderOperand, List.append_assoc])
          (by simp only [List.length_append, List.length_cons, spacesL,
                List.length_replicate, List.length_nil]
              omega))
      have hws2 : whitespaces src (pre.length + 1 + n1 + 1 + n.length) = n3 :=
        whitespaces_of_eq src
          (pre ++ ('{' :: (spacesL n1 ++ renderOperand (.varD n)))) n3
          ('}' :: post) (pre.length + 1 + n1 + 1 + n.length)
          (by rw [hsrcd]; simp [renderOperand, List.append_assoc])
          (by simp only [List.length_append, List.length_cons, spacesL,
                List.length_replicate, List.length_nil, renderOperand]
              omega)
          (by intro y hy
              simp only [List.head?_cons, Option.some_inj] at hy
              subst hy
              decide)
      have hdropQ2 : src.drop (pre.length + 1 + n1 + 1 + n.length + n3)
          = '}' :: post :=
        drop_spaces_shift src (pre.length + 1 + n1 + 1 + n.length) n3 _
          (drop_at_of_eq src
            (pre ++ ('{' :: (spacesL n1 ++ renderOperand (.varD n))))
            (spacesL n3 ++ '}' :: post) (pre.length + 1 + n1 + 1 + n.length)
            (by rw [hsrcd]; simp [renderOperand, List.append_assoc])
            (by simp only [List.length_append, List.length_cons, spacesL,
                  List.length_replicate, List.length_nil, renderOperand]
                omega))
      have hcharP2 : charAt src (pre.length + 1 + n1 + 1 + n.length + n3)
          = some '}' :=
        charAt_of_drop _ _ _ _ hdropQ2
      have hbody : parsePlaceholderBody src pre.length errs
          = (.operand (.variable (pre.length + 1 + n1)
              (pre.length + 1 + n1 + 1 + n.length) n),
            pre.length + 1 + n1 + 1 + n.length + n3, none, errs) := by
        unfold parsePlaceholderBody
        simp only [hws1, hchar0]
        rw [harg]
        simp only [ValTok.stop, hws2, hcharP2]
        split <;> first
          | rfl
          | (rename_i heq; exact absurd heq (by decide))
      have hclose := closePlaceholder_ok src pre.length
        (pre.length + 1 + n1 + 1 + n.length + n3) 0
        (.operand (.variable (pre.length + 1 + n1)
          (pre.length + 1 + n1 + 1 + n.length) n)) errs post hdropQ2
      unfold parsePlaceholder
      dsimp only
      rw [hbody]
      dsimp only
      rw [hclose]
      simp only [renderedOpTok, renderOperand, Prod.mk.injEq,
        Placeholder.mk.injEq, List.length_cons, List.length_append,
        List.length_nil, true_and, and_true]
      omega

theorem parsePlaceholderBody_op_sig (pre : List Char) (n1 : Nat)
    (op : WfOperandD) (n2 : Nat) (sig : Char) (tailrest : List Char)
    (errs : List PErr) (B : PBody) (E : List PErr)
    (hop : validOperand op = true)
    (hsig : sig = ':' ∨ sig = '+' ∨ sig = '-')
    (hpem : parseExpressionOrMarkup
      (pre ++ ('{' :: (spacesL n1 ++ (renderOperand op ++
        (spacesL n2 ++ sig :: tailrest)))))
      (pre.length + 1 + n1 + (renderOperand op).length + n2)
      (some (renderedOpTok (pre.length + 1 + n1) op)) errs = (B, E)) :
    parsePlaceholderBody
      (pre ++ ('{' :: (spacesL n1 ++ (renderOperand op ++
        (spacesL n2 ++ sig :: tailrest))))) pre.length errs
      = (B, B.stop, none, E) := by
  have hsigns : isSpaceChar sig = false := by
    rcases hsig with rfl | rfl | rfl <;> decide
  set src := pre ++ ('{' :: (spacesL n1 ++ (renderOperand op ++
    (spacesL n2 ++ sig :: tailrest)))) with hsrcd
  have hws1 : whitespaces src (pre.length + 1) = n1 :=
    whitespaces_of_eq src (pre ++ ['{']) n1
      (renderOperand op ++ (spacesL n2 ++ sig :: tailrest)) (pre.length + 1)
      (by rw [hsrcd]; simp [List.append_assoc]) (by simp)
      (renderOperand_head_not_space op _)
  cases op with
  | lit c =>
      simp only [validOperand] at hop
      have harg := parseLiteral_of_eq src (pre ++ ('{' :: spacesL n1)) c
        (spacesL n2 ++ sig :: tailrest) (pre.length + 1 + n1) errs
        (by rw [hsrcd]; simp [renderOperand, List.append_assoc])
        (by simp only [List.length_append, List.length_cons, spacesL,
              List.length_replicate, List.length_nil]
            omega)
        hop
      have hchar0 : charAt src (pre.length + 1 + n1) = some '(' :=
        charAt_of_drop _ _ _ _ (drop_at_of_eq src (pre ++ ('{' :: spacesL n1))
          ('(' :: (c ++ ')' :: (spacesL n2 ++ sig :: tailrest)))
          (pre.length + 1 + n1)
          (by rw [hsrcd]; simp [renderOperand, List.append_assoc])
          (by simp only [List.length_append, List.length_cons, spacesL,
                List.length_replicate, List.length_nil]
              omega))
      have hws2 : whitespaces src (pre.length + 1 + n1 + 1 + c.length + 1)
          = n2 :=
        whitespaces_of_eq src
          (pre ++ ('{' :: (spacesL n1 ++ renderOperand (.lit c)))) n2
          (sig :: tailrest) (pre.length + 1 + n1 + 1 + c.length + 1)
          (by rw [hsrcd]; simp [renderOperand, List.append_assoc])
          (by simp only [List.length_append, List.length_cons, spacesL,
                List.length_replicate, List.length_nil, renderOperand]
              omega)
          (by intro y hy
              simp only [List.head?_cons, Option.some_inj] at hy
              subst hy
              exact hsigns)
      have hcharP2 : charAt src (pre.length + 1 + n1 + 1 + c.length + 1 + n2)
          = some sig :=
        charAt_of_drop _ _ _ _ (drop_spaces_shift src
          (pre.length + 1 + n1 + 1 + c.length + 1) n2 (sig :: tailrest)
          (drop_at_of_eq src
            (pre ++ ('{' :: (spacesL n1 ++ renderOperand (.lit c))))
            (spacesL n2 ++ sig :: tailrest)
            (pre.length + 1 + n1 + 1 + c.length + 1)
            (by rw [hsrcd]; simp [renderOperand, List.append_assoc])
            (by simp only [List.length_append, List.length_cons, spacesL,
                  List.length_replicate, List.length_nil, renderOperand]
                omega)))
      have hpem2 := hpem
      rw [(show (renderOperand (WfOperandD.lit c)).length = c.length + 2 from
        by simp [renderOperand])] at hpem2
      rw [(show pre.length + 1 + n1 + (c.length + 2) + n2
          = pre.length + 1 + n1 + 1 + c.length + 1 + n2 from by omega)] at hpem2
      simp only [renderedOpTok] at hpem2
      unfold parsePlaceholderBody
      simp only [hws1, hchar0]
      rw [harg]
      simp only [ValTok.stop, hws2, hcharP2]
      split <;> first
        | (rename_i heq
           obtain rfl := Option.some.inj heq
           rw [hpem2])
        | (rename_i h1 h2 h3
           rcases hsig with rfl | rfl | rfl
           · exact absurd rfl h1
           · exact absurd rfl h2
           · exact absurd rfl h3)
  | varD n =>
      simp only [validOperand] at hop
      have hnstop : ∀ y, (spacesL n2 ++ sig :: tailrest).head? = some y →
          isNameChar y = false := by
        intro y hy
        cases n2 with
        | zero =>
            simp only [spacesL, List.replicate, List.nil_append,
              List.head?_cons, Option.some_inj] at hy
            subst hy
            rcases hsig with rfl | rfl | rfl <;> decide
        | succ m =>
            simp only [spacesL, List.replicate, List.cons_append,
              List.head?_cons, Option.some_inj] at hy
            subst hy
            decide
      have harg := parseVariable_of_eq src (pre ++ ('{' :: spacesL n1)) n
        (spacesL n2 ++ sig :: tailrest) (pre.length + 1 + n1) errs
        (by rw [hsrcd]; simp [renderOperand, List.append_assoc])
        (by simp only [List.length_append, List.length_cons, spacesL,
              List.length_replicate, List.length_nil]
            omega)
        hop hnstop
      have hchar0 : charAt src (pre.length + 1 + n1) = some '$' :=
        charAt_of_drop _ _ _ _ (drop_at_of_eq src (pre ++ ('{' :: spacesL n1))
          ('$' :: (n ++ (spacesL n2 ++ sig :: tailrest)))
          (pre.length + 1 + n1)
          (by rw [hsrcd]; simp [renderOperand, List.append_assoc])
          (by simp only [List.length_append, List.length_cons, spacesL,
                List.length_replicate, List.length_nil]
              omega))
      have hws2 : whitespaces src (pre.length + 1 + n1 + 1 + n.length)
          = n2 :=
        whitespaces_of_eq src
          (pre ++ ('{' :: (spacesL n1 ++ renderOperand (.varD n)))) n2
          (sig :: tailrest) (pre.length + 1 + n1 + 1 + n.length)
          (by rw [hsrcd]; simp [renderOperand, List.append_assoc])
          (by simp only [List.length_append, List.length_cons, spacesL,
                List.length_replicate, List.length_nil, renderOperand]
              omega)
          (by intro y hy
              simp only [List.head?_cons, Option.some_inj] at hy
              subst hy
              exact hsigns)
      have hcharP2 : charAt src (pre.length + 1 + n1 + 1 + n.length + n2)
          = some sig :=
        charAt_of_drop _ _ _ _ (drop_spaces_shift src
          (pre.length + 1 + n1 + 1 + n.length) n2 (sig :: tailrest)
          (drop_at_of_eq src
            (pre ++ ('{' :: (spacesL n1 ++ renderOperand (.varD n))))
            (spacesL n2 ++ sig :: tailrest)
            (pre.length + 1 + n1 + 1 + n.length)
            (by rw [hsrcd]; simp [renderOperand, List.append_assoc])
            (by simp only [List.length_append, List.length_cons, spacesL,
                  List.length_replicate, List.length_nil, renderOperand]
                omega)))
      have hpem2 := hpem
      rw [(show (renderOperand (WfOperandD.varD n)).length = 1 + n.length from
        by simp [renderOperand]; omega)] at hpem2
      rw [(show pre.length + 1 + n1 + (1 + n.length) + n2
          = pre.length + 1 + n1 + 1 + n.length + n2 from by omega)] at hpem2
      simp only [renderedOpTok] at hpem2
      unfold parsePlaceholderBody
      simp only [hws1, hchar0]
      rw [harg]
      simp only [ValTok.stop, hws2, hcharP2]
      split <;> first
        | (rename_i heq
           obtain rfl := Option.some.inj heq
           rw [hpem2])
        | (rename_i h1 h2 h3
           rcases hsig with rfl | rfl | rfl
           · exact absurd rfl h1
           · exact absurd rfl h2
           · exact absurd rfl h3)

theorem parsePlaceholderBody_noop_sig (pre : List Char) (n0 : Nat)
    (sig : Char) (tailrest : List Char)
    (errs : List PErr) (B : PBody) (E : List PErr)
    (hsig : sig = ':' ∨ sig = '+' ∨ sig = '-')
    (hpem : parseExpressionOrMarkup
      (pre ++ ('{' :: (spacesL n0 ++ sig :: tailrest)))
      (pre.length + 1 + n0) none errs = (B, E)) :
    parsePlaceholderBody
      (pre ++ ('{' :: (spacesL n0 ++ sig :: tailrest))) pre.length errs
      = (B, B.stop, none, E) := by
  have hsigns : isSpaceChar sig = false := by
    rcases hsig with rfl | rfl | rfl <;> decide
  set src := pre ++ ('{' :: (spacesL n0 ++ sig :: tailrest)) with hsrcd
  have hws1 : whitespaces src (pre.length + 1) = n0 :=
    whitespaces_of_eq src (pre ++ ['{']) n0 (sig :: tailrest) (pre.length + 1)
      (by rw [hsrcd]; simp [List.append_assoc]) (by simp)
      (by intro y hy
          simp only [List.head?_cons, Option.some_inj] at hy
          subst hy
          exact hsigns)
  have hdropP0 : src.drop (pre.length + 1 + n0) = sig :: tailrest :=
    drop_spaces_shift src (pre.length + 1) n0 (sig :: tailrest)
      (drop_at_of_eq src (pre ++ ['{']) (spacesL n0 ++ sig :: tailrest)
        (pre.length + 1)
        (by rw [hsrcd]; simp [List.append_assoc]) (by simp))
  have hchar0 : charAt src (pre.length + 1 + n0) = some sig :=
    charAt_of_drop _ _ _ _ hdropP0
  have hws2 : whitespaces src (pre.length + 1 + n0) = 0 := by
    apply whitespaces_head_not
    intro y hy
    rw [hdropP0] at hy
    simp only [List.head?_cons, Option.some_inj] at hy
    subst hy
    exact hsigns
  have hargred : (match (some sig : Option Char) with
      | some '(' => (some (parseLiteral src (pre.length + 1 + n0) errs).1,
          (parseLiteral src (pre.length + 1 + n0) errs).2)
      | some '$' => (some (parseVariable src (pre.length + 1 + n0) errs).1,
          (parseVariable src (pre.length + 1 + n0) errs).2)
      | _ => ((none : Option ValTok), errs)) = (none, errs) := by
    rcases hsig with rfl | rfl | rfl <;> rfl
  unfold parsePlaceholderBody
  simp only [hws1]
  rw [hchar0, hargred]
  simp only [hws2, Nat.add_zero]
  rw [hchar0]
  split <;> first
    | rw [hpem]
    | (rename_i g1 g2 g3
       rcases hsig with rfl | rfl | rfl
       · exact absurd rfl g1
       · exact absurd rfl g2
       · exact absurd rfl g3)

theorem parsePlaceholder_op_ann (pre : List Char) (n1 : Nat) (op : WfOperandD)
    (n2 : Nat) (nm : List Char) (opts : List WfOptionD) (n3 : Nat)
    (post : List Char) (errs : List PErr)
    (hop : validOperand op = true) (hnm : validNameTok nm = true)
    (hv : ∀ o ∈ opts, validOption o = true) :
    parsePlaceholder
      (pre ++ ('{' :: (spacesL n1 ++ (renderOperand op ++ (spacesL n2 ++
        ':' :: (nm ++ (renderOpts opts ++ (spacesL n3 ++ '}' :: post))))))))
      pre.length errs =
      (⟨pre.length,
        pre.length + 1 + n1 + (renderOperand op).length + n2 + 1 + nm.length
          + (renderOpts opts).length + n3 + 1,
        .expression (some (renderedOpTok (pre.length + 1 + n1) op)) 
          (pre.length + 1 + n1 + (renderOperand op).length + n2)
          (pre.length + 1 + n1 + (renderOperand op).length + n2 + 1 + nm.length
            + (renderOpts opts).length) nm
          (renderedOptToks (pre.length + 1 + n1 + (renderOperand op).length
            + n2 + 1 + nm.length) opts)⟩, errs) := by
  set src := pre ++ ('{' :: (spacesL n1 ++ (renderOperand op ++ (spacesL n2 ++
    ':' :: (nm ++ (renderOpts opts ++ (spacesL n3 ++ '}' :: post)))))))
    with hsrcd
  have hpem := parseExprOrMarkup_colon_of_eq src
    (pre ++ ('{' :: (spacesL n1 ++ (renderOperand op ++ spacesL n2)))) nm opts
    n3 post (some (renderedOpTok (pre.length + 1 + n1) op)) errs
    (pre.length + 1 + n1 + (renderOperand op).length + n2)
    (by rw [hsrcd]; simp [List.append_assoc])
    (by simp only [List.length_append, List.length_cons, spacesL,
          List.length_replicate, List.length_nil]
        omega)
    hnm hv
  have hbody := parsePlaceholderBody_op_sig pre n1 op n2 ':'
    (nm ++ (renderOpts opts ++ (spacesL n3 ++ '}' :: post))) errs _ _
    hop (Or.inl rfl) hpem
  have hdropQ : src.drop (pre.length + 1 + n1 + (renderOperand op).length
      + n2 + 1 + nm.length + (renderOpts opts).length)
      = spacesL n3 ++ '}' :: post :=
    drop_at_of_eq src
      (pre ++ ('{' :: (spacesL n1 ++ (renderOperand op ++ (spacesL n2 ++
        ':' :: (nm ++ renderOpts opts))))))
      (spacesL n3 ++ '}' :: post)
      (pre.length + 1 + n1 + (renderOperand op).length + n2 + 1 + nm.length
        + (renderOpts opts).length)
      (by rw [hsrcd]; simp [List.append_assoc])
      (by simp only [List.length_append, List.length_cons, spacesL,
            List.length_replicate, List.length_nil]
          omega)
  have hclose := closePlaceholder_ok src pre.length
    (pre.length + 1 + n1 + (renderOperand op).length + n2 + 1 + nm.length
      + (renderOpts opts).length) n3
    (.expression (some (renderedOpTok (pre.length + 1 + n1) op))
      (pre.length + 1 + n1 + (renderOperand op).length + n2)
      (pre.length + 1 + n1 + (renderOperand op).length + n2 + 1 + nm.length
        + (renderOpts opts).length) nm
      (renderedOptToks (pre.length + 1 + n1 + (renderOperand op).length
        + n2 + 1 + nm.length) opts)) errs post hdropQ
  unfold parsePlaceholder
  dsimp only
  rw [hbody]
  dsimp only [PBody.stop]
  rw [hclose]

theorem parsePlaceholder_op_markS (pre : List Char) (n1 : Nat)
    (op : WfOperandD) (n2 : Nat) (nm : List Char) (opts : List WfOptionD)
    (n3 : Nat) (post : List Char) (errs : List PErr)
    (hop : validOperand op = true) (hnm : validNameTok nm = true)
    (hv : ∀ o ∈ opts, validOption o = true) :
    parsePlaceholder
      (pre ++ ('{' :: (spacesL n1 ++ (renderOperand op ++ (spacesL n2 ++
        '+' :: (nm ++ (renderOpts opts ++ (spacesL n3 ++ '}' :: post))))))))
      pre.length errs =
      (⟨pre.length,
        pre.length + 1 + n1 + (renderOperand op).length + n2 + 1 + nm.length
          + (renderOpts opts).length + n3 + 1,
        .markupStart
          (pre.length + 1 + n1 + (renderOperand op).length + n2)
          (pre.length + 1 + n1 + (renderOperand op).length + n2 + 1 + nm.length
            + (renderOpts opts).length) nm
          (renderedOptToks (pre.length + 1 + n1 + (renderOperand op).length
            + n2 + 1 + nm.length) opts)⟩,
        ⟨"extra-content", (renderedOpTok (pre.length + 1 + n1) op).start,
          some ((renderedOpTok (pre.length + 1 + n1) op).stop), none⟩
          :: errs) := by
  set src := pre ++ ('{' :: (spacesL n1 ++ (renderOperand op ++ (spacesL n2 ++
    '+' :: (nm ++ (renderOpts opts ++ (spacesL n3 ++ '}' :: post)))))))
    with hsrcd
  have hpemraw := parseExprOrMarkup_plus_of_eq src
    (pre ++ ('{' :: (spacesL n1 ++ (renderOperand op ++ spacesL n2)))) nm opts
    n3 post (some (renderedOpTok (pre.length + 1 + n1) op)) errs
    (pre.length + 1 + n1 + (renderOperand op).length + n2)
    (by rw [hsrcd]; simp [List.append_assoc])
    (by simp only [List.length_append, List.length_cons, spacesL,
          List.length_replicate, List.length_nil]
        omega)
    hnm hv
  have hpem : parseExpressionOrMarkup src
      (pre.length + 1 + n1 + (renderOperand op).length + n2)
      (some (renderedOpTok (pre.length + 1 + n1) op)) errs =
      (.markupStart
        (pre.length + 1 + n1 + (renderOperand op).length + n2)
        (pre.length + 1 + n1 + (renderOperand op).length + n2 + 1 + nm.length
          + (renderOpts opts).length) nm
        (renderedOptToks (pre.length + 1 + n1 + (renderOperand op).length
          + n2 + 1 + nm.length) opts),
        ⟨"extra-content", (renderedOpTok (pre.length + 1 + n1) op).start,
          some ((renderedOpTok (pre.length + 1 + n1) op).stop), none⟩
          :: errs) := by
    rw [hpemraw]
  have hbody := parsePlaceholderBody_op_sig pre n1 op n2 '+'
    (nm ++ (renderOpts opts ++ (spacesL n3 ++ '}' :: post))) errs _ _
    hop (Or.inr (Or.inl rfl)) hpem
  have hdropQ : src.drop (pre.length + 1 + n1 + (renderOperand op).length
      + n2 + 1 + nm.length + (renderOpts opts).length)
      = spacesL n3 ++ '}' :: post :=
    drop_at_of_eq src
      (pre ++ ('{' :: (spacesL n1 ++ (renderOperand op ++ (spacesL n2 ++
        '+' :: (nm ++ renderOpts opts))))))
      (spacesL n3 ++ '}' :: post)
      (pre.length + 1 + n1 + (renderOperand op).length + n2 + 1 + nm.length
        + (renderOpts opts).length)
      (by rw [hsrcd]; simp [List.append_assoc])
      (by simp only [List.length_append, List.length_cons, spacesL,
            List.length_replicate, List.length_nil]
          omega)
  have hclose := closePlaceholder_ok src pre.length
    (pre.length + 1 + n1 + (renderOperand op).length + n2 + 1 + nm.length
      + (renderOpts opts).length) n3
    (.markupStart
      (pre.length + 1 + n1 + (renderOperand op).length + n2)
      (pre.length + 1 + n1 + (renderOperand op).length + n2 + 1 + nm.length
        + (renderOpts opts).length) nm
      (renderedOptToks (pre.length + 1 + n1 + (renderOperand op).length
        + n2 + 1 + nm.length) opts))
    (⟨"extra-content", (renderedOpTok (pre.length + 1 + n1) op).start,
      some ((renderedOpTok (pre.length + 1 + n1) op).stop), none⟩ :: errs)
    post hdropQ
  unfold parsePlaceholder
  dsimp only
  rw [hbody]
  dsimp only [PBody.stop]
  rw [hclose]

theorem parsePlaceholder_op_markE (pre : List Char) (n1 : Nat)
    (op : WfOperandD) (n2 : Nat) (nm : List Char)
    (n3 : Nat) (post : List Char) (errs : List PErr)
    (hop : validOperand op = true) (hnm : validNameTok nm = true) :
    parsePlaceholder
      (pre ++ ('{' :: (spacesL n1 ++ (renderOperand op ++ (spacesL n2 ++
        '-' :: (nm ++ (spacesL n3 ++ '}' :: post)))))))
      pre.length errs =
      (⟨pre.length,
        pre.length + 1 + n1 + (renderOperand op).length + n2 + 1 + nm.length
          + n3 + 1,
        .markupEnd
          (pre.length + 1 + n1 + (renderOperand op).length + n2)
          (pre.length + 1 + n1 + (renderOperand op).length + n2 + 1
            + nm.length) nm⟩,
        ⟨"extra-content", (renderedOpTok (pre.length + 1 + n1) op).start,
          some ((renderedOpTok (pre.length + 1 + n1) op).stop), none⟩
          :: errs) := by
  set src := pre ++ ('{' :: (spacesL n1 ++ (renderOperand op ++ (spacesL n2 ++
    '-' :: (nm ++ (spacesL n3 ++ '}' :: post)))))) with hsrcd
  have hpemraw := parseExprOrMarkup_minus_of_eq src
    (pre ++ ('{' :: (spacesL n1 ++ (renderOperand op ++ spacesL n2)))) nm
    n3 post (some (renderedOpTok (pre.length + 1 + n1) op)) errs
    (pre.length + 1 + n1 + (renderOperand op).length + n2)
    (by rw [hsrcd]; simp [List.append_assoc])
    (by simp only [List.length_append, List.length_cons, spacesL,
          List.length_replicate, List.length_nil]
        omega)
    hnm
  have hpem : parseExpressionOrMarkup src
      (pre.length + 1 + n1 + (renderOperand op).length + n2)
      (some (renderedOpTok (pre.length + 1 + n1) op)) errs =
      (.markupEnd
        (pre.length + 1 + n1 + (renderOperand op).length + n2)
        (pre.length + 1 + n1 + (renderOperand op).length + n2 + 1
          + nm.length) nm,
        ⟨"extra-content", (renderedOpTok (pre.length + 1 + n1) op).start,
          some ((renderedOpTok (pre.length + 1 + n1) op).stop), none⟩
          :: errs) := by
    rw [hpemraw]
  have hbody := parsePlaceholderBody_op_sig pre n1 op n2 '-'
    (nm ++ (spacesL n3 ++ '}' :: post)) errs _ _
    hop (Or.inr (Or.inr rfl)) hpem
  have hdropQ : src.drop (pre.length + 1 + n1 + (renderOperand op).length
      + n2 + 1 + nm.length)
      = spacesL n3 ++ '}' :: post :=
    drop_at_of_eq src
      (pre ++ ('{' :: (spacesL n1 ++ (renderOperand op ++ (spacesL n2 ++
        '-' :: nm)))))
      (spacesL n3 ++ '}' :: post)
      (pre.length + 1 + n1 + (renderOperand op).length + n2 + 1 + nm.length)
      (by rw [hsrcd]; simp [List.append_assoc])
      (by simp only [List.length_append, List.length_cons, spacesL,
            List.length_replicate, List.length_nil]
          omega)
  have hclose := closePlaceholder_ok src pre.length
    (pre.length + 1 + n1 + (renderOperand op).length + n2 + 1 + nm.length) n3
    (.markupEnd
      (pre.length + 1 + n1 + (renderOperand op).length + n2)
      (pre.length + 1 + n1 + (renderOperand op).length + n2 + 1
        + nm.length) nm)
    (⟨"extra-content", (renderedOpTok (pre.length + 1 + n1) op).start,
      some ((renderedOpTok (pre.length + 1 + n1) op).stop), none⟩ :: errs)
    post hdropQ
  unfold parsePlaceholder
  dsimp only
  rw [hbody]
  dsimp only [PBody.stop]
  rw [hclose]

theorem parsePlaceholder_noop_ann (pre : List Char) (n0 : Nat)
    (nm : List Char) (opts : List WfOptionD) (n3 : Nat)
    (post : List Char) (errs : List PErr)
    (hnm : validNameTok nm = true)
    (hv : ∀ o ∈ opts, validOption o = true) :
    parsePlaceholder
      (pre ++ ('{' :: (spacesL n0 ++
        ':' :: (nm ++ (renderOpts opts ++ (spacesL n3 ++ '}' :: post))))))
      pre.length errs =
      (⟨pre.length,
        pre.length + 1 + n0 + 1 + nm.length + (renderOpts opts).length
          + n3 + 1,
        .expression none (pre.length + 1 + n0)
          (pre.length + 1 + n0 + 1 + nm.length + (renderOpts opts).length) nm
          (renderedOptToks (pre.length + 1 + n0 + 1 + nm.length) opts)⟩,
        errs) := by
  set src := pre ++ ('{' :: (spacesL n0 ++
    ':' :: (nm ++ (renderOpts opts ++ (spacesL n3 ++ '}' :: post)))))
    with hsrcd
  have hpem := parseExprOrMarkup_colon_of_eq src
    (pre ++ ('{' :: spacesL n0)) nm opts n3 post none errs
    (pre.length + 1 + n0)
    (by rw [hsrcd]; simp [List.append_assoc])
    (by simp only [List.length_append, List.length_cons, spacesL,
          List.length_replicate, List.length_nil]
        omega)
    hnm hv
  have hbody := parsePlaceholderBody_noop_sig pre n0 ':'
    (nm ++ (renderOpts opts ++ (spacesL n3 ++ '}' :: post))) errs _ _
    (Or.inl rfl) hpem
  have hdropQ : src.drop (pre.length + 1 + n0 + 1 + nm.length
      + (renderOpts opts).length) = spacesL n3 ++ '}' :: post :=
    drop_at_of_eq src
      (pre ++ ('{' :: (spacesL n0 ++ ':' :: (nm ++ renderOpts opts))))
      (spacesL n3 ++ '}' :: post)
      (pre.length + 1 + n0 + 1 + nm.length + (renderOpts opts).length)
      (by rw [hsrcd]; simp [List.append_assoc])
      (by simp only [List.length_append, List.length_cons, spacesL,
            List.length_replicate, List.length_nil]
          omega)
  have hclose := closePlaceholder_ok src pre.length
    (pre.length + 1 + n0 + 1 + nm.length + (renderOpts opts).length) n3
    (.expression none (pre.length + 1 + n0)
      (pre.length + 1 + n0 + 1 + nm.length + (renderOpts opts).length) nm
      (renderedOptToks (pre.length + 1 + n0 + 1 + nm.length) opts))
    errs post hdropQ
  unfold parsePlaceholder
  dsimp only
  rw [hbody]
  dsimp only [PBody.stop]
  rw [hclose]

theorem parsePlaceholder_noop_markS (pre : List Char) (n0 : Nat)
    (nm : List Char) (opts : List WfOptionD) (n3 : Nat)
    (post : List Char) (errs : List PErr)
    (hnm : validNameTok nm = true)
    (hv : ∀ o ∈ opts, validOption o = true) :
    parsePlaceholder
      (pre ++ ('{' :: (spacesL n0 ++
        '+' :: (nm ++ (renderOpts opts ++ (spacesL n3 ++ '}' :: post))))))
      pre.length errs =
      (⟨pre.length,
        pre.length + 1 + n0 + 1 + nm.length + (renderOpts opts).length
          + n3 + 1,
        .markupStart (pre.length + 1 + n0)
          (pre.length + 1 + n0 + 1 + nm.length + (renderOpts opts).length) nm
          (renderedOptToks (pre.length + 1 + n0 + 1 + nm.length) opts)⟩,
        errs) := by
  set src := pre ++ ('{' :: (spacesL n0 ++
    '+' :: (nm ++ (renderOpts opts ++ (spacesL n3 ++ '}' :: post)))))
    with hsrcd
  have hpemraw := parseExprOrMarkup_plus_of_eq src
    (pre ++ ('{' :: spacesL n0)) nm opts n3 post none errs
    (pre.length + 1 + n0)
    (by rw [hsrcd]; simp [List.append_assoc])
    (by simp only [List.length_append, List.length_cons, spacesL,
          List.length_replicate, List.length_nil]
        omega)
    hnm hv
  have hpem : parseExpressionOrMarkup src (pre.length + 1 + n0) none errs =
      (.markupStart (pre.length + 1 + n0)
        (pre.length + 1 + n0 + 1 + nm.length + (renderOpts opts).length) nm
        (renderedOptToks (pre.length + 1 + n0 + 1 + nm.length) opts),
        errs) := by
    rw [hpemraw]
  have hbody := parsePlaceholderBody_noop_sig pre n0 '+'
    (nm ++ (renderOpts opts ++ (spacesL n3 ++ '}' :: post))) errs _ _
    (Or.inr (Or.inl rfl)) hpem
  have hdropQ : src.drop (pre.length + 1 + n0 + 1 + nm.length
      + (renderOpts opts).length) = spacesL n3 ++ '}' :: post :=
    drop_at_of_eq src
      (pre ++ ('{' :: (spacesL n0 ++ '+' :: (nm ++ renderOpts opts))))
      (spacesL n3 ++ '}' :: post)
      (pre.length + 1 + n0 + 1 + nm.length + (renderOpts opts).length)
      (by rw [hsrcd]; simp [List.append_assoc])
      (by simp only [List.length_append, List.length_cons, spacesL,
            List.length_replicate, List.length_nil]
          omega)
  have hclose := closePlaceholder_ok src pre.length
    (pre.length + 1 + n0 + 1 + nm.length + (renderOpts opts).length) n3
    (.markupStart (pre.length + 1 + n0)
      (pre.length + 1 + n0 + 1 + nm.length + (renderOpts opts).length) nm
      (renderedOptToks (pre.length + 1 + n0 + 1 + nm.length) opts))
    errs post hdropQ
  unfold parsePlaceholder
  dsimp only
  rw [hbody]
  dsimp only [PBody.stop]
  rw [hclose]

theorem parsePlaceholder_noop_markE (pre : List Char) (n0 : Nat)
    (nm : List Char) (n3 : Nat) (post : List Char) (errs : List PErr)
    (hnm : validNameTok nm = true) :
    parsePlaceholder
      (pre ++ ('{' :: (spacesL n0 ++
        '-' :: (nm ++ (spacesL n3 ++ '}' :: post)))))
      pre.length errs =
      (⟨pre.length,
        pre.length + 1 + n0 + 1 + nm.length + n3 + 1,
        .markupEnd (pre.length + 1 + n0)
          (pre.length + 1 + n0 + 1 + nm.length) nm⟩,
        errs) := by
  set src := pre ++ ('{' :: (spacesL n0 ++
    '-' :: (nm ++ (spacesL n3 ++ '}' :: post)))) with hsrcd
  have hpemraw := parseExprOrMarkup_minus_of_eq src
    (pre ++ ('{' :: spacesL n0)) nm n3 post none errs
    (pre.length + 1 + n0)
    (by rw [hsrcd]; simp [List.append_assoc])
    (by simp only [List.length_append, List.length_cons, spacesL,
          List.length_replicate, List.length_nil]
        omega)
    hnm
  have hpem : parseExpressionOrMarkup src (pre.length + 1 + n0) none errs =
      (.markupEnd (pre.length + 1 + n0)
        (pre.length + 1 + n0 + 1 + nm.length) nm, errs) := by
    rw [hpemraw]
  have hbody := parsePlaceholderBody_noop_sig pre n0 '-'
    (nm ++ (spacesL n3 ++ '}' :: post)) errs _ _
    (Or.inr (Or.inr rfl)) hpem
  have hdropQ : src.drop (pre.length + 1 + n0 + 1 + nm.length)
      = spacesL n3 ++ '}' :: post :=
    drop_at_of_eq src
      (pre ++ ('{' :: (spacesL n0 ++ '-' :: nm)))
      (spacesL n3 ++ '}' :: post)
      (pre.length + 1 + n0 + 1 + nm.length)
      (by rw [hsrcd]; simp [List.append_assoc])
      (by simp only [List.length_append, List.length_cons, spacesL,
            List.length_replicate, List.length_nil]
          omega)
  have hclose := closePlaceholder_ok src pre.length
    (pre.length + 1 + n0 + 1 + nm.length) n3
    (.markupEnd (pre.length + 1 + n0)
      (pre.length + 1 + n0 + 1 + nm.length) nm)
    errs post hdropQ
  unfold parsePlaceholder
  dsimp only
  rw [hbody]
  dsimp only [PBody.stop]
  rw [hclose]

theorem spacesL_add (m n : Nat) : spacesL (m + n) = spacesL m ++ spacesL n := by
  simp only [spacesL]
  rw [List.replicate_add]

/-- C5 (amended): for every derivation of the quoted placeholder grammar
whose body is nonempty, whose operand precedes only an annotation, and
whose markup-end tail has no options, `parsePlaceholder` adds no errors
and returns a node spanning exactly the rendered placeholder. -/
theorem claim_C5 (g : GPlaceholder) (n1 n2 n3 : Nat)
    (pre post : List Char) (errs0 : List PErr)
    (hval : validG g = true) (hamd : amendedOkG g = true) :
    (parsePlaceholder (pre ++ (renderPlaceholder n1 g n2 n3 ++ post))
        pre.length errs0).1.start = pre.length ∧
    (parsePlaceholder (pre ++ (renderPlaceholder n1 g n2 n3 ++ post))
        pre.length errs0).1.stop
      = pre.length + (renderPlaceholder n1 g n2 n3).length ∧
    (parsePlaceholder (pre ++ (renderPlaceholder n1 g n2 n3 ++ post))
        pre.length errs0).2 = errs0 := by
  obtain ⟨opnd, tail⟩ := g
  cases opnd with
  | none =>
      cases tail with
      | noneT => simp [amendedOkG] at hamd
      | ann nm opts =>
          simp only [validG, validTail, Bool.true_and, Bool.and_eq_true]
            at hval
          have hv : ∀ o ∈ opts, validOption o = true :=
            fun o ho => (List.all_eq_true.mp hval.2) o ho
          have hsrc : pre ++ (renderPlaceholder n1
              ⟨none, .ann nm opts⟩ n2 n3 ++ post)
              = pre ++ ('{' :: (spacesL (n1 + n2) ++ ':' :: (nm ++
                (renderOpts opts ++ (spacesL n3 ++ '}' :: post))))) := by
            simp [renderPlaceholder, renderTail, spacesL_add,
              List.append_assoc]
          rw [hsrc, parsePlaceholder_noop_ann pre (n1 + n2) nm opts n3 post
            errs0 hval.1 hv]
          refine ⟨rfl, ?_, rfl⟩
          simp only [renderPlaceholder, renderTail, List.length_cons,
            List.length_append, spacesL, List.length_replicate,
            List.length_nil, List.length_singleton]
          omega
      | markS nm opts =>
          simp only [validG, validTail, Bool.true_and, Bool.and_eq_true]
            at hval
          have hv : ∀ o ∈ opts, validOption o = true :=
            fun o ho => (List.all_eq_true.mp hval.2) o ho
          have hsrc : pre ++ (renderPlaceholder n1
              ⟨none, .markS nm opts⟩ n2 n3 ++ post)
              = pre ++ ('{' :: (spacesL (n1 + n2) ++ '+' :: (nm ++
                (renderOpts opts ++ (spacesL n3 ++ '}' :: post))))) := by
            simp [renderPlaceholder, renderTail, spacesL_add,
              List.append_assoc]
          rw [hsrc, parsePlaceholder_noop_markS pre (n1 + n2) nm opts n3 post
            errs0 hval.1 hv]
          refine ⟨rfl, ?_, rfl⟩
          simp only [renderPlaceholder, renderTail, List.length_cons,
            List.length_append, spacesL, List.length_replicate,
            List.length_nil, List.length_singleton]
          omega
      | markE nm opts =>
          have hopts0 : opts = [] := by
            revert hamd
            cases opts with
            | nil => intro _; rfl
            | cons a b => intro h; simp [amendedOkG] at h
          subst hopts0
          simp only [validG, validTail, Bool.true_and, Bool.and_eq_true]
            at hval
          have hsrc : pre ++ (renderPlaceholder n1
              ⟨none, .markE nm []⟩ n2 n3 ++ post)
              = pre ++ ('{' :: (spacesL (n1 + n2) ++ '-' :: (nm ++
                (spacesL n3 ++ '}' :: post)))) := by
            simp [renderPlaceholder, renderTail, renderOpts, spacesL_add,
              List.append_assoc]
          rw [hsrc, parsePlaceholder_noop_markE pre (n1 + n2) nm n3 post
            errs0 hval.1]
          refine ⟨rfl, ?_, rfl⟩
          simp only [renderPlaceholder, renderTail, renderOpts,
            List.length_cons, List.length_append, spacesL,
            List.length_replicate, List.length_nil, List.length_singleton]
          omega
  | some op =>
      cases tail with
      | noneT =>
          simp only [validG, validTail, Bool.and_true] at hval
          have hsrc : pre ++ (renderPlaceholder n1
              ⟨some op, .noneT⟩ n2 n3 ++ post)
              = pre ++ ('{' :: (spacesL n1 ++ (renderOperand op ++
                (spacesL n3 ++ '}' :: post)))) := by
            simp [renderPlaceholder, renderTail, List.append_assoc]
          rw [hsrc, parsePlaceholder_op_noneT pre n1 op n3 post errs0 hval]
          refine ⟨rfl, ?_, rfl⟩
          simp only [renderPlaceholder, renderTail, List.length_cons,
            List.length_append, spacesL, List.length_replicate,
            List.length_nil, List.length_singleton]
          omega
      | ann nm opts =>
          simp only [validG, validTail, Bool.and_eq_true] at hval
          obtain ⟨hop, hnm, hopts⟩ := hval
          have hv : ∀ o ∈ opts, validOption o = true :=
            fun o ho => (List.all_eq_true.mp hopts) o ho
          have hsrc : pre ++ (renderPlaceholder n1
              ⟨some op, .ann nm opts⟩ n2 n3 ++ post)
              = pre ++ ('{' :: (spacesL n1 ++ (renderOperand op ++
                (spacesL n2 ++ ':' :: (nm ++ (renderOpts opts ++
                  (spacesL n3 ++ '}' :: post))))))) := by
            simp [renderPlaceholder, renderTail, List.append_assoc]
          rw [hsrc, parsePlaceholder_op_ann pre n1 op n2 nm opts n3 post
            errs0 hop hnm hv]
          refine ⟨rfl, ?_, rfl⟩
          simp only [renderPlaceholder, renderTail, List.length_cons,
            List.length_append, spacesL, List.length_replicate,
            List.length_nil, List.length_singleton]
          omega
      | markS nm opts => simp [amendedOkG] at hamd
      | markE nm opts => simp [amendedOkG] at hamd

/-- C5 counterexample: the two-character placeholder of a left brace
followed directly by a right brace derives from the quoted grammar with
both optional parts absent, yet the parser reports a parse-error and a
junk body rather than zero errors. -/
theorem claim_C5_cx :
    validG ⟨none, .noneT⟩ = true ∧
    renderPlaceholder 0 ⟨none, .noneT⟩ 0 0 = ['{', '}'] ∧
    (parsePlaceholder ['{', '}'] 0 []).2
      = [⟨"parse-error", 1, some 1, none⟩] := by
  refine ⟨rfl, rfl, ?_⟩
  rfl

theorem claim_C5_witness :
    validG ⟨some (.varD ['v']), .ann ['f'] []⟩ = true ∧
    amendedOkG ⟨some (.varD ['v']), .ann ['f'] []⟩ = true ∧
    ((parsePlaceholder (['x'] ++ (renderPlaceholder 1
        ⟨some (.varD ['v']), .ann ['f'] []⟩ 1 1 ++ ['y']))
        (['x'] : List Char).length []).1.start
        = (['x'] : List Char).length ∧
     (parsePlaceholder (['x'] ++ (renderPlaceholder 1
        ⟨some (.varD ['v']), .ann ['f'] []⟩ 1 1 ++ ['y']))
        (['x'] : List Char).length []).1.stop
        = (['x'] : List Char).length + (renderPlaceholder 1
            ⟨some (.varD ['v']), .ann ['f'] []⟩ 1 1).length ∧
     (parsePlaceholder (['x'] ++ (renderPlaceholder 1
        ⟨some (.varD ['v']), .ann ['f'] []⟩ 1 1 ++ ['y']))
        (['x'] : List Char).length []).2 = ([] : List PErr)) :=
  ⟨by decide, by decide,
    claim_C5 ⟨some (.varD ['v']), .ann ['f'] []⟩ 1 1 1 ['x'] ['y'] []
      (by decide) (by decide)⟩

/-- C9: an operand preceding a plus or minus markup tail yields an
extra-content error spanning exactly the operand, prepended before all
previously recorded errors, and the returned markup node carries no
operand field. -/
theorem claim_C9 (pre post : List Char) (n1 n2 n3 : Nat) (op : WfOperandD)
    (nm : List Char) (opts : List WfOptionD) (errs0 : List PErr)
    (hop : validOperand op = true) (hnm : validNameTok nm = true)
    (hv : ∀ o ∈ opts, validOption o = true) :
    (renderedOpTok (pre.length + 1 + n1) op).start = pre.length + 1 + n1 ∧
    (renderedOpTok (pre.length + 1 + n1) op).stop
      = pre.length + 1 + n1 + (renderOperand op).length ∧
    parsePlaceholder (pre ++ (renderPlaceholder n1 ⟨some op, .markS nm opts⟩
        n2 n3 ++ post)) pre.length errs0
      = (⟨pre.length,
          pre.length + 1 + n1 + (renderOperand op).length + n2 + 1 + nm.length
            + (renderOpts opts).length + n3 + 1,
          .markupStart (pre.length + 1 + n1 + (renderOperand op).length + n2)
            (pre.length + 1 + n1 + (renderOperand op).length + n2 + 1
              + nm.length + (renderOpts opts).length) nm
            (renderedOptToks (pre.length + 1 + n1 + (renderOperand op).length
              + n2 + 1 + nm.length) opts)⟩,
         ⟨"extra-content", (renderedOpTok (pre.length + 1 + n1) op).start,
           some ((renderedOpTok (pre.length + 1 + n1) op).stop), none⟩
           :: errs0) ∧
    parsePlaceholder (pre ++ (renderPlaceholder n1 ⟨some op, .markE nm []⟩
        n2 n3 ++ post)) pre.length errs0
      = (⟨pre.length,
          pre.length + 1 + n1 + (renderOperand op).length + n2 + 1 + nm.length
            + n3 + 1,
          .markupEnd (pre.length + 1 + n1 + (renderOperand op).length + n2)
            (pre.length + 1 + n1 + (renderOperand op).length + n2 + 1
              + nm.length) nm⟩,
         ⟨"extra-content", (renderedOpTok (pre.length + 1 + n1) op).start,
           some ((renderedOpTok (pre.length + 1 + n1) op).stop), none⟩
           :: errs0) := by
  refine ⟨?_, ?_, ?_, ?_⟩
  · cases op <;> simp [renderedOpTok, ValTok.start]
  · cases op <;>
      (simp only [renderedOpTok, ValTok.stop, renderOperand,
        List.length_cons, List.length_append, List.length_nil]
       omega)
  · have hsrc : pre ++ (renderPlaceholder n1 ⟨some op, .markS nm opts⟩
        n2 n3 ++ post)
        = pre ++ ('{' :: (spacesL n1 ++ (renderOperand op ++ (spacesL n2 ++
          '+' :: (nm ++ (renderOpts opts ++ (spacesL n3 ++ '}' :: post)))))))
        := by
      simp [renderPlaceholder, renderTail, List.append_assoc]
    rw [hsrc, parsePlaceholder_op_markS pre n1 op n2 nm opts n3 post errs0
      hop hnm hv]
  · have hsrc : pre ++ (renderPlaceholder n1 ⟨some op, .markE nm []⟩
        n2 n3 ++ post)
        = pre ++ ('{' :: (spacesL n1 ++ (renderOperand op ++ (spacesL n2 ++
          '-' :: (nm ++ (spacesL n3 ++ '}' :: post)))))) := by
      simp [renderPlaceholder, renderTail, renderOpts, List.append_assoc]
    rw [hsrc, parsePlaceholder_op_markE pre n1 op n2 nm n3 post errs0
      hop hnm]

theorem claim_C9_witness :
    validOperand (.lit ['a']) = true ∧
    validNameTok ['b'] = true ∧
    (∀ o ∈ ([] : List WfOptionD), validOption o = true) ∧
    ((renderedOpTok ((['x'] : List Char).length + 1 + 0) (.lit ['a'])).start
        = (['x'] : List Char).length + 1 + 0 ∧
     (renderedOpTok ((['x'] : List Char).length + 1 + 0) (.lit ['a'])).stop
        = (['x'] : List Char).length + 1 + 0
          + (renderOperand (.lit ['a'])).length ∧
     parsePlaceholder (['x'] ++ (renderPlaceholder 0
        ⟨some (.lit ['a']), .markS ['b'] []⟩ 0 0 ++ []))
        (['x'] : List Char).length [⟨"prior", 9, none, none⟩]
      = (⟨(['x'] : List Char).length,
          (['x'] : List Char).length + 1 + 0
            + (renderOperand (.lit ['a'])).length + 0 + 1
            + (['b'] : List Char).length
            + (renderOpts ([] : List WfOptionD)).length + 0 + 1,
          .markupStart ((['x'] : List Char).length + 1 + 0
              + (renderOperand (.lit ['a'])).length + 0)
            ((['x'] : List Char).length + 1 + 0
              + (renderOperand (.lit ['a'])).length + 0 + 1
              + (['b'] : List Char).length
              + (renderOpts ([] : List WfOptionD)).length)
            ['b']
            (renderedOptToks ((['x'] : List Char).length + 1 + 0
              + (renderOperand (.lit ['a'])).length + 0 + 1
              + (['b'] : List Char).length) [])⟩,
         ⟨"extra-content",
           (renderedOpTok ((['x'] : List Char).length + 1 + 0)
             (.lit ['a'])).start,
           some ((renderedOpTok ((['x'] : List Char).length + 1 + 0)
             (.lit ['a'])).stop), none⟩
           :: [⟨"prior", 9, none, none⟩]) ∧
     parsePlaceholder (['x'] ++ (renderPlaceholder 0
        ⟨some (.lit ['a']), .markE ['b'] []⟩ 0 0 ++ []))
        (['x'] : List Char).length [⟨"prior", 9, none, none⟩]
      = (⟨(['x'] : List Char).length,
          (['x'] : List Char).length + 1 + 0
            + (renderOperand (.lit ['a'])).length + 0 + 1
            + (['b'] : List Char).length + 0 + 1,
          .markupEnd ((['x'] : List Char).length + 1 + 0
              + (renderOperand (.lit ['a'])).length + 0)
            ((['x'] : List Char).length + 1 + 0
              + (renderOperand (.lit ['a'])).length + 0 + 1
              + (['b'] : List Char).length)
            ['b']⟩,
         ⟨"extra-content",
           (renderedOpTok ((['x'] : List Char).length + 1 + 0)
             (.lit ['a'])).start,
           some ((renderedOpTok ((['x'] : List Char).length + 1 + 0)
             (.lit ['a'])).stop), none⟩
           :: [⟨"prior", 9, none, none⟩])) :=
  ⟨by decide, by decide, (by intro o ho; cases ho),
    claim_C9 ['x'] [] 0 0 0 (.lit ['a']) ['b'] [] [⟨"prior", 9, none, none⟩]
      (by decide) (by decide) (by intro o ho; cases ho)⟩

theorem whitespaces_le (src : List Char) (pos : Nat) :
    pos + whitespaces src pos ≤ src.length ∨ whitespaces src pos = 0 := by
  unfold whitespaces
  by_cases h : pos ≤ src.length
  · left
    have h1 : (List.takeWhile isSpaceChar (src.drop pos)).length
        ≤ (src.drop pos).length := (List.takeWhile_prefix _).length_le
    simp only [List.length_drop] at h1
    omega
  · right
    rw [List.drop_eq_nil_of_le (by omega)]
    rfl

theorem whitespaces_le' (src : List Char) (pos : Nat) (h : pos ≤ src.length) :
    pos + whitespaces src pos ≤ src.length := by
  rcases whitespaces_le src pos with h2 | h2
  · exact h2
  · omega

theorem nameValue_le (src : List Char) (pos : Nat) (h : pos ≤ src.length) :
    pos + (parseNameValue src pos).length ≤ src.length := by
  unfold parseNameValue
  have h1 : (List.takeWhile isNameChar (src.drop pos)).length
      ≤ (src.drop pos).length := (List.takeWhile_prefix _).length_le
  simp only [List.length_drop] at h1
  omega

theorem charAt_lt (src : List Char) (pos : Nat) (c : Char)
    (h : charAt src pos = some c) : pos < src.length := by
  unfold charAt at h
  cases hd : src.drop pos with
  | nil => rw [hd] at h; cases h
  | cons y t =>
      have h2 := congrArg List.length hd
      simp only [List.length_drop, List.length_cons] at h2
      by_cases h3 : pos < src.length
      · exact h3
      · omega

theorem parseLiteral_stop_le (src : List Char) (pos : Nat) (errs : List PErr)
    (h : pos < src.length) :
    pos ≤ (parseLiteral src pos errs).1.stop ∧
    (parseLiteral src pos errs).1.stop ≤ src.length := by
  unfold parseLiteral
  have h1 : (List.takeWhile (fun c => !(c = ')'))
      (src.drop (pos + 1))).length ≤ (src.drop (pos + 1)).length :=
    (List.takeWhile_prefix _).length_le
  simp only [List.length_drop] at h1
  dsimp only
  split <;> (simp only [ValTok.stop]; constructor <;> omega)

theorem parseVariable_stop_le (src : List Char) (pos : Nat) (errs : List PErr)
    (h : pos < src.length) :
    pos ≤ (parseVariable src pos errs).1.stop ∧
    (parseVariable src pos errs).1.stop ≤ src.length := by
  unfold parseVariable
  have h1 := nameValue_le src (pos + 1) (by omega)
  dsimp only
  constructor
  · simp only [ValTok.stop]
    omega
  · simp only [ValTok.stop]
    omega

theorem parseNmtoken_stop_le (src : List Char) (pos : Nat) (errs : List PErr)
    (h : pos ≤ src.length) :
    pos ≤ (parseNmtoken src pos errs).1.stop ∧
    (parseNmtoken src pos errs).1.stop ≤ src.length := by
  unfold parseNmtoken
  have h1 := nameValue_le src pos h
  constructor
  · simp only [ValTok.stop]
    omega
  · simp only [ValTok.stop]
    omega

theorem parseOption_stop_le (src : List Char) (start : Nat) (errs : List PErr)
    (h : start ≤ src.length) :
    start ≤ (parseOption src start errs).1.stop ∧
    (parseOption src start errs).1.stop ≤ src.length := by
  unfold parseOption
  dsimp only
  have hname := nameValue_le src start h
  have hws1 := whitespaces_le' src (start + (parseNameValue src start).length)
    (by omega)
  by_cases heq : charAt src (start + (parseNameValue src start).length
      + whitespaces src (start + (parseNameValue src start).length))
      = some '='
  · rw [if_pos heq]
    dsimp only
    have hlt := charAt_lt _ _ _ heq
    have hws2 := whitespaces_le' src
      (start + (parseNameValue src start).length
        + whitespaces src (start + (parseNameValue src start).length) + 1)
      (by omega)
    split
    next heq2 =>
      have h4 := parseLiteral_stop_le src _ errs (charAt_lt _ _ _ heq2)
      constructor <;> omega
    next heq2 =>
      have h4 := parseVariable_stop_le src _ errs (charAt_lt _ _ _ heq2)
      constructor <;> omega
    next h1 h2 =>
      have h4 := parseNmtoken_stop_le src
        (start + (parseNameValue src start).length
          + whitespaces src (start + (parseNameValue src start).length) + 1
          + whitespaces src (start + (parseNameValue src start).length
            + whitespaces src (start + (parseNameValue src start).length) + 1))
        errs (by omega)
      constructor <;> omega
  · rw [if_neg heq]
    dsimp only
    have hws2 := whitespaces_le' src
      (start + (parseNameValue src start).length
        + whitespaces src (start + (parseNameValue src start).length))
      (by omega)
    split
    next heq2 =>
      have h4 := parseLiteral_stop_le src _
        (errs ++ [⟨"missing-char",
          start + (parseNameValue src start).length
            + whitespaces src (start + (parseNameValue src start).length),
          none, some '='⟩]) (charAt_lt _ _ _ heq2)
      constructor <;> omega
    next heq2 =>
      have h4 := parseVariable_stop_le src _
        (errs ++ [⟨"missing-char",
          start + (parseNameValue src start).length
            + whitespaces src (start + (parseNameValue src start).length),
          none, some '='⟩]) (charAt_lt _ _ _ heq2)
      constructor <;> omega
    next h1 h2 =>
      have h4 := parseNmtoken_stop_le src
        (start + (parseNameValue src start).length
          + whitespaces src (start + (parseNameValue src start).length)
          + whitespaces src (start + (parseNameValue src start).length
            + whitespaces src (start + (parseNameValue src start).length)))
        (errs ++ [⟨"missing-char",
          start + (parseNameValue src start).length
            + whitespaces src (start + (parseNameValue src start).length),
          none, some '='⟩]) (by omega)
      constructor <;> omega

theorem optionLoop_pos_le (src : List Char) :
    ∀ (fuelm pos : Nat) (acc : List OptionTok) (errs : List PErr),
    src.length - pos ≤ fuelm → pos ≤ src.length →
    (optionLoop src pos acc errs).2.1 ≤ src.length := by
  intro fuelm
  induction fuelm with
  | zero =>
      intro pos acc errs hf hp
      rw [optionLoop]
      have hnp : ¬ pos < src.length := by omega
      rw [dif_neg hnp]
      exact hp
  | succ m ih =>
      intro pos acc errs hf hp
      rw [optionLoop]
      by_cases hlt : pos < src.length
      · rw [dif_pos hlt]
        dsimp only
        by_cases hbr : charAt src (pos + whitespaces src pos) = some '}'
        · rw [if_pos hbr]
          exact hp
        · rw [if_neg hbr]
          have hwle := whitespaces_le' src pos (by omega)
          have hopt := parseOption_stop_le src (pos + whitespaces src pos)
            (if whitespaces src pos = 0
              then errs ++ [⟨"missing-char", pos, none, some ' '⟩] else errs)
            (by omega)
          by_cases hstop : (parseOption src (pos + whitespaces src pos)
              (if whitespaces src pos = 0
                then errs ++ [⟨"missing-char", pos, none, some ' '⟩]
                else errs)).1.stop = pos + whitespaces src pos
          · rw [dif_pos hstop]
            exact hwle
          · rw [dif_neg hstop]
            exact ih _ _ _ (by omega) hopt.2
      · rw [dif_neg hlt]
        exact hp

theorem optionLoop_pos_le' (src : List Char) (pos : Nat)
    (acc : List OptionTok) (errs : List PErr) (hp : pos ≤ src.length) :
    (optionLoop src pos acc errs).2.1 ≤ src.length :=
  optionLoop_pos_le src src.length pos acc errs (by omega) hp

theorem parseExpressionOrMarkup_stop_le (src : List Char) (start : Nat)
    (operand : Option ValTok) (errs : List PErr) (h : start < src.length) :
    (parseExpressionOrMarkup src start operand errs).1.stop ≤ src.length := by
  unfold parseExpressionOrMarkup
  dsimp only
  have hname := nameValue_le src (start + 1) (by omega)
  have hloop := optionLoop_pos_le' src
    (start + 1 + (parseNameValue src (start + 1)).length) []
    (if (parseNameValue src (start + 1)).isEmpty = true
      then errs ++ [⟨"empty-token", start + 1, none, none⟩] else errs)
    (by omega)
  by_cases hc1 : charAt src start = some ':'
  · rw [if_pos hc1]
    dsimp only [PBody.stop]
    exact hloop
  · rw [if_neg hc1]
    by_cases hc2 : charAt src start = some '+'
    · rw [if_pos hc2]
      dsimp only [PBody.stop]
      exact hloop
    · rw [if_neg hc2]
      dsimp only [PBody.stop]
      exact hloop

theorem parsePlaceholderBody_pos_le (src : List Char) (start : Nat)
    (errs : List PErr) (h : start < src.length) :
    (parsePlaceholderBody src start errs).2.1 ≤ src.length := by
  unfold parsePlaceholderBody
  dsimp only
  have hws0 := whitespaces_le' src (start + 1) (by omega)
  split
  next heqS =>
      dsimp only
      exact parseExpressionOrMarkup_stop_le _ _ _ _ (charAt_lt _ _ _ heqS)
  next heqS =>
      dsimp only
      exact parseExpressionOrMarkup_stop_le _ _ _ _ (charAt_lt _ _ _ heqS)
  next heqS =>
      dsimp only
      exact parseExpressionOrMarkup_stop_le _ _ _ _ (charAt_lt _ _ _ heqS)
  next h1 h2 h3 =>
      split
      next a heqA =>
          split at heqA
          next heqC =>
              dsimp only at heqA
              obtain rfl := Option.some.inj heqA
              dsimp only
              have harg := parseLiteral_stop_le src _ errs
                (charAt_lt _ _ _ heqC)
              have hws1 := whitespaces_le' src
                ((parseLiteral src (start + 1 + whitespaces src (start + 1))
                  errs).1.stop) (by omega)
              omega
          next heqC =>
              dsimp only at heqA
              obtain rfl := Option.some.inj heqA
              dsimp only
              have harg := parseVariable_stop_le src _ errs
                (charAt_lt _ _ _ heqC)
              have hws1 := whitespaces_le' src
                ((parseVariable src (start + 1 + whitespaces src (start + 1))
                  errs).1.stop) (by omega)
              omega
          next g1 g2 =>
              simp at heqA
      next heqA =>
          dsimp only
          have hws1 := whitespaces_le' src
            (start + 1 + whitespaces src (start + 1)) (by omega)
          omega

theorem closePlaceholder_stop_le (src : List Char) (start pos0 : Nat)
    (body : PBody) (errs : List PErr) (junkStart : Option Nat)
    (h : pos0 ≤ src.length) :
    (closePlaceholder src start pos0 body errs junkStart).1.stop
      ≤ src.length := by
  unfold closePlaceholder
  dsimp only
  have hws := whitespaces_le' src pos0 h
  by_cases hge : pos0 + whitespaces src pos0 ≥ src.length
  · rw [if_pos hge]
    dsimp only
    omega
  · rw [if_neg hge]
    by_cases hbr : charAt src (pos0 + whitespaces src pos0) = some '}'
    · rw [if_pos hbr]
      dsimp only
      omega
    · rw [if_neg hbr]
      have htw : (List.takeWhile (fun c => !(c = '}'))
          (src.drop (pos0 + whitespaces src pos0))).length
          ≤ (src.drop (pos0 + whitespaces src pos0)).length :=
        (List.takeWhile_prefix _).length_le
      simp only [List.length_drop] at htw
      cases junkStart <;> (dsimp only; omega)

theorem parsePlaceholder_stop_le (src : List Char) (start : Nat)
    (errs : List PErr) (h : start < src.length) :
    (parsePlaceholder src start errs).1.stop ≤ src.length := by
  unfold parsePlaceholder
  dsimp only
  exact closePlaceholder_stop_le src start _ _ _ _
    (parsePlaceholderBody_pos_le src start errs h)

theorem parseLiteral_cnt (src : List Char) (pos : Nat) (errs : List PErr) :
    List.countP isMissingRBrace (parseLiteral src pos errs).2
      = List.countP isMissingRBrace errs := by
  unfold parseLiteral
  dsimp only
  split
  · rfl
  · simp [List.countP_append, List.countP_cons, isMissingRBrace]

theorem parseVariable_cnt (src : List Char) (pos : Nat) (errs : List PErr) :
    List.countP isMissingRBrace (parseVariable src pos errs).2
      = List.countP isMissingRBrace errs := by
  unfold parseVariable
  dsimp only
  split
  · simp [List.countP_append, List.countP_cons, isMissingRBrace]
  · rfl

theorem parseNmtoken_cnt (src : List Char) (pos : Nat) (errs : List PErr) :
    List.countP isMissingRBrace (parseNmtoken src pos errs).2
      = List.countP isMissingRBrace errs := by
  unfold parseNmtoken
  dsimp only
  split
  · simp [List.countP_append, List.countP_cons, isMissingRBrace]
  · rfl

theorem parseOption_cnt (src : List Char) (start : Nat) (errs : List PErr) :
    List.countP isMissingRBrace (parseOption src start errs).2
      = List.countP isMissingRBrace errs := by
  unfold parseOption
  dsimp only
  by_cases heq : charAt src (start + (parseNameValue src start).length
      + whitespaces src (start + (parseNameValue src start).length))
      = some '='
  · rw [if_pos heq]
    dsimp only
    split
    next heq2 => exact parseLiteral_cnt src _ errs
    next heq2 => exact parseVariable_cnt src _ errs
    next h1 h2 => exact parseNmtoken_cnt src _ errs
  · rw [if_neg heq]
    dsimp only
    have hmid : List.countP isMissingRBrace (errs ++ [⟨"missing-char",
        start + (parseNameValue src start).length
          + whitespaces src (start + (parseNameValue src start).length),
        none, some '='⟩]) = List.countP isMissingRBrace errs := by
      simp [List.countP_append, List.countP_cons, isMissingRBrace]
    split
    next heq2 => rw [parseLiteral_cnt src _ _, hmid]
    next heq2 => rw [parseVariable_cnt src _ _, hmid]
    next h1 h2 => rw [parseNmtoken_cnt src _ _, hmid]

theorem optionLoop_cnt (src : List Char) :
    ∀ (fuelm pos : Nat) (acc : List OptionTok) (errs : List PErr),
    src.length - pos ≤ fuelm →
    List.countP isMissingRBrace (optionLoop src pos acc errs).2.2
      = List.countP isMissingRBrace errs := by
  intro fuelm
  induction fuelm with
  | zero =>
      intro pos acc errs hf
      rw [optionLoop]
      have hnp : ¬ pos < src.length := by omega
      rw [dif_neg hnp]
  | succ m ih =>
      intro pos acc errs hf
      rw [optionLoop]
      by_cases hlt : pos < src.length
      · rw [dif_pos hlt]
        dsimp only
        by_cases hbr : charAt src (pos + whitespaces src pos) = some '}'
        · rw [if_pos hbr]
        · rw [if_neg hbr]
          have hwle := whitespaces_le' src pos (by omega)
          have hopt := parseOption_stop_le src (pos + whitespaces src pos)
            (if whitespaces src pos = 0
              then errs ++ [⟨"missing-char", pos, none, some ' '⟩] else errs)
            (by omega)
          have hcnt1 : List.countP isMissingRBrace
              (if whitespaces src pos = 0
                then errs ++ [⟨"missing-char", pos, none, some ' '⟩]
                else errs)
              = List.countP isMissingRBrace errs := by
            split
            · simp [List.countP_append, List.countP_cons, isMissingRBrace]
            · rfl
          by_cases hstop : (parseOption src (pos + whitespaces src pos)
              (if whitespaces src pos = 0
                then errs ++ [⟨"missing-char", pos, none, some ' '⟩]
                else errs)).1.stop = pos + whitespaces src pos
          · rw [dif_pos hstop]
            dsimp only
            rw [parseOption_cnt, hcnt1]
          · rw [dif_neg hstop]
            rw [ih _ _ _ (by omega)]
            rw [parseOption_cnt, hcnt1]
      · rw [dif_neg hlt]

theorem optionLoop_cnt' (src : List Char) (pos : Nat) (acc : List OptionTok)
    (errs : List PErr) :
    List.countP isMissingRBrace (optionLoop src pos acc errs).2.2
      = List.countP isMissingRBrace errs :=
  optionLoop_cnt src (src.length - pos) pos acc errs (by omega)

theorem parseExpressionOrMarkup_cnt (src : List Char) (start : Nat)
    (operand : Option ValTok) (errs : List PErr) :
    List.countP isMissingRBrace
      (parseExpressionOrMarkup src start operand errs).2
      = List.countP isMissingRBrace errs := by
  unfold parseExpressionOrMarkup
  dsimp only
  have hcnt0 : List.countP isMissingRBrace
      (if (parseNameValue src (start + 1)).isEmpty = true
        then errs ++ [⟨"empty-token", start + 1, none, none⟩] else errs)
      = List.countP isMissingRBrace errs := by
    split
    · simp [List.countP_append, List.countP_cons, isMissingRBrace]
    · rfl
  have hloop := optionLoop_cnt' src
    (start + 1 + (parseNameValue src (start + 1)).length) []
    (if (parseNameValue src (start + 1)).isEmpty = true
      then errs ++ [⟨"empty-token", start + 1, none, none⟩] else errs)
  by_cases hc1 : charAt src start = some ':'
  · rw [if_pos hc1]
    dsimp only
    rw [hloop, hcnt0]
  · rw [if_neg hc1]
    cases operand with
    | some op =>
        dsimp only
        by_cases hc2 : charAt src start = some '+'
        · rw [if_pos hc2]
          dsimp only
          simp only [List.countP_cons]
          rw [hloop, hcnt0]
          simp [isMissingRBrace]
        · rw [if_neg hc2]
          dsimp only
          split
          next heq0 =>
              simp only [List.countP_cons]
              rw [hloop, hcnt0]
              simp [isMissingRBrace]
          next o rest heq0 =>
              simp only [List.countP_append, List.countP_cons]
              rw [hloop, hcnt0]
              simp [isMissingRBrace]
    | none =>
        dsimp only
        by_cases hc2 : charAt src start = some '+'
        · rw [if_pos hc2]
          dsimp only
          rw [hloop, hcnt0]
        · rw [if_neg hc2]
          dsimp only
          split
          next heq0 =>
              rw [hloop, hcnt0]
          next o rest heq0 =>
              simp only [List.countP_append, List.countP_cons]
              rw [hloop, hcnt0]
              simp [isMissingRBrace]

theorem parsePlaceholderBody_cnt (src : List Char) (start : Nat)
    (errs : List PErr) :
    List.countP isMissingRBrace
      (parsePlaceholderBody src start errs).2.2.2
      = List.countP isMissingRBrace errs := by
  unfold parsePlaceholderBody
  dsimp only
  split
  next heqS =>
      dsimp only
      rw [parseExpressionOrMarkup_cnt]
      split
      next heqC => exact parseLiteral_cnt src _ errs
      next heqC => exact parseVariable_cnt src _ errs
      next g1 g2 => rfl
  next heqS =>
      dsimp only
      rw [parseExpressionOrMarkup_cnt]
      split
      next heqC => exact parseLiteral_cnt src _ errs
      next heqC => exact parseVariable_cnt src _ errs
      next g1 g2 => rfl
  next heqS =>
      dsimp only
      rw [parseExpressionOrMarkup_cnt]
      split
      next heqC => exact parseLiteral_cnt src _ errs
      next heqC => exact parseVariable_cnt src _ errs
      next g1 g2 => rfl
  next h1 h2 h3 =>
      split
      next a heqA =>
          dsimp only
          split
          next heqC => exact parseLiteral_cnt src _ errs
          next heqC => exact parseVariable_cnt src _ errs
          next g1 g2 => rfl
      next heqA =>
          dsimp only
          split
          next heqC => exact parseLiteral_cnt src _ errs
          next heqC => exact parseVariable_cnt src _ errs
          next g1 g2 => rfl

theorem parsePlaceholder_truncated (src : List Char) (start : Nat)
    (errs0 : List PErr) (h : start < src.length)
    (htr : src.length ≤ (parsePlaceholderBody src start errs0).2.1
      + whitespaces src (parsePlaceholderBody src start errs0).2.1) :
    ∃ l, (parsePlaceholder src start errs0).2
        = l ++ [⟨"missing-char", src.length, none, some '}'⟩]
      ∧ List.countP isMissingRBrace l = List.countP isMissingRBrace errs0 := by
  have hble := parsePlaceholderBody_pos_le src start errs0 h
  have hwle := whitespaces_le' src (parsePlaceholderBody src start errs0).2.1
    hble
  have hpos : (parsePlaceholderBody src start errs0).2.1
      + whitespaces src (parsePlaceholderBody src start errs0).2.1
      = src.length := by omega
  unfold parsePlaceholder
  dsimp only
  unfold closePlaceholder
  dsimp only
  rw [hpos]
  rw [if_pos (le_refl src.length)]
  dsimp only
  split
  next j heqJ =>
      refine ⟨(parsePlaceholderBody src start errs0).2.2.2
        ++ [⟨"parse-error", j, some j, none⟩], rfl, ?_⟩
      simp only [List.countP_append, List.countP_cons]
      rw [parsePlaceholderBody_cnt]
      simp [isMissingRBrace]
  next heqJ =>
      refine ⟨(parsePlaceholderBody src start errs0).2.2.2, rfl, ?_⟩
      exact parsePlaceholderBody_cnt src start errs0

/-- C4 (amended): the parser always terminates (it is a total function of
its embedding) and, for every in-range start offset, returns a node whose
end offset is at most the source length; whenever the close phase reaches
end-of-input without a closing brace, exactly one closing-brace
missing-char error is appended, positioned exactly at end-of-input. -/
theorem claim_C4 :
    (∀ (src : List Char) (start : Nat) (errs : List PErr),
      start < src.length →
      (parsePlaceholder src start errs).1.stop ≤ src.length) ∧
    (∀ (src : List Char) (start : Nat) (errs0 : List PErr),
      start < src.length →
      src.length ≤ (parsePlaceholderBody src start errs0).2.1
        + whitespaces src (parsePlaceholderBody src start errs0).2.1 →
      ∃ l, (parsePlaceholder src start errs0).2
          = l ++ [⟨"missing-char", src.length, none, some '}'⟩]
        ∧ List.countP isMissingRBrace l
          = List.countP isMissingRBrace errs0) :=
  ⟨parsePlaceholder_stop_le, parsePlaceholder_truncated⟩

/-- C4 counterexample: a truncated placeholder whose body is junk (the
closing brace is missing before end-of-input) produces no missing-char
error at all - the junk scan swallows the rest of the input and only a
parse-error is recorded - refuting the claim that every truncated
placeholder yields exactly one missing-char error. -/
theorem claim_C4_cx :
    ('}' ∉ (['{', 'a', 'b', 'c'] : List Char)) ∧
    List.countP isMissingCharErr
      (parsePlaceholder ['{', 'a', 'b', 'c'] 0 []).2 = 0 := by
  decide

theorem claim_C4_witness :
    (0 < (['{', '(', 'a'] : List Char).length ∧
     (['{', '(', 'a'] : List Char).length
       ≤ (parsePlaceholderBody ['{', '(', 'a'] 0 []).2.1
         + whitespaces ['{', '(', 'a']
             (parsePlaceholderBody ['{', '(', 'a'] 0 []).2.1) ∧
    ((parsePlaceholder ['{', '(', 'a'] 0 []).1.stop
        ≤ (['{', '(', 'a'] : List Char).length ∧
     ∃ l, (parsePlaceholder ['{', '(', 'a'] 0 []).2
          = l ++ [⟨"missing-char", (['{', '(', 'a'] : List Char).length,
              none, some '}'⟩]
        ∧ List.countP isMissingRBrace l
          = List.countP isMissingRBrace ([] : List PErr)) :=
  ⟨⟨by decide, by decide⟩,
    claim_C4.1 ['{', '(', 'a'] 0 [] (by decide),
    claim_C4.2 ['{', '(', 'a'] 0 [] (by decide) (by decide)⟩
